import Mathlib

/-!
# The file-capability codec of libcap (`libcap/cap_file.c`)

A shallow embedding of `_fcaps_load` and `_fcaps_save`, the decoder and the
encoder of the `security.capability` extended attribute, followed by the
properties of the codec that are proved about them.

The embedding is of the configuration in which `VFS_CAP_U32` and
`VFS_CAP_REVISION_1`, `_2` and `_3` are defined, so that the raw record is a
`struct vfs_ns_cap_data`.

Conventions of the embedding:

* `__u32` values are natural numbers; a value inhabits the C type when it is
  below `2 ^ 32` (`cap_struct.typed`, `vfs_ns_cap_data.typed`).
* C arrays are lists, read with `List.getD` and written with `List.set`.
* `int` values are integers; the one place where the C arithmetic converts
  back to `int` (`bytes -= XATTR_CAPS_SZ_n`) goes through `to_int`.
* The host byte order, `__BYTE_ORDER == __BIG_ENDIAN`, is the boolean
  parameter `be` of every function that uses `FIXUP_32BITS`.
* The constants that `cap_file.c` takes from `libcap.h`,
  `linux/capability.h` and `errno.h` are the fields of `Consts`; `linux`
  holds the values of the Linux UAPI headers.
-/

namespace CapFile

/-! ## Constants taken from headers -/

/-- Modelled from the spec: the constants and macros of `libcap.h`,
`linux/capability.h` and `errno.h` that `cap_file.c` uses are not defined in
the source file. They are the parameters of the embedding. -/
structure Consts where
  VFS_CAP_REVISION_MASK : Nat
  VFS_CAP_FLAGS_EFFECTIVE : Nat
  VFS_CAP_REVISION_1 : Nat
  VFS_CAP_U32_1 : Nat
  XATTR_CAPS_SZ_1 : Nat
  VFS_CAP_REVISION_2 : Nat
  VFS_CAP_U32_2 : Nat
  XATTR_CAPS_SZ_2 : Nat
  VFS_CAP_REVISION_3 : Nat
  VFS_CAP_U32_3 : Nat
  XATTR_CAPS_SZ_3 : Nat
  _LINUX_CAPABILITY_VERSION_1 : Nat
  _LINUX_CAPABILITY_VERSION_2 : Nat
  _LINUX_CAPABILITY_VERSION_3 : Nat
  __CAP_BLKS : Nat
  CAP_T_MAGIC : Nat
  EINVAL : Int
  deriving Repr, DecidableEq

/-- Modelled from the spec: the headers are not among the source files. The
block counts 1, 2, 2 and the sizes of the three revisions follow the table and
the byte layout of the specification; the tags, the mask, the flag, the
versions, the magic word and `EINVAL` are the values of `linux/capability.h`,
`libcap.h` and `errno.h` on Linux. -/
def linux : Consts where
  VFS_CAP_REVISION_MASK := 0xFF000000
  VFS_CAP_FLAGS_EFFECTIVE := 0x000001
  VFS_CAP_REVISION_1 := 0x01000000
  VFS_CAP_U32_1 := 1
  XATTR_CAPS_SZ_1 := 12
  VFS_CAP_REVISION_2 := 0x02000000
  VFS_CAP_U32_2 := 2
  XATTR_CAPS_SZ_2 := 20
  VFS_CAP_REVISION_3 := 0x03000000
  VFS_CAP_U32_3 := 2
  XATTR_CAPS_SZ_3 := 24
  _LINUX_CAPABILITY_VERSION_1 := 0x19980330
  _LINUX_CAPABILITY_VERSION_2 := 0x20071026
  _LINUX_CAPABILITY_VERSION_3 := 0x20080522
  __CAP_BLKS := 2
  CAP_T_MAGIC := 0xCA90D0
  EINVAL := 22

/-- What the headers guarantee about the constants: the `case` labels of each
`switch` are distinct, a revision tag lies inside `VFS_CAP_REVISION_MASK` and
the effective flag outside of it, no revision copies more blocks than a
capability set has, `VFS_CAP_U32` (the length of `data`, `VFS_CAP_U32_3`) is
`__CAP_BLKS` (the `#error` check of `cap_file.c`), `VFS_CAP_U32_3` is defined
as `VFS_CAP_U32_2`, and each `XATTR_CAPS_SZ_n`
is the size of `magic_etc` plus `VFS_CAP_U32_n` pairs of words, plus the
root id for revision 3. -/
structure Consts.Valid (k : Consts) : Prop where
  rev_12 : k.VFS_CAP_REVISION_1 ≠ k.VFS_CAP_REVISION_2
  rev_13 : k.VFS_CAP_REVISION_1 ≠ k.VFS_CAP_REVISION_3
  rev_23 : k.VFS_CAP_REVISION_2 ≠ k.VFS_CAP_REVISION_3
  rev_1_mask : k.VFS_CAP_REVISION_1 &&& k.VFS_CAP_REVISION_MASK = k.VFS_CAP_REVISION_1
  rev_2_mask : k.VFS_CAP_REVISION_2 &&& k.VFS_CAP_REVISION_MASK = k.VFS_CAP_REVISION_2
  rev_3_mask : k.VFS_CAP_REVISION_3 &&& k.VFS_CAP_REVISION_MASK = k.VFS_CAP_REVISION_3
  flag_mask : k.VFS_CAP_FLAGS_EFFECTIVE &&& k.VFS_CAP_REVISION_MASK = 0
  flag_ne : k.VFS_CAP_FLAGS_EFFECTIVE ≠ 0
  mask_u32 : k.VFS_CAP_REVISION_MASK < 2 ^ 32
  flag_u32 : k.VFS_CAP_FLAGS_EFFECTIVE < 2 ^ 32
  ver_12 : k._LINUX_CAPABILITY_VERSION_1 ≠ k._LINUX_CAPABILITY_VERSION_2
  ver_13 : k._LINUX_CAPABILITY_VERSION_1 ≠ k._LINUX_CAPABILITY_VERSION_3
  ver_23 : k._LINUX_CAPABILITY_VERSION_2 ≠ k._LINUX_CAPABILITY_VERSION_3
  u32_1 : k.VFS_CAP_U32_1 ≤ k.__CAP_BLKS
  u32_2 : k.VFS_CAP_U32_2 ≤ k.__CAP_BLKS
  u32_3 : k.VFS_CAP_U32_3 = k.__CAP_BLKS
  u32_23 : k.VFS_CAP_U32_3 = k.VFS_CAP_U32_2
  sz_1 : k.XATTR_CAPS_SZ_1 = 4 + 8 * k.VFS_CAP_U32_1
  sz_2 : k.XATTR_CAPS_SZ_2 = 4 + 8 * k.VFS_CAP_U32_2
  sz_3 : k.XATTR_CAPS_SZ_3 = 4 + 8 * k.VFS_CAP_U32_3 + 4
  sz_int : k.XATTR_CAPS_SZ_3 < 2 ^ 31

/-! ## Data model -/

/-- Modelled from the spec: `struct _cap_struct` is declared in `libcap.h`, not
in the source file. One block `cap_d->u[i]` of a capability set: the three
32-bit masks `flat[CAP_EFFECTIVE]`, `flat[CAP_PERMITTED]` and
`flat[CAP_INHERITABLE]`. -/
structure cap_flat where
  effective : Nat
  permitted : Nat
  inheritable : Nat
  deriving Repr, DecidableEq, Inhabited

/-- Modelled from the spec: `struct __user_cap_header_struct` is declared in
`linux/capability.h`, not in the source file. The header of a capability set,
whose `version` is the requested ABI version. -/
structure user_cap_header_struct where
  version : Nat
  pid : Int
  deriving Repr, DecidableEq, Inhabited

/-- Modelled from the spec: `struct _cap_struct` is declared in `libcap.h`, not
in the source file. The capability set behind a `cap_t`: the header, the blocks
`u[]` and the namespace root id. The field `magic` is the word that the
allocator stores in front of the structure and that `good_cap_t` inspects. -/
structure cap_struct where
  magic : Nat
  head : user_cap_header_struct
  u : List cap_flat
  rootid : Nat
  deriving Repr, DecidableEq, Inhabited

/-- Modelled from the spec: `struct vfs_ns_cap_data` is declared in
`linux/capability.h`, not in the source file. One element of
`rawvfscap->data[]`: the `permitted` word, then the `inheritable` word. -/
structure vfs_data where
  permitted : Nat
  inheritable : Nat
  deriving Repr, DecidableEq, Inhabited

/-- Modelled from the spec: `struct vfs_ns_cap_data` is declared in
`linux/capability.h`, not in the source file. The raw record that is exchanged
with the extended attribute: `magic_etc`, the elements of `data`, `rootid`. -/
structure vfs_ns_cap_data where
  magic_etc : Nat
  data : List vfs_data
  rootid : Nat
  deriving Repr, DecidableEq, Inhabited

/-- The words of a capability set inhabit their C types: `u` has `__CAP_BLKS`
elements and every word is a `__u32`. -/
def cap_struct.typed (k : Consts) (c : cap_struct) : Prop :=
  c.u.length = k.__CAP_BLKS ∧ c.rootid < 2 ^ 32 ∧
    ∀ b ∈ c.u, b.effective < 2 ^ 32 ∧ b.permitted < 2 ^ 32 ∧ b.inheritable < 2 ^ 32

instance (k : Consts) (c : cap_struct) : Decidable (c.typed k) := by
  unfold cap_struct.typed
  infer_instance

/-- The words of a raw record inhabit their C types: `data` has `VFS_CAP_U32`
(that is `__CAP_BLKS`) elements and every word is a `__u32`. -/
def vfs_ns_cap_data.typed (k : Consts) (r : vfs_ns_cap_data) : Prop :=
  r.data.length = k.__CAP_BLKS ∧ r.magic_etc < 2 ^ 32 ∧ r.rootid < 2 ^ 32 ∧
    ∀ d ∈ r.data, d.permitted < 2 ^ 32 ∧ d.inheritable < 2 ^ 32

instance (k : Consts) (r : vfs_ns_cap_data) : Decidable (r.typed k) := by
  unfold vfs_ns_cap_data.typed
  infer_instance

/-- A capability set as `cap_init` hands it out: every word of every block is
zero. -/
def cap_struct.zeroed (k : Consts) (c : cap_struct) : Prop :=
  c.u = List.replicate k.__CAP_BLKS ⟨0, 0, 0⟩

instance (k : Consts) (c : cap_struct) : Decidable (c.zeroed k) := by
  unfold cap_struct.zeroed
  infer_instance

/-! ## Machine arithmetic -/

/-- Conversion of an integer to the 32-bit two's complement `int`. -/
def to_int (x : Int) : Int := (x + 2 ^ 31) % 2 ^ 32 - 2 ^ 31

/-- The `~` operator on a `__u32`. -/
def not_u32 (x : Nat) : Nat := (2 ^ 32 - 1) ^^^ (x % 2 ^ 32)

/-- The function `bswap_32` of `<byteswap.h>`: the four bytes of a 32-bit word
in reverse order. -/
def bswap_32 (x : Nat) : Nat :=
  (x / 2 ^ 24 % 256) + (x / 2 ^ 16 % 256) * 2 ^ 8 + (x / 2 ^ 8 % 256) * 2 ^ 16
    + (x % 256) * 2 ^ 24

/-- The macro `FIXUP_32BITS`: `bswap_32` on a big-endian host, the identity on
a little-endian one. -/
def FIXUP_32BITS (be : Bool) (x : Nat) : Nat := if be then bswap_32 x else x

/-- The four bytes that a `__u32` occupies in the memory of the host, lowest
address first. -/
def word_bytes (be : Bool) (x : Nat) : List Nat :=
  if be then [x / 2 ^ 24 % 256, x / 2 ^ 16 % 256, x / 2 ^ 8 % 256, x % 256]
  else [x % 256, x / 2 ^ 8 % 256, x / 2 ^ 16 % 256, x / 2 ^ 24 % 256]

/-- The little-endian encoding of a 32-bit word. -/
def le32 (x : Nat) : List Nat :=
  [x % 256, x / 2 ^ 8 % 256, x / 2 ^ 16 % 256, x / 2 ^ 24 % 256]

/-- The eight bytes that one element of `data` occupies in the memory of the
host: `permitted`, then `inheritable`. -/
def data_bytes (be : Bool) (d : vfs_data) : List Nat :=
  word_bytes be d.permitted ++ word_bytes be d.inheritable

/-- The bytes of a raw record in the memory of the host: `magic_etc`, then the
elements of `data` (`permitted` before `inheritable`), then `rootid`. There is
no padding in the structure, all its members being 32-bit words. -/
def record_bytes (be : Bool) (r : vfs_ns_cap_data) : List Nat :=
  word_bytes be r.magic_etc ++ r.data.flatMap (data_bytes be) ++ word_bytes be r.rootid

/-! ## The decoder `_fcaps_load` -/

/-- The loop `for (i=0; i < tocopy; i++)` of `_fcaps_load`, with `n` iterations
left at index `i`. -/
def load_copy (k : Consts) (be : Bool) (magic_etc : Nat) (rawvfscap : vfs_ns_cap_data) :
    Nat → Nat → cap_struct → cap_struct
  | 0, _, result => result
  | n + 1, i, result =>
    let b0 := result.u.getD i default
    let b1 := { b0 with
      inheritable := FIXUP_32BITS be (rawvfscap.data.getD i default).inheritable }
    let b2 := { b1 with
      permitted := FIXUP_32BITS be (rawvfscap.data.getD i default).permitted }
    let b3 :=
      if magic_etc &&& k.VFS_CAP_FLAGS_EFFECTIVE ≠ 0 then
        { b2 with effective := b2.inheritable ||| b2.permitted }
      else b2
    load_copy k be magic_etc rawvfscap n (i + 1) { result with u := result.u.set i b3 }

/-- The loop `while (i < __CAP_BLKS)` of `_fcaps_load`, with `n` iterations left
at index `i`. -/
def load_clear : Nat → Nat → cap_struct → cap_struct
  | 0, _, result => result
  | n + 1, i, result =>
    load_clear n (i + 1) { result with u := result.u.set i ⟨0, 0, 0⟩ }

/-- The `switch` of `_fcaps_load` on the revision tag: the number of blocks to
copy and the byte count left after the subtraction, or `none` in the `default`
case. -/
def load_switch (k : Consts) (magic_etc : Nat) (bytes : Int) : Option (Nat × Int) :=
  if magic_etc &&& k.VFS_CAP_REVISION_MASK = k.VFS_CAP_REVISION_1 then
    some (k.VFS_CAP_U32_1, to_int (bytes - k.XATTR_CAPS_SZ_1))
  else if magic_etc &&& k.VFS_CAP_REVISION_MASK = k.VFS_CAP_REVISION_2 then
    some (k.VFS_CAP_U32_2, to_int (bytes - k.XATTR_CAPS_SZ_2))
  else if magic_etc &&& k.VFS_CAP_REVISION_MASK = k.VFS_CAP_REVISION_3 then
    some (k.VFS_CAP_U32_3, to_int (bytes - k.XATTR_CAPS_SZ_3))
  else none

/-- The decoder `_fcaps_load(rawvfscap, result, bytes)`. The result `none` is
the `NULL` that the function returns after `cap_free(result)`. -/
def _fcaps_load (k : Consts) (be : Bool) (rawvfscap : vfs_ns_cap_data)
    (result : cap_struct) (bytes : Int) : Option cap_struct :=
  let magic_etc := FIXUP_32BITS be rawvfscap.magic_etc
  match load_switch k magic_etc bytes with
  | none => none
  | some (tocopy, bytes) =>
    if bytes ≠ 0 then none
    else
      let result := load_copy k be magic_etc rawvfscap tocopy 0 result
      let result := load_clear (k.__CAP_BLKS - tocopy) tocopy result
      some { result with rootid := FIXUP_32BITS be rawvfscap.rootid }

/-! ## The encoder `_fcaps_save` -/

/-- What a call of `_fcaps_save` leaves behind: the returned value, the raw
record, `*bytes_p` and `errno`. -/
structure save_result where
  ret : Int
  rawvfscap : vfs_ns_cap_data
  bytes : Int
  errno : Int
  deriving Repr, DecidableEq

/-- Modelled from the spec: the macro `good_cap_t` of `libcap.h` is not part of
`cap_file.c`; a set is well-formed when it is non-null and internally
consistent, which for libcap is the magic word `CAP_T_MAGIC` in front of the
allocation. -/
def good_cap_t (k : Consts) (cap_d : Option cap_struct) : Bool :=
  match cap_d with
  | none => false
  | some c => c.magic == k.CAP_T_MAGIC

/-- The `switch` of `_fcaps_save` on `cap_d->head.version`: the revision tag,
the number of blocks to copy and the byte count, or `none` in the `default`
case. -/
def save_switch (k : Consts) (version : Nat) : Option (Nat × Nat × Int) :=
  if version = k._LINUX_CAPABILITY_VERSION_1 then
    some (k.VFS_CAP_REVISION_1, k.VFS_CAP_U32_1, k.XATTR_CAPS_SZ_1)
  else if version = k._LINUX_CAPABILITY_VERSION_2 then
    some (k.VFS_CAP_REVISION_2, k.VFS_CAP_U32_2, k.XATTR_CAPS_SZ_2)
  else if version = k._LINUX_CAPABILITY_VERSION_3 then
    some (k.VFS_CAP_REVISION_3, k.VFS_CAP_U32_3, k.XATTR_CAPS_SZ_3)
  else none

/-- The loop `for (eff_not_zero = 0, i = 0; i < tocopy; i++)` of `_fcaps_save`,
with `n` iterations left at index `i` and the accumulated `eff_not_zero`. -/
def save_eff_not_zero (cap_d : cap_struct) : Nat → Nat → Nat → Nat
  | 0, _, eff_not_zero => eff_not_zero
  | n + 1, i, eff_not_zero =>
    save_eff_not_zero cap_d n (i + 1) (eff_not_zero ||| (cap_d.u.getD i default).effective)

/-- The loop `while (i < __CAP_BLKS)` of `_fcaps_save`, with `n` iterations left
at index `i`: `false` when it leaves through `return -1`. -/
def save_check_range (cap_d : cap_struct) : Nat → Nat → Bool
  | 0, _ => true
  | n + 1, i =>
    if (cap_d.u.getD i default).effective ≠ 0
        ∨ (cap_d.u.getD i default).inheritable ≠ 0
        ∨ (cap_d.u.getD i default).permitted ≠ 0 then false
    else save_check_range cap_d n (i + 1)

/-- The second loop `for (i=0; i < tocopy; i++)` of `_fcaps_save`, with `n`
iterations left at index `i`: the raw record as written so far, and `false`
when the loop leaves through `return -1`. -/
def save_copy (be : Bool) (cap_d : cap_struct) (eff_not_zero : Nat) :
    Nat → Nat → vfs_ns_cap_data → vfs_ns_cap_data × Bool
  | 0, _, rawvfscap => (rawvfscap, true)
  | n + 1, i, rawvfscap =>
    let d0 := rawvfscap.data.getD i default
    let d1 := { d0 with permitted := FIXUP_32BITS be (cap_d.u.getD i default).permitted }
    let d2 := { d1 with inheritable := FIXUP_32BITS be (cap_d.u.getD i default).inheritable }
    let raw := { rawvfscap with data := rawvfscap.data.set i d2 }
    if eff_not_zero ≠ 0
        ∧ (not_u32 (cap_d.u.getD i default).effective
            &&& ((cap_d.u.getD i default).permitted
                  ||| (cap_d.u.getD i default).inheritable)) ≠ 0 then (raw, false)
    else save_copy be cap_d eff_not_zero n (i + 1) raw

/-- The encoder `_fcaps_save(rawvfscap, cap_d, bytes_p)`, started with the raw
record `rawvfscap`, the value `bytes_p` of `*bytes_p` and the value `errno` of
`errno`. -/
def _fcaps_save (k : Consts) (be : Bool) (rawvfscap : vfs_ns_cap_data)
    (cap_d : Option cap_struct) (bytes_p : Int) (errno : Int) : save_result :=
  match cap_d with
  | none => ⟨-1, rawvfscap, bytes_p, k.EINVAL⟩
  | some c =>
    if good_cap_t k (some c) = false then ⟨-1, rawvfscap, bytes_p, k.EINVAL⟩
    else
      match save_switch k c.head.version with
      | none => ⟨-1, rawvfscap, bytes_p, k.EINVAL⟩
      | some (magic, tocopy, bytes) =>
        let eff_not_zero := save_eff_not_zero c tocopy 0 0
        if save_check_range c (k.__CAP_BLKS - tocopy) tocopy = false then
          ⟨-1, rawvfscap, bytes, k.EINVAL⟩
        else
          match save_copy be c eff_not_zero tocopy 0 rawvfscap with
          | (raw, false) => ⟨-1, raw, bytes, k.EINVAL⟩
          | (raw, true) =>
            let raw := { raw with rootid := FIXUP_32BITS be c.rootid }
            let magic := if raw.rootid = 0 then k.VFS_CAP_REVISION_2 else magic
            let bytes := if raw.rootid = 0 then (k.XATTR_CAPS_SZ_2 : Int) else bytes
            if eff_not_zero = 0 then
              ⟨0, { raw with magic_etc := FIXUP_32BITS be magic }, bytes, errno⟩
            else
              ⟨0, { raw with magic_etc := FIXUP_32BITS be (magic ||| k.VFS_CAP_FLAGS_EFFECTIVE) },
                bytes, errno⟩

/-! ## Auxiliary definitions for the statements -/

/-- The block that the copy loop of `_fcaps_load` leaves at index `i`, where
`old` was there before. -/
def decoded_block (k : Consts) (be : Bool) (magic_etc : Nat) (rawvfscap : vfs_ns_cap_data)
    (i : Nat) (old : cap_flat) : cap_flat where
  effective :=
    if magic_etc &&& k.VFS_CAP_FLAGS_EFFECTIVE ≠ 0 then
      FIXUP_32BITS be (rawvfscap.data.getD i default).inheritable
        ||| FIXUP_32BITS be (rawvfscap.data.getD i default).permitted
    else old.effective
  permitted := FIXUP_32BITS be (rawvfscap.data.getD i default).permitted
  inheritable := FIXUP_32BITS be (rawvfscap.data.getD i default).inheritable

/-- The test that makes the second copy loop of `_fcaps_save` leave at index
`j`. -/
def save_violation (c : cap_struct) (eff_not_zero : Nat) (j : Nat) : Prop :=
  eff_not_zero ≠ 0
    ∧ (not_u32 (c.u.getD j default).effective
        &&& ((c.u.getD j default).permitted ||| (c.u.getD j default).inheritable)) ≠ 0

/-- The element that the second copy loop of `_fcaps_save` stores at index `j`
of `data`. -/
def saved_data (be : Bool) (c : cap_struct) (j : Nat) : vfs_data where
  permitted := FIXUP_32BITS be (c.u.getD j default).permitted
  inheritable := FIXUP_32BITS be (c.u.getD j default).inheritable

/-- The record that a successful `_fcaps_save` leaves behind. -/
def saved_record (k : Consts) (be : Bool) (raw : vfs_ns_cap_data) (c : cap_struct)
    (magic tocopy : Nat) : vfs_ns_cap_data where
  magic_etc :=
    if save_eff_not_zero c tocopy 0 0 = 0 then
      FIXUP_32BITS be (if FIXUP_32BITS be c.rootid = 0 then k.VFS_CAP_REVISION_2 else magic)
    else
      FIXUP_32BITS be ((if FIXUP_32BITS be c.rootid = 0 then k.VFS_CAP_REVISION_2 else magic)
        ||| k.VFS_CAP_FLAGS_EFFECTIVE)
  data := (save_copy be c (save_eff_not_zero c tocopy 0 0) tocopy 0 raw).1.data
  rootid := FIXUP_32BITS be c.rootid

/-- The tag that a successful `_fcaps_save` stores: `VFS_CAP_REVISION_2` when
the root id is zero, the tag of the `switch` otherwise. -/
def chosen_tag (k : Consts) (c : cap_struct) (magic : Nat) : Nat :=
  if c.rootid = 0 then k.VFS_CAP_REVISION_2 else magic

/-- The logical `magic_etc` word of a successful `_fcaps_save`: the chosen tag,
with the effective flag when `eff_not_zero` is non-zero. -/
def stored_magic (k : Consts) (c : cap_struct) (magic tocopy : Nat) : Nat :=
  if save_eff_not_zero c tocopy 0 0 = 0 then chosen_tag k c magic
  else chosen_tag k c magic ||| k.VFS_CAP_FLAGS_EFFECTIVE

/-- The number of blocks of the revision that a `magic_etc` word names. -/
def revision_blocks (k : Consts) (magic_etc : Nat) : Nat :=
  if magic_etc &&& k.VFS_CAP_REVISION_MASK = k.VFS_CAP_REVISION_1 then k.VFS_CAP_U32_1
  else if magic_etc &&& k.VFS_CAP_REVISION_MASK = k.VFS_CAP_REVISION_2 then k.VFS_CAP_U32_2
  else k.VFS_CAP_U32_3

/-- The on-disk byte layout as the specification words it, for the logical
`magic_etc` word and the capability set `c`: the little-endian `magic_etc`,
then for each block of the revision named in `magic_etc` the little-endian
permitted word followed by the little-endian inheritable word, then, for
revision 3 only, the little-endian namespace root id. -/
def on_disk_layout (k : Consts) (magic_etc : Nat) (c : cap_struct) : List Nat :=
  le32 magic_etc
    ++ (List.range (revision_blocks k magic_etc)).flatMap
        (fun i => le32 (c.u.getD i default).permitted ++ le32 (c.u.getD i default).inheritable)
    ++ (if magic_etc &&& k.VFS_CAP_REVISION_MASK = k.VFS_CAP_REVISION_3 then le32 c.rootid
        else [])

/-- The on-disk size as the specification words it: four bytes of `magic_etc`,
eight bytes per block of the revision named in `magic_etc`, and four more bytes
for revision 3. -/
def on_disk_size (k : Consts) (magic_etc : Nat) : Nat :=
  4 + 8 * revision_blocks k magic_etc
    + (if magic_etc &&& k.VFS_CAP_REVISION_MASK = k.VFS_CAP_REVISION_3 then 4 else 0)

/-! ## The memory of a raw record -/

/-- The raw record as the big-endian host sees the memory in which the
little-endian host sees `r`: every 32-bit word has its bytes reversed. -/
def swap_record (r : vfs_ns_cap_data) : vfs_ns_cap_data where
  magic_etc := bswap_32 r.magic_etc
  data := r.data.map (fun d => ⟨bswap_32 d.permitted, bswap_32 d.inheritable⟩)
  rootid := bswap_32 r.rootid

/-- The 32-bit word that the host reads from four bytes of memory, lowest
address first. -/
def word_of_bytes (be : Bool) (b0 b1 b2 b3 : Nat) : Nat :=
  if be then b0 * 2 ^ 24 + b1 * 2 ^ 16 + b2 * 2 ^ 8 + b3
  else b0 + b1 * 2 ^ 8 + b2 * 2 ^ 16 + b3 * 2 ^ 24

/-- The 32-bit word that the host reads at offset `off` of the memory `mem`;
a byte beyond the end of `mem` reads as zero. -/
def word_at (be : Bool) (mem : List Nat) (off : Nat) : Nat :=
  word_of_bytes be (mem.getD off 0) (mem.getD (off + 1) 0) (mem.getD (off + 2) 0)
    (mem.getD (off + 3) 0)

/-- The raw record that the host reads from the memory `mem` of a
`struct vfs_ns_cap_data`: `magic_etc` at offset 0, element `i` of `data` at
offset `4 + 8 * i`, `rootid` behind the `__CAP_BLKS` elements of `data`. -/
def record_of_bytes (k : Consts) (be : Bool) (mem : List Nat) : vfs_ns_cap_data where
  magic_etc := word_at be mem 0
  data := (List.range k.__CAP_BLKS).map
    (fun i => ⟨word_at be mem (4 + 8 * i), word_at be mem (4 + 8 * i + 4)⟩)
  rootid := word_at be mem (4 + 8 * k.__CAP_BLKS)

/-! ## The read accessors `cap_get_file` and `cap_get_fd` -/

/-- The function `cap_get_nsowner`: the root id of the capability set. -/
def cap_get_nsowner (cap_d : cap_struct) : Nat := cap_d.rootid

/-- Modelled from the spec: the attribute store behind the system calls
`getxattr` and `fgetxattr` is not part of the source file. The outcome of the
collaborator `fetch_attribute` for one file: the bytes of the attribute, or
"not present", or an error. In the last two cases the call returns -1 and
leaves the given value in `errno`. An attribute that does not fit the buffer
is an error of the call, so `bytes` never carries more than the buffer holds. -/
inductive xattr_fetch where
  | bytes (bs : List Nat)
  | not_present (errno : Int)
  | error (errno : Int)
  deriving Repr, DecidableEq

/-- Modelled from the spec: the system call `getxattr(filename, XATTR_NAME_CAPS,
&rawvfscap, sizeof(rawvfscap))` is not part of the source file. On success it
returns the number of bytes of the attribute and has copied them to the start
of the buffer, whose other bytes keep their contents; otherwise it returns -1
and sets `errno`. The result is the returned value, the buffer and `errno`. -/
def getxattr (k : Consts) (be : Bool) (fetch : xattr_fetch) (rawvfscap : vfs_ns_cap_data)
    (errno : Int) : Int × vfs_ns_cap_data × Int :=
  match fetch with
  | .bytes bs =>
    (bs.length, record_of_bytes k be (bs ++ (record_bytes be rawvfscap).drop bs.length), errno)
  | .not_present e => (-1, rawvfscap, e)
  | .error e => (-1, rawvfscap, e)

/-- Modelled from the spec: the system call `fgetxattr`, which is `getxattr`
for a file that is named by a descriptor. -/
def fgetxattr (k : Consts) (be : Bool) (fetch : xattr_fetch) (rawvfscap : vfs_ns_cap_data)
    (errno : Int) : Int × vfs_ns_cap_data × Int :=
  getxattr k be fetch rawvfscap errno

/-- The accessor `cap_get_file(filename)`: `cap_init` is what the call of
`cap_init()` returned, `rawvfscap` the contents of the local record before the
function touches it, `fetch` the outcome of the attribute store for the file.
The result is the returned `cap_t` (`none` for `NULL`) and `errno`. -/
def cap_get_file (k : Consts) (be : Bool) (cap_init : Option cap_struct)
    (rawvfscap : vfs_ns_cap_data) (fetch : xattr_fetch) (errno : Int) :
    Option cap_struct × Int :=
  match cap_init with
  | none => (none, errno)
  | some result =>
    match getxattr k be fetch { rawvfscap with rootid := 0 } errno with
    | (sizeofcaps, raw, errno) =>
      if sizeofcaps < 4 then (none, errno)
      else (_fcaps_load k be raw result sizeofcaps, errno)

/-- The accessor `cap_get_fd(fildes)`, with the parameters of `cap_get_file`. -/
def cap_get_fd (k : Consts) (be : Bool) (cap_init : Option cap_struct)
    (rawvfscap : vfs_ns_cap_data) (fetch : xattr_fetch) (errno : Int) :
    Option cap_struct × Int :=
  match cap_init with
  | none => (none, errno)
  | some result =>
    match fgetxattr k be fetch { rawvfscap with rootid := 0 } errno with
    | (sizeofcaps, raw, errno) =>
      if sizeofcaps < 4 then (none, errno)
      else (_fcaps_load k be raw result sizeofcaps, errno)

/-! ## The write accessors `cap_set_file` and `cap_set_fd` -/

/-- Modelled from the spec: the system calls `lstat` and `fstat` are not part of
the source file. The outcome of the collaborator `classify_file`: an error,
with the value that the call leaves in `errno`, or the file mode, of which the
accessors test `S_ISLNK` and `S_ISREG`. -/
inductive stat_result where
  | error (errno : Int)
  | mode (S_ISLNK S_ISREG : Bool)
  deriving Repr, DecidableEq

/-- Modelled from the spec: the attribute store behind the system calls
`setxattr`, `fsetxattr`, `removexattr` and `fremovexattr` is not part of the
source file. The collaborators `store_attribute` and `remove_attribute` over a
store state `σ`: each call takes the state (for the set calls also the bytes to
store) and the value of `errno`, and gives the returned value, the state it
leaves and the value of `errno`. -/
structure xattr_ops (σ : Type) where
  setxattr : σ → List Nat → Int → Int × σ × Int
  removexattr : σ → Int → Int × σ × Int
  fsetxattr : σ → List Nat → Int → Int × σ × Int
  fremovexattr : σ → Int → Int × σ × Int

/-- An attribute store that keeps the attribute of one file and counts the
calls that it has received. -/
structure counting_store where
  attr : Option (List Nat)
  calls : Nat
  deriving Repr, DecidableEq

/-- The calls of the counting store: every call succeeds and is counted. -/
def counting_ops : xattr_ops counting_store where
  setxattr := fun s bs errno => (0, ⟨some bs, s.calls + 1⟩, errno)
  removexattr := fun s errno => (0, ⟨none, s.calls + 1⟩, errno)
  fsetxattr := fun s bs errno => (0, ⟨some bs, s.calls + 1⟩, errno)
  fremovexattr := fun s errno => (0, ⟨none, s.calls + 1⟩, errno)

/-- The accessor `cap_set_file(filename, cap_d)`: `st` is the outcome of
`lstat`, `rawvfscap` and `sizeofcaps` are the contents of the two locals
before the function touches them, `s` is the state of the attribute store.
The result is the returned value, the state of the store and `errno`. -/
def cap_set_file {σ : Type} (k : Consts) (be : Bool) (ops : xattr_ops σ) (st : stat_result)
    (rawvfscap : vfs_ns_cap_data) (sizeofcaps : Int) (cap_d : Option cap_struct)
    (s : σ) (errno : Int) : Int × σ × Int :=
  match st with
  | .error e => (-1, s, e)
  | .mode S_ISLNK S_ISREG =>
    if S_ISLNK || !S_ISREG then (-1, s, k.EINVAL)
    else
      match cap_d with
      | none => ops.removexattr s errno
      | some c =>
        if (_fcaps_save k be rawvfscap (some c) sizeofcaps errno).ret ≠ 0 then
          (-1, s, (_fcaps_save k be rawvfscap (some c) sizeofcaps errno).errno)
        else
          ops.setxattr s
            ((record_bytes be
                (_fcaps_save k be rawvfscap (some c) sizeofcaps errno).rawvfscap).take
              (_fcaps_save k be rawvfscap (some c) sizeofcaps errno).bytes.toNat)
            (_fcaps_save k be rawvfscap (some c) sizeofcaps errno).errno

/-- The accessor `cap_set_fd(fildes, cap_d)`, with the parameters of
`cap_set_file`; `st` is the outcome of `fstat`. -/
def cap_set_fd {σ : Type} (k : Consts) (be : Bool) (ops : xattr_ops σ) (st : stat_result)
    (rawvfscap : vfs_ns_cap_data) (sizeofcaps : Int) (cap_d : Option cap_struct)
    (s : σ) (errno : Int) : Int × σ × Int :=
  match st with
  | .error e => (-1, s, e)
  | .mode S_ISLNK S_ISREG =>
    if S_ISLNK || !S_ISREG then (-1, s, k.EINVAL)
    else
      match cap_d with
      | none => ops.fremovexattr s errno
      | some c =>
        if (_fcaps_save k be rawvfscap (some c) sizeofcaps errno).ret ≠ 0 then
          (-1, s, (_fcaps_save k be rawvfscap (some c) sizeofcaps errno).errno)
        else
          ops.fsetxattr s
            ((record_bytes be
                (_fcaps_save k be rawvfscap (some c) sizeofcaps errno).rawvfscap).take
              (_fcaps_save k be rawvfscap (some c) sizeofcaps errno).bytes.toNat)
            (_fcaps_save k be rawvfscap (some c) sizeofcaps errno).errno

/-! ## Machine arithmetic: basic facts -/

theorem to_int_eq_zero_iff (b s : Int) (hb : -2 ^ 31 ≤ b ∧ b < 2 ^ 31)
    (hs : 0 ≤ s ∧ s < 2 ^ 31) : to_int (b - s) = 0 ↔ b = s := by
  unfold to_int
  omega

theorem bswap_32_lt (x : Nat) : bswap_32 x < 2 ^ 32 := by
  unfold bswap_32
  omega

theorem u32_bytes (x : Nat) (hx : x < 2 ^ 32) :
    ∃ a b c d, a < 256 ∧ b < 256 ∧ c < 256 ∧ d < 256 ∧
      x = a + 256 * b + 65536 * c + 16777216 * d :=
  ⟨x % 256, x / 2 ^ 8 % 256, x / 2 ^ 16 % 256, x / 2 ^ 24 % 256, by omega, by omega, by omega,
    by omega, by omega⟩

theorem bswap_32_bytes (a b c d : Nat) (ha : a < 256) (hb : b < 256) (hc : c < 256)
    (hd : d < 256) :
    bswap_32 (a + 256 * b + 65536 * c + 16777216 * d)
      = d + 256 * c + 65536 * b + 16777216 * a := by
  unfold bswap_32
  omega

theorem bswap_32_bswap_32 (x : Nat) (hx : x < 2 ^ 32) : bswap_32 (bswap_32 x) = x := by
  obtain ⟨a, b, c, d, ha, hb, hc, hd, rfl⟩ := u32_bytes x hx
  rw [bswap_32_bytes a b c d ha hb hc hd, bswap_32_bytes d c b a hd hc hb ha]

theorem bswap_32_eq_zero_iff (x : Nat) (hx : x < 2 ^ 32) : bswap_32 x = 0 ↔ x = 0 := by
  obtain ⟨a, b, c, d, ha, hb, hc, hd, rfl⟩ := u32_bytes x hx
  rw [bswap_32_bytes a b c d ha hb hc hd]
  omega

theorem FIXUP_lt (be : Bool) (x : Nat) (hx : x < 2 ^ 32) : FIXUP_32BITS be x < 2 ^ 32 := by
  cases be
  · simpa [FIXUP_32BITS] using hx
  · simpa [FIXUP_32BITS] using bswap_32_lt x

theorem FIXUP_FIXUP (be : Bool) (x : Nat) (hx : x < 2 ^ 32) :
    FIXUP_32BITS be (FIXUP_32BITS be x) = x := by
  cases be
  · simp [FIXUP_32BITS]
  · simpa [FIXUP_32BITS] using bswap_32_bswap_32 x hx

theorem FIXUP_eq_zero_iff (be : Bool) (x : Nat) (hx : x < 2 ^ 32) :
    FIXUP_32BITS be x = 0 ↔ x = 0 := by
  cases be
  · simp [FIXUP_32BITS]
  · simpa [FIXUP_32BITS] using bswap_32_eq_zero_iff x hx

theorem le32_bytes (a b c d : Nat) (ha : a < 256) (hb : b < 256) (hc : c < 256)
    (hd : d < 256) : le32 (a + 256 * b + 65536 * c + 16777216 * d) = [a, b, c, d] := by
  unfold le32
  congr 1
  · omega
  congr 1
  · omega
  congr 1
  · omega
  congr 1
  omega

theorem word_bytes_true_bytes (a b c d : Nat) (ha : a < 256) (hb : b < 256) (hc : c < 256)
    (hd : d < 256) :
    word_bytes true (a + 256 * b + 65536 * c + 16777216 * d) = [d, c, b, a] := by
  simp only [word_bytes, if_true]
  congr 1
  · omega
  congr 1
  · omega
  congr 1
  · omega
  congr 1
  omega

/-- A word stored through `FIXUP_32BITS` lies in memory in little-endian order,
whatever the byte order of the host. -/
theorem word_bytes_FIXUP (be : Bool) (x : Nat) (hx : x < 2 ^ 32) :
    word_bytes be (FIXUP_32BITS be x) = le32 x := by
  cases be
  · simp [word_bytes, FIXUP_32BITS, le32]
  · obtain ⟨a, b, c, d, ha, hb, hc, hd, rfl⟩ := u32_bytes x hx
    simp only [FIXUP_32BITS, if_true]
    rw [bswap_32_bytes a b c d ha hb hc hd, word_bytes_true_bytes d c b a hd hc hb ha,
      le32_bytes a b c d ha hb hc hd]

theorem word_bytes_length (be : Bool) (x : Nat) : (word_bytes be x).length = 4 := by
  cases be <;> simp [word_bytes]

theorem le32_length (x : Nat) : (le32 x).length = 4 := by
  simp [le32]

theorem lor_eq_zero_iff (x y : Nat) : x ||| y = 0 ↔ x = 0 ∧ y = 0 := by
  constructor
  · intro h
    have hb : ∀ i, (x ||| y).testBit i = false := by
      intro i
      rw [h]
      exact Nat.zero_testBit i
    constructor
    · apply Nat.zero_of_testBit_eq_false
      intro i
      have := hb i
      rw [Nat.testBit_or] at this
      cases hx : x.testBit i <;> simp_all
    · apply Nat.zero_of_testBit_eq_false
      intro i
      have := hb i
      rw [Nat.testBit_or] at this
      cases hy : y.testBit i <;> simp_all
  · rintro ⟨rfl, rfl⟩
    simp

/-- The test `~e & x` of `_fcaps_save` is zero exactly when every bit of `x` is
a bit of `e`. -/
theorem not_u32_land_eq_zero_iff (e x : Nat) (hx : x < 2 ^ 32) :
    not_u32 e &&& x = 0 ↔ ∀ b, x.testBit b = true → e.testBit b = true := by
  constructor
  · intro h b hb
    have h1 : (not_u32 e &&& x).testBit b = false := by
      rw [h]
      exact Nat.zero_testBit b
    have hb32 : b < 32 := by
      by_contra hge
      have : x.testBit b = false :=
        Nat.testBit_lt_two_pow (lt_of_lt_of_le hx (Nat.pow_le_pow_right (by decide) (by omega)))
      rw [this] at hb
      exact Bool.noConfusion hb
    rw [Nat.testBit_and, not_u32, Nat.testBit_xor, Nat.testBit_two_pow_sub_one,
      Nat.testBit_mod_two_pow, hb] at h1
    cases he : e.testBit b
    · simp [he, hb32] at h1
    · rfl
  · intro h
    apply Nat.zero_of_testBit_eq_false
    intro b
    rw [Nat.testBit_and, not_u32, Nat.testBit_xor, Nat.testBit_two_pow_sub_one,
      Nat.testBit_mod_two_pow]
    cases hxb : x.testBit b
    · simp
    · have := h b hxb
      simp [this]

theorem getD_set {α : Type} (l : List α) (i j : Nat) (a d : α) :
    (l.set i a).getD j d = if i = j ∧ j < l.length then a else l.getD j d := by
  simp only [List.getD_eq_getElem?_getD, List.getElem?_set]
  by_cases hij : i = j
  · subst hij
    by_cases hlt : i < l.length
    · simp [hlt]
    · have hle : l.length ≤ i := by omega
      simp [hlt, List.getElem?_eq_none hle]
  · simp [hij]

/-! ## The loops of `_fcaps_load` -/

theorem load_copy_length (k : Consts) (be : Bool) (m : Nat) (raw : vfs_ns_cap_data)
    (n i : Nat) (r : cap_struct) : (load_copy k be m raw n i r).u.length = r.u.length := by
  induction n generalizing i r with
  | zero => rfl
  | succ n ih =>
    simp only [load_copy]
    rw [ih]
    simp

theorem load_copy_getD (k : Consts) (be : Bool) (m : Nat) (raw : vfs_ns_cap_data)
    (n i : Nat) (r : cap_struct) (j : Nat) :
    (load_copy k be m raw n i r).u.getD j default
      = if i ≤ j ∧ j < i + n ∧ j < r.u.length then
          decoded_block k be m raw j (r.u.getD j default)
        else r.u.getD j default := by
  induction n generalizing i r with
  | zero =>
    have : ¬ (i ≤ j ∧ j < i + 0 ∧ j < r.u.length) := by omega
    rw [if_neg this]
    rfl
  | succ n ih =>
    simp only [load_copy]
    rw [ih]
    simp only [List.length_set, getD_set]
    by_cases hij : i = j
    · subst hij
      by_cases hlt : i < r.u.length
      · have h1 : ¬ (i + 1 ≤ i ∧ i < i + 1 + n ∧ i < r.u.length) := by omega
        have h2 : i ≤ i ∧ i < i + (n + 1) ∧ i < r.u.length := ⟨le_refl i, by omega, hlt⟩
        rw [if_neg h1, if_pos h2, if_pos ⟨rfl, hlt⟩]
        unfold decoded_block
        split_ifs <;> rfl
      · have h1 : ¬ (i + 1 ≤ i ∧ i < i + 1 + n ∧ i < r.u.length) := by omega
        have h2 : ¬ (i ≤ i ∧ i < i + (n + 1) ∧ i < r.u.length) := by omega
        have h3 : ¬ (i = i ∧ i < r.u.length) := by omega
        rw [if_neg h1, if_neg h2, if_neg h3]
    · have h3 : ¬ (i = j ∧ j < r.u.length) := fun h => hij h.1
      rw [if_neg h3]
      by_cases hc : i ≤ j ∧ j < i + (n + 1) ∧ j < r.u.length
      · have h1 : i + 1 ≤ j ∧ j < i + 1 + n ∧ j < r.u.length := by omega
        rw [if_pos hc, if_pos h1]
      · have h1 : ¬ (i + 1 ≤ j ∧ j < i + 1 + n ∧ j < r.u.length) := by omega
        rw [if_neg hc, if_neg h1]

theorem load_copy_rootid (k : Consts) (be : Bool) (m : Nat) (raw : vfs_ns_cap_data)
    (n i : Nat) (r : cap_struct) : (load_copy k be m raw n i r).rootid = r.rootid := by
  induction n generalizing i r with
  | zero => rfl
  | succ n ih =>
    simp only [load_copy]
    rw [ih]

theorem load_copy_head (k : Consts) (be : Bool) (m : Nat) (raw : vfs_ns_cap_data)
    (n i : Nat) (r : cap_struct) : (load_copy k be m raw n i r).head = r.head := by
  induction n generalizing i r with
  | zero => rfl
  | succ n ih =>
    simp only [load_copy]
    rw [ih]

theorem load_copy_magic (k : Consts) (be : Bool) (m : Nat) (raw : vfs_ns_cap_data)
    (n i : Nat) (r : cap_struct) : (load_copy k be m raw n i r).magic = r.magic := by
  induction n generalizing i r with
  | zero => rfl
  | succ n ih =>
    simp only [load_copy]
    rw [ih]

theorem load_clear_length (n i : Nat) (r : cap_struct) :
    (load_clear n i r).u.length = r.u.length := by
  induction n generalizing i r with
  | zero => rfl
  | succ n ih =>
    simp only [load_clear]
    rw [ih]
    simp

theorem load_clear_getD (n i : Nat) (r : cap_struct) (j : Nat) :
    (load_clear n i r).u.getD j default
      = if i ≤ j ∧ j < i + n ∧ j < r.u.length then ⟨0, 0, 0⟩ else r.u.getD j default := by
  induction n generalizing i r with
  | zero =>
    have : ¬ (i ≤ j ∧ j < i + 0 ∧ j < r.u.length) := by omega
    rw [if_neg this]
    rfl
  | succ n ih =>
    simp only [load_clear]
    rw [ih]
    simp only [List.length_set, getD_set]
    by_cases hij : i = j
    · subst hij
      by_cases hlt : i < r.u.length
      · have h1 : ¬ (i + 1 ≤ i ∧ i < i + 1 + n ∧ i < r.u.length) := by omega
        have h2 : i ≤ i ∧ i < i + (n + 1) ∧ i < r.u.length := ⟨le_refl i, by omega, hlt⟩
        rw [if_neg h1, if_pos h2, if_pos ⟨rfl, hlt⟩]
      · have h1 : ¬ (i + 1 ≤ i ∧ i < i + 1 + n ∧ i < r.u.length) := by omega
        have h2 : ¬ (i ≤ i ∧ i < i + (n + 1) ∧ i < r.u.length) := by omega
        have h3 : ¬ (i = i ∧ i < r.u.length) := by omega
        rw [if_neg h1, if_neg h2, if_neg h3]
    · have h3 : ¬ (i = j ∧ j < r.u.length) := fun h => hij h.1
      rw [if_neg h3]
      by_cases hc : i ≤ j ∧ j < i + (n + 1) ∧ j < r.u.length
      · have h1 : i + 1 ≤ j ∧ j < i + 1 + n ∧ j < r.u.length := by omega
        rw [if_pos hc, if_pos h1]
      · have h1 : ¬ (i + 1 ≤ j ∧ j < i + 1 + n ∧ j < r.u.length) := by omega
        rw [if_neg hc, if_neg h1]

theorem load_clear_rootid (n i : Nat) (r : cap_struct) :
    (load_clear n i r).rootid = r.rootid := by
  induction n generalizing i r with
  | zero => rfl
  | succ n ih =>
    simp only [load_clear]
    rw [ih]

theorem load_clear_head (n i : Nat) (r : cap_struct) :
    (load_clear n i r).head = r.head := by
  induction n generalizing i r with
  | zero => rfl
  | succ n ih =>
    simp only [load_clear]
    rw [ih]

theorem load_clear_magic (n i : Nat) (r : cap_struct) :
    (load_clear n i r).magic = r.magic := by
  induction n generalizing i r with
  | zero => rfl
  | succ n ih =>
    simp only [load_clear]
    rw [ih]

/-! ## The loops of `_fcaps_save` -/

theorem save_eff_not_zero_eq_zero_iff (c : cap_struct) (n i acc : Nat) :
    save_eff_not_zero c n i acc = 0
      ↔ acc = 0 ∧ ∀ j, i ≤ j → j < i + n → (c.u.getD j default).effective = 0 := by
  induction n generalizing i acc with
  | zero =>
    simp only [save_eff_not_zero]
    constructor
    · intro h
      exact ⟨h, fun j h1 h2 => absurd h2 (by omega)⟩
    · intro h
      exact h.1
  | succ n ih =>
    simp only [save_eff_not_zero]
    rw [ih, lor_eq_zero_iff]
    constructor
    · rintro ⟨⟨h0, hi⟩, hrest⟩
      refine ⟨h0, fun j h1 h2 => ?_⟩
      by_cases hij : j = i
      · rw [hij]
        exact hi
      · exact hrest j (by omega) (by omega)
    · rintro ⟨h0, hall⟩
      exact ⟨⟨h0, hall i (le_refl i) (by omega)⟩, fun j h1 h2 => hall j (by omega) (by omega)⟩

theorem save_check_range_iff (c : cap_struct) (n i : Nat) :
    save_check_range c n i = true
      ↔ ∀ j, i ≤ j → j < i + n →
          (c.u.getD j default).effective = 0 ∧ (c.u.getD j default).inheritable = 0
            ∧ (c.u.getD j default).permitted = 0 := by
  induction n generalizing i with
  | zero =>
    simp only [save_check_range]
    constructor
    · intro _ j h1 h2
      exact absurd h2 (by omega)
    · intro _
      trivial
  | succ n ih =>
    simp only [save_check_range]
    by_cases hz : (c.u.getD i default).effective ≠ 0
        ∨ (c.u.getD i default).inheritable ≠ 0 ∨ (c.u.getD i default).permitted ≠ 0
    · rw [if_pos hz]
      constructor
      · intro h
        exact Bool.noConfusion h
      · intro h
        have := h i (le_refl i) (by omega)
        rcases hz with hz | hz | hz
        · exact absurd this.1 hz
        · exact absurd this.2.1 hz
        · exact absurd this.2.2 hz
    · rw [if_neg hz, ih]
      have hz3 : (c.u.getD i default).effective = 0 ∧ (c.u.getD i default).inheritable = 0
          ∧ (c.u.getD i default).permitted = 0 := by
        refine ⟨?_, ?_, ?_⟩
        · by_contra h
          exact hz (Or.inl h)
        · by_contra h
          exact hz (Or.inr (Or.inl h))
        · by_contra h
          exact hz (Or.inr (Or.inr h))
      constructor
      · intro h j h1 h2
        by_cases hij : j = i
        · rw [hij]
          exact hz3
        · exact h j (by omega) (by omega)
      · intro h j h1 h2
        exact h j (by omega) (by omega)

theorem save_copy_snd_iff (be : Bool) (c : cap_struct) (e n i : Nat) (raw : vfs_ns_cap_data) :
    (save_copy be c e n i raw).2 = true
      ↔ ∀ j, i ≤ j → j < i + n → ¬ save_violation c e j := by
  induction n generalizing i raw with
  | zero =>
    simp only [save_copy]
    constructor
    · intro _ j h1 h2
      exact absurd h2 (by omega)
    · intro _
      trivial
  | succ n ih =>
    simp only [save_copy]
    by_cases hv : save_violation c e i
    · have hv2 := hv
      unfold save_violation at hv2
      rw [if_pos hv2]
      constructor
      · intro h
        exact Bool.noConfusion h
      · intro h
        exact absurd hv (h i (le_refl i) (by omega))
    · have hv2 := hv
      unfold save_violation at hv2
      rw [if_neg hv2, ih]
      constructor
      · intro h j h1 h2
        by_cases hij : j = i
        · rw [hij]
          exact hv
        · exact h j (by omega) (by omega)
      · intro h j h1 h2
        exact h j (by omega) (by omega)

theorem save_copy_magic_etc (be : Bool) (c : cap_struct) (e n i : Nat)
    (raw : vfs_ns_cap_data) : (save_copy be c e n i raw).1.magic_etc = raw.magic_etc := by
  induction n generalizing i raw with
  | zero => rfl
  | succ n ih =>
    simp only [save_copy]
    split_ifs
    · rfl
    · rw [ih]

theorem save_copy_rootid (be : Bool) (c : cap_struct) (e n i : Nat)
    (raw : vfs_ns_cap_data) : (save_copy be c e n i raw).1.rootid = raw.rootid := by
  induction n generalizing i raw with
  | zero => rfl
  | succ n ih =>
    simp only [save_copy]
    split_ifs
    · rfl
    · rw [ih]

theorem save_copy_length (be : Bool) (c : cap_struct) (e n i : Nat)
    (raw : vfs_ns_cap_data) : (save_copy be c e n i raw).1.data.length = raw.data.length := by
  induction n generalizing i raw with
  | zero => rfl
  | succ n ih =>
    simp only [save_copy]
    split_ifs
    · simp
    · rw [ih]
      simp

theorem save_copy_getD (be : Bool) (c : cap_struct) (e n i : Nat) (raw : vfs_ns_cap_data)
    (hok : (save_copy be c e n i raw).2 = true) (j : Nat) :
    (save_copy be c e n i raw).1.data.getD j default
      = if i ≤ j ∧ j < i + n ∧ j < raw.data.length then saved_data be c j
        else raw.data.getD j default := by
  induction n generalizing i raw with
  | zero =>
    have : ¬ (i ≤ j ∧ j < i + 0 ∧ j < raw.data.length) := by omega
    rw [if_neg this]
    rfl
  | succ n ih =>
    by_cases hv : save_violation c e i
    · exact absurd hv ((save_copy_snd_iff be c e (n + 1) i raw).1 hok i (le_refl i) (by omega))
    have hv2 := hv
    unfold save_violation at hv2
    simp only [save_copy, if_neg hv2] at hok ⊢
    rw [ih _ _ hok]
    simp only [List.length_set, getD_set]
    by_cases hij : i = j
    · subst hij
      by_cases hlt : i < raw.data.length
      · have h1 : ¬ (i + 1 ≤ i ∧ i < i + 1 + n ∧ i < raw.data.length) := by omega
        have h2 : i ≤ i ∧ i < i + (n + 1) ∧ i < raw.data.length :=
          ⟨le_refl i, by omega, hlt⟩
        rw [if_neg h1, if_pos h2, if_pos ⟨rfl, hlt⟩]
        rfl
      · have h1 : ¬ (i + 1 ≤ i ∧ i < i + 1 + n ∧ i < raw.data.length) := by omega
        have h2 : ¬ (i ≤ i ∧ i < i + (n + 1) ∧ i < raw.data.length) := by omega
        have h3 : ¬ (i = i ∧ i < raw.data.length) := by omega
        rw [if_neg h1, if_neg h2, if_neg h3]
    · have h3 : ¬ (i = j ∧ j < raw.data.length) := fun h => hij h.1
      rw [if_neg h3]
      by_cases hc : i ≤ j ∧ j < i + (n + 1) ∧ j < raw.data.length
      · have h1 : i + 1 ≤ j ∧ j < i + 1 + n ∧ j < raw.data.length := by omega
        rw [if_pos hc, if_pos h1]
      · have h1 : ¬ (i + 1 ≤ j ∧ j < i + 1 + n ∧ j < raw.data.length) := by omega
        rw [if_neg hc, if_neg h1]

/-! ## The outcome of `_fcaps_save` -/

theorem fcaps_save_fail (k : Consts) (be : Bool) (raw : vfs_ns_cap_data)
    (cap_d : Option cap_struct) (b e : Int)
    (h : (_fcaps_save k be raw cap_d b e).ret ≠ 0) :
    (_fcaps_save k be raw cap_d b e).ret = -1
      ∧ (_fcaps_save k be raw cap_d b e).errno = k.EINVAL := by
  cases cap_d with
  | none => exact ⟨rfl, rfl⟩
  | some c =>
    unfold _fcaps_save at h ⊢
    cases hg : good_cap_t k (some c)
    · simp [hg]
    · rcases hsw : save_switch k c.head.version with _ | ⟨m, t, bs⟩
      · simp [hg, hsw]
      · cases hr : save_check_range c (k.__CAP_BLKS - t) t
        · simp [hg, hsw, hr]
        · rcases hcp : save_copy be c (save_eff_not_zero c t 0 0) t 0 raw with ⟨r1, ok⟩
          cases ok
          · simp [hg, hsw, hr, hcp]
          · exfalso
            apply h
            simp only [hg, hsw, hr, hcp, Bool.true_eq_false, if_false]
            split <;> rfl

theorem fcaps_save_ret_zero_iff (k : Consts) (be : Bool) (raw : vfs_ns_cap_data)
    (c : cap_struct) (b e : Int) (magic tocopy : Nat) (bytes : Int)
    (hsw : save_switch k c.head.version = some (magic, tocopy, bytes)) :
    (_fcaps_save k be raw (some c) b e).ret = 0
      ↔ good_cap_t k (some c) = true
        ∧ save_check_range c (k.__CAP_BLKS - tocopy) tocopy = true
        ∧ (save_copy be c (save_eff_not_zero c tocopy 0 0) tocopy 0 raw).2 = true := by
  unfold _fcaps_save
  simp only [hsw]
  cases hg : good_cap_t k (some c)
  · simp
  · cases hr : save_check_range c (k.__CAP_BLKS - tocopy) tocopy
    · simp
    · rcases hcp : save_copy be c (save_eff_not_zero c tocopy 0 0) tocopy 0 raw with ⟨r1, ok⟩
      cases ok
      · simp
      · simp only [Bool.true_eq_false, if_false, and_self, iff_true]
        split <;> rfl

theorem fcaps_save_ok_eq (k : Consts) (be : Bool) (raw : vfs_ns_cap_data)
    (c : cap_struct) (b e : Int) (magic tocopy : Nat) (bytes : Int)
    (hsw : save_switch k c.head.version = some (magic, tocopy, bytes))
    (hret : (_fcaps_save k be raw (some c) b e).ret = 0) :
    _fcaps_save k be raw (some c) b e
      = ⟨0, saved_record k be raw c magic tocopy,
          if FIXUP_32BITS be c.rootid = 0 then (k.XATTR_CAPS_SZ_2 : Int) else bytes, e⟩ := by
  obtain ⟨hg, hr, hc⟩ := (fcaps_save_ret_zero_iff k be raw c b e magic tocopy bytes hsw).1 hret
  unfold _fcaps_save saved_record
  simp only [hsw, hg, hr]
  rcases hcp : save_copy be c (save_eff_not_zero c tocopy 0 0) tocopy 0 raw with ⟨r1, ok⟩
  rw [hcp] at hc
  simp only at hc
  subst hc
  simp only [Bool.true_eq_false, if_false]
  split <;> rfl

/-! ## The outcome of `_fcaps_load` -/

theorem size_bounds (k : Consts) (hk : k.Valid) :
    (0 : Int) ≤ k.XATTR_CAPS_SZ_1 ∧ (k.XATTR_CAPS_SZ_1 : Int) < 2 ^ 31
      ∧ (0 : Int) ≤ k.XATTR_CAPS_SZ_2 ∧ (k.XATTR_CAPS_SZ_2 : Int) < 2 ^ 31
      ∧ (0 : Int) ≤ k.XATTR_CAPS_SZ_3 ∧ (k.XATTR_CAPS_SZ_3 : Int) < 2 ^ 31 := by
  have h1 := hk.sz_1
  have h2 := hk.sz_2
  have h3 := hk.sz_3
  have h4 := hk.sz_int
  have h5 := hk.u32_1
  have h6 := hk.u32_2
  have h7 := hk.u32_3
  omega

theorem fcaps_load_ok_eq (k : Consts) (be : Bool) (raw : vfs_ns_cap_data) (result : cap_struct)
    (bytes : Int) (tocopy : Nat)
    (hsw : load_switch k (FIXUP_32BITS be raw.magic_etc) bytes = some (tocopy, 0)) :
    _fcaps_load k be raw result bytes
      = some { load_clear (k.__CAP_BLKS - tocopy) tocopy
                (load_copy k be (FIXUP_32BITS be raw.magic_etc) raw tocopy 0 result) with
               rootid := FIXUP_32BITS be raw.rootid } := by
  unfold _fcaps_load
  simp [hsw]

theorem fcaps_load_none_iff (k : Consts) (be : Bool) (raw : vfs_ns_cap_data)
    (result : cap_struct) (bytes : Int) (tocopy : Nat) (rest : Int)
    (hsw : load_switch k (FIXUP_32BITS be raw.magic_etc) bytes = some (tocopy, rest)) :
    _fcaps_load k be raw result bytes = none ↔ rest ≠ 0 := by
  unfold _fcaps_load
  simp only [hsw]
  by_cases hz : rest = 0
  · simp [hz]
  · simp [hz]

/-! ## Properties of the decoder -/

/-- C7. Unknown revision rejection: when the revision tag of `magic_etc` (the
word masked with `VFS_CAP_REVISION_MASK`) is none of `VFS_CAP_REVISION_1`,
`VFS_CAP_REVISION_2`, `VFS_CAP_REVISION_3`, `_fcaps_load` returns `NULL`, for
every byte count, payload and result set. -/
theorem fcaps_load_unknown_revision (k : Consts) (be : Bool) (rawvfscap : vfs_ns_cap_data)
    (result : cap_struct) (bytes : Int)
    (h1 : FIXUP_32BITS be rawvfscap.magic_etc &&& k.VFS_CAP_REVISION_MASK
            ≠ k.VFS_CAP_REVISION_1)
    (h2 : FIXUP_32BITS be rawvfscap.magic_etc &&& k.VFS_CAP_REVISION_MASK
            ≠ k.VFS_CAP_REVISION_2)
    (h3 : FIXUP_32BITS be rawvfscap.magic_etc &&& k.VFS_CAP_REVISION_MASK
            ≠ k.VFS_CAP_REVISION_3) :
    _fcaps_load k be rawvfscap result bytes = none := by
  unfold _fcaps_load load_switch
  simp [h1, h2, h3]

/-- The claim C7 at a record with revision tag 4 on Linux. -/
theorem fcaps_load_unknown_revision_witness :
    _fcaps_load linux false ⟨0x04000001, [⟨1, 2⟩, ⟨3, 4⟩], 0⟩
      ⟨0xCA90D0, ⟨0x20080522, 0⟩, [⟨0, 0, 0⟩, ⟨0, 0, 0⟩], 0⟩ 20 = none :=
  fcaps_load_unknown_revision linux false ⟨0x04000001, [⟨1, 2⟩, ⟨3, 4⟩], 0⟩
    ⟨0xCA90D0, ⟨0x20080522, 0⟩, [⟨0, 0, 0⟩, ⟨0, 0, 0⟩], 0⟩ 20
    (by decide) (by decide) (by decide)

/-- C6. Length exactness: for a record whose `magic_etc` carries the tag of
revision 1, 2 or 3 and a byte count in the range of `int`, `_fcaps_load` returns
`NULL` exactly when the byte count differs from `XATTR_CAPS_SZ_1`,
`XATTR_CAPS_SZ_2` or `XATTR_CAPS_SZ_3` respectively; it succeeds only at the
exact size. -/
theorem fcaps_load_length_exact (k : Consts) (hk : k.Valid) (be : Bool)
    (rawvfscap : vfs_ns_cap_data) (result : cap_struct) (bytes : Int)
    (hb : -2 ^ 31 ≤ bytes ∧ bytes < 2 ^ 31) :
    (FIXUP_32BITS be rawvfscap.magic_etc &&& k.VFS_CAP_REVISION_MASK = k.VFS_CAP_REVISION_1 →
        (_fcaps_load k be rawvfscap result bytes = none ↔ bytes ≠ k.XATTR_CAPS_SZ_1))
    ∧ (FIXUP_32BITS be rawvfscap.magic_etc &&& k.VFS_CAP_REVISION_MASK = k.VFS_CAP_REVISION_2 →
        (_fcaps_load k be rawvfscap result bytes = none ↔ bytes ≠ k.XATTR_CAPS_SZ_2))
    ∧ (FIXUP_32BITS be rawvfscap.magic_etc &&& k.VFS_CAP_REVISION_MASK = k.VFS_CAP_REVISION_3 →
        (_fcaps_load k be rawvfscap result bytes = none ↔ bytes ≠ k.XATTR_CAPS_SZ_3)) := by
  obtain ⟨a1, a2, b1, b2, c1, c2⟩ := size_bounds k hk
  have e1 := to_int_eq_zero_iff bytes k.XATTR_CAPS_SZ_1 hb ⟨a1, a2⟩
  have e2 := to_int_eq_zero_iff bytes k.XATTR_CAPS_SZ_2 hb ⟨b1, b2⟩
  have e3 := to_int_eq_zero_iff bytes k.XATTR_CAPS_SZ_3 hb ⟨c1, c2⟩
  refine ⟨fun h => ?_, fun h => ?_, fun h => ?_⟩
  · have hsw : load_switch k (FIXUP_32BITS be rawvfscap.magic_etc) bytes
        = some (k.VFS_CAP_U32_1, to_int (bytes - k.XATTR_CAPS_SZ_1)) := by
      unfold load_switch
      rw [if_pos h]
    rw [fcaps_load_none_iff k be rawvfscap result bytes _ _ hsw]
    exact not_congr e1
  · have hsw : load_switch k (FIXUP_32BITS be rawvfscap.magic_etc) bytes
        = some (k.VFS_CAP_U32_2, to_int (bytes - k.XATTR_CAPS_SZ_2)) := by
      unfold load_switch
      rw [if_neg (by rw [h]; exact hk.rev_12.symm), if_pos h]
    rw [fcaps_load_none_iff k be rawvfscap result bytes _ _ hsw]
    exact not_congr e2
  · have hsw : load_switch k (FIXUP_32BITS be rawvfscap.magic_etc) bytes
        = some (k.VFS_CAP_U32_3, to_int (bytes - k.XATTR_CAPS_SZ_3)) := by
      unfold load_switch
      rw [if_neg (by rw [h]; exact hk.rev_13.symm), if_neg (by rw [h]; exact hk.rev_23.symm),
        if_pos h]
    rw [fcaps_load_none_iff k be rawvfscap result bytes _ _ hsw]
    exact not_congr e3

theorem linux_valid : linux.Valid := by
  constructor <;> decide

/-- The claim C6 on Linux at a revision-2 record with 21 bytes, one more than
`XATTR_CAPS_SZ_2`. -/
theorem fcaps_load_length_exact_witness :
    _fcaps_load linux false ⟨0x02000001, [⟨1, 2⟩, ⟨3, 4⟩], 0⟩
        ⟨0xCA90D0, ⟨0x20080522, 0⟩, [⟨0, 0, 0⟩, ⟨0, 0, 0⟩], 0⟩ 21 = none
      ↔ (21 : Int) ≠ linux.XATTR_CAPS_SZ_2 :=
  (fcaps_load_length_exact linux linux_valid false ⟨0x02000001, [⟨1, 2⟩, ⟨3, 4⟩], 0⟩
    ⟨0xCA90D0, ⟨0x20080522, 0⟩, [⟨0, 0, 0⟩, ⟨0, 0, 0⟩], 0⟩ 21
    ⟨by decide, by decide⟩).2.1 (by decide)

/-! ## Properties of the encoder -/

theorem typed_getD (k : Consts) (c : cap_struct) (hc : c.typed k) (i : Nat) :
    (c.u.getD i default).effective < 2 ^ 32 ∧ (c.u.getD i default).permitted < 2 ^ 32
      ∧ (c.u.getD i default).inheritable < 2 ^ 32 := by
  by_cases hi : i < c.u.length
  · rw [List.getD_eq_getElem _ _ hi]
    exact hc.2.2 _ (List.getElem_mem hi)
  · have hle : c.u.length ≤ i := by omega
    rw [List.getD_eq_default _ _ hle]
    exact ⟨by decide, by decide, by decide⟩

/-- C5. Unrepresentable-bits rejection: for a recognised version, if some block
at an index from `tocopy` up to `__CAP_BLKS - 1` has a non-zero effective,
permitted or inheritable mask, `_fcaps_save` returns -1 with `errno` set to
`EINVAL`, and it has written nothing to the raw record. -/
theorem fcaps_save_unrepresentable (k : Consts) (be : Bool) (rawvfscap : vfs_ns_cap_data)
    (c : cap_struct) (bytes_p errno : Int) (magic tocopy : Nat) (bytes : Int)
    (hsw : save_switch k c.head.version = some (magic, tocopy, bytes))
    (j : Nat) (h1 : tocopy ≤ j) (h2 : j < k.__CAP_BLKS)
    (hnz : (c.u.getD j default).effective ≠ 0 ∨ (c.u.getD j default).permitted ≠ 0
            ∨ (c.u.getD j default).inheritable ≠ 0) :
    (_fcaps_save k be rawvfscap (some c) bytes_p errno).ret = -1
      ∧ (_fcaps_save k be rawvfscap (some c) bytes_p errno).errno = k.EINVAL
      ∧ (_fcaps_save k be rawvfscap (some c) bytes_p errno).rawvfscap = rawvfscap := by
  have hr : save_check_range c (k.__CAP_BLKS - tocopy) tocopy = false := by
    cases hcr : save_check_range c (k.__CAP_BLKS - tocopy) tocopy
    · rfl
    · exfalso
      have h := (save_check_range_iff c _ _).1 hcr j h1 (by omega)
      rcases hnz with hnz | hnz | hnz
      · exact hnz h.1
      · exact hnz h.2.2
      · exact hnz h.2.1
  have hne : (_fcaps_save k be rawvfscap (some c) bytes_p errno).ret ≠ 0 := by
    intro h0
    have := (fcaps_save_ret_zero_iff k be rawvfscap c bytes_p errno magic tocopy bytes hsw).1 h0
    rw [hr] at this
    exact Bool.noConfusion this.2.1
  refine ⟨(fcaps_save_fail k be rawvfscap _ bytes_p errno hne).1,
    (fcaps_save_fail k be rawvfscap _ bytes_p errno hne).2, ?_⟩
  unfold _fcaps_save
  cases hg : good_cap_t k (some c)
  · simp [hg]
  · simp [hg, hsw, hr]

/-- The claim C5 on Linux: version 1 with a single bit, in the inheritable mask
of block 1. -/
theorem fcaps_save_unrepresentable_witness :
    (_fcaps_save linux false ⟨0, [⟨0, 0⟩, ⟨0, 0⟩], 0⟩
        (some ⟨0xCA90D0, ⟨0x19980330, 0⟩, [⟨0, 0, 0⟩, ⟨0, 0, 4⟩], 1⟩) 0 0).ret = -1
      ∧ (_fcaps_save linux false ⟨0, [⟨0, 0⟩, ⟨0, 0⟩], 0⟩
        (some ⟨0xCA90D0, ⟨0x19980330, 0⟩, [⟨0, 0, 0⟩, ⟨0, 0, 4⟩], 1⟩) 0 0).errno = linux.EINVAL
      ∧ (_fcaps_save linux false ⟨0, [⟨0, 0⟩, ⟨0, 0⟩], 0⟩
        (some ⟨0xCA90D0, ⟨0x19980330, 0⟩, [⟨0, 0, 0⟩, ⟨0, 0, 4⟩], 1⟩) 0 0).rawvfscap
          = ⟨0, [⟨0, 0⟩, ⟨0, 0⟩], 0⟩ :=
  fcaps_save_unrepresentable linux false ⟨0, [⟨0, 0⟩, ⟨0, 0⟩], 0⟩
    ⟨0xCA90D0, ⟨0x19980330, 0⟩, [⟨0, 0, 0⟩, ⟨0, 0, 4⟩], 1⟩ 0 0 0x01000000 1 12
    (by decide) 1 (by decide) (by decide) (by decide)

/-- C2. Security invariant enforcement: for a recognised version, if some
in-range effective mask is non-zero (so that `eff_not_zero` is non-zero) and
some in-range block has a permitted or inheritable bit that is not a bit of the
effective mask of that same block, `_fcaps_save` returns -1 with `errno` set to
`EINVAL`. -/
theorem fcaps_save_security_invariant (k : Consts) (be : Bool) (rawvfscap : vfs_ns_cap_data)
    (c : cap_struct) (bytes_p errno : Int) (magic tocopy : Nat) (bytes : Int)
    (hc : c.typed k)
    (hsw : save_switch k c.head.version = some (magic, tocopy, bytes))
    (i : Nat) (hi : i < tocopy) (heff : (c.u.getD i default).effective ≠ 0)
    (j : Nat) (hj : j < tocopy) (b : Nat)
    (hb : ((c.u.getD j default).permitted ||| (c.u.getD j default).inheritable).testBit b = true)
    (hnb : (c.u.getD j default).effective.testBit b = false) :
    (_fcaps_save k be rawvfscap (some c) bytes_p errno).ret = -1
      ∧ (_fcaps_save k be rawvfscap (some c) bytes_p errno).errno = k.EINVAL := by
  have hne : (_fcaps_save k be rawvfscap (some c) bytes_p errno).ret ≠ 0 := by
    intro h0
    obtain ⟨_, _, hcp⟩ :=
      (fcaps_save_ret_zero_iff k be rawvfscap c bytes_p errno magic tocopy bytes hsw).1 h0
    have hv := (save_copy_snd_iff be c _ tocopy 0 rawvfscap).1 hcp j (Nat.zero_le j) (by omega)
    apply hv
    refine ⟨?_, ?_⟩
    · intro hz
      exact heff (((save_eff_not_zero_eq_zero_iff c tocopy 0 0).1 hz).2 i (Nat.zero_le i)
        (by omega))
    · intro hz
      have hlt := typed_getD k c hc j
      have hsub := (not_u32_land_eq_zero_iff _ _ (Nat.or_lt_two_pow hlt.2.1 hlt.2.2)).1 hz b hb
      rw [hsub] at hnb
      exact Bool.noConfusion hnb
  exact fcaps_save_fail k be rawvfscap _ bytes_p errno hne

/-- The claim C2 on Linux: block 0 has effective bits, block 1 has a permitted
bit and an effective mask of zero. -/
theorem fcaps_save_security_invariant_witness :
    (_fcaps_save linux false ⟨0, [⟨0, 0⟩, ⟨0, 0⟩], 0⟩
        (some ⟨0xCA90D0, ⟨0x20080522, 0⟩, [⟨1, 1, 0⟩, ⟨0, 2, 0⟩], 0⟩) 0 0).ret = -1
      ∧ (_fcaps_save linux false ⟨0, [⟨0, 0⟩, ⟨0, 0⟩], 0⟩
        (some ⟨0xCA90D0, ⟨0x20080522, 0⟩, [⟨1, 1, 0⟩, ⟨0, 2, 0⟩], 0⟩) 0 0).errno
          = linux.EINVAL :=
  fcaps_save_security_invariant linux false ⟨0, [⟨0, 0⟩, ⟨0, 0⟩], 0⟩
    ⟨0xCA90D0, ⟨0x20080522, 0⟩, [⟨1, 1, 0⟩, ⟨0, 2, 0⟩], 0⟩ 0 0 0x03000000 2 24
    (by decide) (by decide) 0 (by decide) (by decide) 1 (by decide) 1 (by decide) (by decide)

/-- The claim C3 fails on Linux: `_fcaps_save` accepts a set whose effective
mask has a bit that is neither permitted nor inheritable. -/
theorem fcaps_save_accepts_effective_only :
    (_fcaps_save linux false ⟨0, [⟨0, 0⟩, ⟨0, 0⟩], 0⟩
        (some ⟨0xCA90D0, ⟨0x20080522, 0⟩, [⟨1, 0, 0⟩, ⟨0, 0, 0⟩], 0⟩) 0 0).ret = 0
      ∧ (([⟨1, 0, 0⟩, ⟨0, 0, 0⟩] : List cap_flat).getD 0 default).effective.testBit 0 = true
      ∧ (([⟨1, 0, 0⟩, ⟨0, 0, 0⟩] : List cap_flat).getD 0 default).permitted.testBit 0 = false
      ∧ (([⟨1, 0, 0⟩, ⟨0, 0, 0⟩] : List cap_flat).getD 0 default).inheritable.testBit 0
          = false := by
  decide

/-- C3, amended. For a recognised version on which `_fcaps_save` succeeds, if
some in-range effective mask is non-zero then every bit of the permitted or of
the inheritable mask of an in-range block is a bit of the effective mask of
that block: permitted OR inheritable is a subset of effective. -/
theorem fcaps_save_ok_effective_covers (k : Consts) (be : Bool) (rawvfscap : vfs_ns_cap_data)
    (c : cap_struct) (bytes_p errno : Int) (magic tocopy : Nat) (bytes : Int)
    (hc : c.typed k)
    (hsw : save_switch k c.head.version = some (magic, tocopy, bytes))
    (hret : (_fcaps_save k be rawvfscap (some c) bytes_p errno).ret = 0)
    (i : Nat) (hi : i < tocopy) (heff : (c.u.getD i default).effective ≠ 0)
    (j : Nat) (hj : j < tocopy) (b : Nat)
    (hb : ((c.u.getD j default).permitted ||| (c.u.getD j default).inheritable).testBit b
            = true) :
    (c.u.getD j default).effective.testBit b = true := by
  obtain ⟨_, _, hcp⟩ :=
    (fcaps_save_ret_zero_iff k be rawvfscap c bytes_p errno magic tocopy bytes hsw).1 hret
  have hv := (save_copy_snd_iff be c _ tocopy 0 rawvfscap).1 hcp j (Nat.zero_le j) (by omega)
  have hnz : save_eff_not_zero c tocopy 0 0 ≠ 0 := fun hz =>
    heff (((save_eff_not_zero_eq_zero_iff c tocopy 0 0).1 hz).2 i (Nat.zero_le i) (by omega))
  have hlt := typed_getD k c hc j
  have hzero : not_u32 (c.u.getD j default).effective
      &&& ((c.u.getD j default).permitted ||| (c.u.getD j default).inheritable) = 0 := by
    by_contra hne
    exact hv ⟨hnz, hne⟩
  exact (not_u32_land_eq_zero_iff _ _ (Nat.or_lt_two_pow hlt.2.1 hlt.2.2)).1 hzero b hb

/-- The amended claim C3 on Linux, at a set with effective 7, permitted 1 and
inheritable 2 in block 0. -/
theorem fcaps_save_ok_effective_covers_witness :
    (_fcaps_save linux false ⟨0, [⟨0, 0⟩, ⟨0, 0⟩], 0⟩
        (some ⟨0xCA90D0, ⟨0x20080522, 0⟩, [⟨7, 1, 2⟩, ⟨0, 0, 0⟩], 0⟩) 0 0).ret = 0
      ∧ (([⟨7, 1, 2⟩, ⟨0, 0, 0⟩] : List cap_flat).getD 0 default).effective.testBit 1 = true :=
  ⟨by decide,
    fcaps_save_ok_effective_covers linux false ⟨0, [⟨0, 0⟩, ⟨0, 0⟩], 0⟩
      ⟨0xCA90D0, ⟨0x20080522, 0⟩, [⟨7, 1, 2⟩, ⟨0, 0, 0⟩], 0⟩ 0 0 0x03000000 2 24
      (by decide) (by decide) (by decide) 0 (by decide) (by decide) 0 (by decide) 1
      (by decide)⟩

/-! ## The revision tag and the effective flag -/

theorem tag_lt (k : Consts) (hk : k.Valid) (t : Nat) (ht : t &&& k.VFS_CAP_REVISION_MASK = t) :
    t < 2 ^ 32 := by
  have h1 : t &&& k.VFS_CAP_REVISION_MASK ≤ k.VFS_CAP_REVISION_MASK := Nat.and_le_right
  rw [ht] at h1
  exact lt_of_le_of_lt h1 hk.mask_u32

theorem tag_land_flag (k : Consts) (hk : k.Valid) (t : Nat)
    (ht : t &&& k.VFS_CAP_REVISION_MASK = t) : t &&& k.VFS_CAP_FLAGS_EFFECTIVE = 0 := by
  rw [← ht, Nat.and_assoc, Nat.and_comm k.VFS_CAP_REVISION_MASK, hk.flag_mask, Nat.and_zero]

theorem tag_flag_land_mask (k : Consts) (hk : k.Valid) (t : Nat)
    (ht : t &&& k.VFS_CAP_REVISION_MASK = t) :
    (t ||| k.VFS_CAP_FLAGS_EFFECTIVE) &&& k.VFS_CAP_REVISION_MASK = t := by
  rw [Nat.and_comm, Nat.and_or_distrib_left, Nat.and_comm k.VFS_CAP_REVISION_MASK t, ht,
    Nat.and_comm k.VFS_CAP_REVISION_MASK, hk.flag_mask, Nat.or_zero]

theorem tag_flag_land_flag (k : Consts) (hk : k.Valid) (t : Nat)
    (ht : t &&& k.VFS_CAP_REVISION_MASK = t) :
    (t ||| k.VFS_CAP_FLAGS_EFFECTIVE) &&& k.VFS_CAP_FLAGS_EFFECTIVE
      = k.VFS_CAP_FLAGS_EFFECTIVE := by
  rw [Nat.and_comm, Nat.and_or_distrib_left, Nat.and_comm k.VFS_CAP_FLAGS_EFFECTIVE t,
    tag_land_flag k hk t ht, Nat.and_self, Nat.zero_or]

theorem tag_flag_lt (k : Consts) (hk : k.Valid) (t : Nat)
    (ht : t &&& k.VFS_CAP_REVISION_MASK = t) : t ||| k.VFS_CAP_FLAGS_EFFECTIVE < 2 ^ 32 :=
  Nat.or_lt_two_pow (tag_lt k hk t ht) hk.flag_u32

/-- The tag that `save_switch` selects lies inside `VFS_CAP_REVISION_MASK`. -/
theorem save_switch_tag (k : Consts) (hk : k.Valid) (v magic tocopy : Nat) (bytes : Int)
    (hsw : save_switch k v = some (magic, tocopy, bytes)) :
    magic &&& k.VFS_CAP_REVISION_MASK = magic ∧ tocopy ≤ k.__CAP_BLKS := by
  unfold save_switch at hsw
  split_ifs at hsw
  · simp only [Option.some.injEq, Prod.mk.injEq] at hsw
    obtain ⟨rfl, rfl, _⟩ := hsw
    exact ⟨hk.rev_1_mask, hk.u32_1⟩
  · simp only [Option.some.injEq, Prod.mk.injEq] at hsw
    obtain ⟨rfl, rfl, _⟩ := hsw
    exact ⟨hk.rev_2_mask, hk.u32_2⟩
  · simp only [Option.some.injEq, Prod.mk.injEq] at hsw
    obtain ⟨rfl, rfl, _⟩ := hsw
    exact ⟨hk.rev_3_mask, le_of_eq hk.u32_3⟩

theorem chosen_tag_mask (k : Consts) (hk : k.Valid) (c : cap_struct) (magic : Nat)
    (hm : magic &&& k.VFS_CAP_REVISION_MASK = magic) :
    chosen_tag k c magic &&& k.VFS_CAP_REVISION_MASK = chosen_tag k c magic := by
  unfold chosen_tag
  split_ifs
  · exact hk.rev_2_mask
  · exact hm

/-- The word `magic_etc` of the record of a successful `_fcaps_save`, with the
byte-order fixup undone. -/
theorem saved_record_magic_etc (k : Consts) (hk : k.Valid) (be : Bool) (raw : vfs_ns_cap_data)
    (c : cap_struct) (hc : c.typed k) (magic tocopy : Nat)
    (hm : magic &&& k.VFS_CAP_REVISION_MASK = magic) :
    FIXUP_32BITS be (saved_record k be raw c magic tocopy).magic_etc
      = if save_eff_not_zero c tocopy 0 0 = 0 then chosen_tag k c magic
        else chosen_tag k c magic ||| k.VFS_CAP_FLAGS_EFFECTIVE := by
  have hroot : (FIXUP_32BITS be c.rootid = 0) = (c.rootid = 0) :=
    propext (FIXUP_eq_zero_iff be c.rootid hc.2.1)
  have hct := chosen_tag_mask k hk c magic hm
  unfold saved_record
  simp only [hroot]
  change FIXUP_32BITS be
      (if save_eff_not_zero c tocopy 0 0 = 0 then FIXUP_32BITS be (chosen_tag k c magic)
        else FIXUP_32BITS be (chosen_tag k c magic ||| k.VFS_CAP_FLAGS_EFFECTIVE)) = _
  split_ifs
  · exact FIXUP_FIXUP be _ (tag_lt k hk _ hct)
  · exact FIXUP_FIXUP be _ (tag_flag_lt k hk _ hct)

/-- C10. Effective flag: for a recognised version on which `_fcaps_save`
succeeds, the stored `magic_etc`, with the byte-order fixup undone, is the
chosen revision tag OR-ed with `VFS_CAP_FLAGS_EFFECTIVE` when some in-range
effective mask is non-zero and the bare revision tag otherwise; the flag bit is
set exactly when some in-range effective mask is non-zero, and the bits under
`VFS_CAP_REVISION_MASK` are the revision tag. -/
theorem fcaps_save_effective_flag (k : Consts) (hk : k.Valid) (be : Bool)
    (rawvfscap : vfs_ns_cap_data) (c : cap_struct) (bytes_p errno : Int)
    (magic tocopy : Nat) (bytes : Int) (hc : c.typed k)
    (hsw : save_switch k c.head.version = some (magic, tocopy, bytes))
    (hret : (_fcaps_save k be rawvfscap (some c) bytes_p errno).ret = 0) :
    ((∃ i, i < tocopy ∧ (c.u.getD i default).effective ≠ 0) →
        FIXUP_32BITS be (_fcaps_save k be rawvfscap (some c) bytes_p errno).rawvfscap.magic_etc
          = chosen_tag k c magic ||| k.VFS_CAP_FLAGS_EFFECTIVE)
    ∧ ((∀ i, i < tocopy → (c.u.getD i default).effective = 0) →
        FIXUP_32BITS be (_fcaps_save k be rawvfscap (some c) bytes_p errno).rawvfscap.magic_etc
          = chosen_tag k c magic)
    ∧ (FIXUP_32BITS be (_fcaps_save k be rawvfscap (some c) bytes_p errno).rawvfscap.magic_etc
          &&& k.VFS_CAP_FLAGS_EFFECTIVE ≠ 0
        ↔ ∃ i, i < tocopy ∧ (c.u.getD i default).effective ≠ 0)
    ∧ FIXUP_32BITS be (_fcaps_save k be rawvfscap (some c) bytes_p errno).rawvfscap.magic_etc
          &&& k.VFS_CAP_REVISION_MASK = chosen_tag k c magic := by
  have hm := (save_switch_tag k hk _ magic tocopy bytes hsw).1
  have hct := chosen_tag_mask k hk c magic hm
  rw [fcaps_save_ok_eq k be rawvfscap c bytes_p errno magic tocopy bytes hsw hret]
  simp only [saved_record_magic_etc k hk be rawvfscap c hc magic tocopy hm]
  have hiff : save_eff_not_zero c tocopy 0 0 = 0
      ↔ ∀ i, i < tocopy → (c.u.getD i default).effective = 0 := by
    rw [save_eff_not_zero_eq_zero_iff]
    constructor
    · intro h i hi
      exact h.2 i (Nat.zero_le i) (by omega)
    · intro h
      exact ⟨rfl, fun j _ hj => h j (by omega)⟩
  by_cases hz : save_eff_not_zero c tocopy 0 0 = 0
  · have hall := hiff.1 hz
    rw [if_pos hz]
    refine ⟨?_, fun _ => rfl, ?_, hct⟩
    · rintro ⟨i, hi, hne⟩
      exact absurd (hall i hi) hne
    · rw [tag_land_flag k hk _ hct]
      constructor
      · intro h
        exact absurd rfl h
      · rintro ⟨i, hi, hne⟩
        exact absurd (hall i hi) hne
  · have hex : ∃ i, i < tocopy ∧ (c.u.getD i default).effective ≠ 0 := by
      by_contra hno
      apply hz
      rw [hiff]
      intro i hi
      by_contra hne
      exact hno ⟨i, hi, hne⟩
    rw [if_neg hz]
    refine ⟨fun _ => rfl, ?_, ?_, tag_flag_land_mask k hk _ hct⟩
    · intro hall
      obtain ⟨i, hi, hne⟩ := hex
      exact absurd (hall i hi) hne
    · rw [tag_flag_land_flag k hk _ hct]
      exact ⟨fun _ => hex, fun _ => hk.flag_ne⟩

/-- The claim C10 on Linux, big-endian host, at a version-3 set with root id 7
and effective bits in block 1 only. -/
theorem fcaps_save_effective_flag_witness :
    FIXUP_32BITS true (_fcaps_save linux true ⟨0, [⟨0, 0⟩, ⟨0, 0⟩], 0⟩
        (some ⟨0xCA90D0, ⟨0x20080522, 0⟩, [⟨0, 0, 0⟩, ⟨6, 2, 4⟩], 7⟩) 0 0).rawvfscap.magic_etc
      = chosen_tag linux ⟨0xCA90D0, ⟨0x20080522, 0⟩, [⟨0, 0, 0⟩, ⟨6, 2, 4⟩], 7⟩ 0x03000000
          ||| linux.VFS_CAP_FLAGS_EFFECTIVE :=
  (fcaps_save_effective_flag linux linux_valid true ⟨0, [⟨0, 0⟩, ⟨0, 0⟩], 0⟩
    ⟨0xCA90D0, ⟨0x20080522, 0⟩, [⟨0, 0, 0⟩, ⟨6, 2, 4⟩], 7⟩ 0 0 0x03000000 2 24
    (by decide) (by decide) (by decide)).1 ⟨1, by decide, by decide⟩

/-! ## The blocks of a decoded set -/

theorem fcaps_load_blocks (k : Consts) (be : Bool) (m : Nat) (raw : vfs_ns_cap_data)
    (result : cap_struct) (tocopy : Nat) (hlen : result.u.length = k.__CAP_BLKS)
    (ht : tocopy ≤ k.__CAP_BLKS) (j : Nat) (hj : j < k.__CAP_BLKS) :
    (load_clear (k.__CAP_BLKS - tocopy) tocopy
        (load_copy k be m raw tocopy 0 result)).u.getD j default
      = if j < tocopy then decoded_block k be m raw j (result.u.getD j default)
        else ⟨0, 0, 0⟩ := by
  rw [load_clear_getD, load_copy_length, load_copy_getD, hlen]
  by_cases hjt : j < tocopy
  · have h1 : ¬ (tocopy ≤ j ∧ j < tocopy + (k.__CAP_BLKS - tocopy) ∧ j < k.__CAP_BLKS) := by
      omega
    have h2 : 0 ≤ j ∧ j < 0 + tocopy ∧ j < k.__CAP_BLKS := by omega
    rw [if_neg h1, if_pos h2, if_pos hjt]
  · have h1 : tocopy ≤ j ∧ j < tocopy + (k.__CAP_BLKS - tocopy) ∧ j < k.__CAP_BLKS := by
      omega
    rw [if_pos h1, if_neg hjt]

theorem zeroed_length (k : Consts) (c : cap_struct) (hz : c.zeroed k) :
    c.u.length = k.__CAP_BLKS := by
  unfold cap_struct.zeroed at hz
  rw [hz, List.length_replicate]

theorem zeroed_getD (k : Consts) (c : cap_struct) (hz : c.zeroed k) (j : Nat) :
    c.u.getD j default = ⟨0, 0, 0⟩ := by
  unfold cap_struct.zeroed at hz
  rw [hz]
  by_cases hj : j < k.__CAP_BLKS
  · rw [List.getD_eq_getElem _ _ (by rw [List.length_replicate]; exact hj),
      List.getElem_replicate]
  · rw [List.getD_eq_default _ _ (by rw [List.length_replicate]; omega)]
    rfl

theorem to_int_zero : to_int 0 = 0 := by
  decide

/-- C8. Effective-bit derivation: a record with the tag of revision 2 and
exactly `XATTR_CAPS_SZ_2` bytes is decoded by `_fcaps_load` into a zeroed set
successfully; every in-range block receives the permitted and inheritable
words of the record, and when `VFS_CAP_FLAGS_EFFECTIVE` is set in `magic_etc`
its effective mask is permitted OR inheritable; when the flag is clear the
effective mask of every block is zero. -/
theorem fcaps_load_revision_2_effective (k : Consts) (hk : k.Valid) (be : Bool)
    (rawvfscap : vfs_ns_cap_data) (result : cap_struct) (hz : result.zeroed k)
    (htag : FIXUP_32BITS be rawvfscap.magic_etc &&& k.VFS_CAP_REVISION_MASK
              = k.VFS_CAP_REVISION_2) :
    ∃ r, _fcaps_load k be rawvfscap result k.XATTR_CAPS_SZ_2 = some r
      ∧ (∀ i, i < k.VFS_CAP_U32_2 →
          (r.u.getD i default).permitted
              = FIXUP_32BITS be (rawvfscap.data.getD i default).permitted
            ∧ (r.u.getD i default).inheritable
              = FIXUP_32BITS be (rawvfscap.data.getD i default).inheritable)
      ∧ (FIXUP_32BITS be rawvfscap.magic_etc &&& k.VFS_CAP_FLAGS_EFFECTIVE ≠ 0 →
          ∀ i, i < k.VFS_CAP_U32_2 →
            (r.u.getD i default).effective
              = (r.u.getD i default).permitted ||| (r.u.getD i default).inheritable)
      ∧ (FIXUP_32BITS be rawvfscap.magic_etc &&& k.VFS_CAP_FLAGS_EFFECTIVE = 0 →
          ∀ i, i < k.__CAP_BLKS → (r.u.getD i default).effective = 0) := by
  have hsw : load_switch k (FIXUP_32BITS be rawvfscap.magic_etc) k.XATTR_CAPS_SZ_2
      = some (k.VFS_CAP_U32_2, 0) := by
    unfold load_switch
    rw [if_neg (by rw [htag]; exact hk.rev_12.symm), if_pos htag, sub_self, to_int_zero]
  have hlen := zeroed_length k result hz
  refine ⟨_, fcaps_load_ok_eq k be rawvfscap result _ _ hsw, ?_, ?_, ?_⟩
  · intro i hi
    have hi2 : i < k.__CAP_BLKS := lt_of_lt_of_le hi hk.u32_2
    simp only [fcaps_load_blocks k be _ rawvfscap result _ hlen hk.u32_2 i hi2, if_pos hi]
    exact ⟨rfl, rfl⟩
  · intro hflag i hi
    have hi2 : i < k.__CAP_BLKS := lt_of_lt_of_le hi hk.u32_2
    simp only [fcaps_load_blocks k be _ rawvfscap result _ hlen hk.u32_2 i hi2, if_pos hi]
    unfold decoded_block
    simp only [if_pos hflag]
    exact Nat.or_comm _ _
  · intro hflag i hi
    simp only [fcaps_load_blocks k be _ rawvfscap result _ hlen hk.u32_2 i hi]
    by_cases hit : i < k.VFS_CAP_U32_2
    · rw [if_pos hit]
      unfold decoded_block
      have : ¬ (FIXUP_32BITS be rawvfscap.magic_etc &&& k.VFS_CAP_FLAGS_EFFECTIVE ≠ 0) :=
        fun h => h hflag
      simp only [if_neg this]
      rw [zeroed_getD k result hz]
    · rw [if_neg hit]

/-- The claim C8 on Linux at a revision-2 record with the effective flag. -/
theorem fcaps_load_revision_2_effective_witness :
    ∃ r, _fcaps_load linux false ⟨0x02000001, [⟨1, 2⟩, ⟨4, 8⟩], 0⟩
          ⟨0xCA90D0, ⟨0x20080522, 0⟩, [⟨0, 0, 0⟩, ⟨0, 0, 0⟩], 0⟩ linux.XATTR_CAPS_SZ_2 = some r
      ∧ (∀ i, i < linux.VFS_CAP_U32_2 →
          (r.u.getD i default).permitted
              = FIXUP_32BITS false
                  ((([⟨1, 2⟩, ⟨4, 8⟩] : List vfs_data).getD i default).permitted)
            ∧ (r.u.getD i default).inheritable
              = FIXUP_32BITS false
                  ((([⟨1, 2⟩, ⟨4, 8⟩] : List vfs_data).getD i default).inheritable))
      ∧ (FIXUP_32BITS false 0x02000001 &&& linux.VFS_CAP_FLAGS_EFFECTIVE ≠ 0 →
          ∀ i, i < linux.VFS_CAP_U32_2 →
            (r.u.getD i default).effective
              = (r.u.getD i default).permitted ||| (r.u.getD i default).inheritable)
      ∧ (FIXUP_32BITS false 0x02000001 &&& linux.VFS_CAP_FLAGS_EFFECTIVE = 0 →
          ∀ i, i < linux.__CAP_BLKS → (r.u.getD i default).effective = 0) :=
  fcaps_load_revision_2_effective linux linux_valid false ⟨0x02000001, [⟨1, 2⟩, ⟨4, 8⟩], 0⟩
    ⟨0xCA90D0, ⟨0x20080522, 0⟩, [⟨0, 0, 0⟩, ⟨0, 0, 0⟩], 0⟩ (by decide) (by decide)

/-! ## The bytes of a record -/

theorem data_bytes_length (be : Bool) (d : vfs_data) : (data_bytes be d).length = 8 := by
  unfold data_bytes
  rw [List.length_append, word_bytes_length, word_bytes_length]

theorem flatMap_data_bytes_length (be : Bool) (l : List vfs_data) :
    (l.flatMap (data_bytes be)).length = 8 * l.length := by
  induction l with
  | nil => rfl
  | cons d ds ih =>
    rw [List.flatMap_cons, List.length_append, data_bytes_length, ih, List.length_cons]
    omega

theorem take_flatMap_data_bytes (be : Bool) (l : List vfs_data) (n : Nat) :
    (l.flatMap (data_bytes be)).take (8 * n) = (l.take n).flatMap (data_bytes be) := by
  induction l generalizing n with
  | nil => simp
  | cons d ds ih =>
    cases n with
    | zero => simp
    | succ n =>
      rw [List.flatMap_cons, List.take_succ_cons, List.flatMap_cons, ← ih n]
      have h8 : 8 * (n + 1) = (data_bytes be d).length + 8 * n := by
        rw [data_bytes_length]
        omega
      rw [h8, List.take_append]

theorem record_bytes_length (be : Bool) (r : vfs_ns_cap_data) :
    (record_bytes be r).length = 4 + 8 * r.data.length + 4 := by
  unfold record_bytes
  rw [List.length_append, List.length_append, word_bytes_length, word_bytes_length,
    flatMap_data_bytes_length]

theorem record_bytes_drop (be : Bool) (r : vfs_ns_cap_data) :
    (record_bytes be r).drop (4 + 8 * r.data.length) = word_bytes be r.rootid := by
  unfold record_bytes
  have hl : (word_bytes be r.magic_etc ++ r.data.flatMap (data_bytes be)).length
      = 4 + 8 * r.data.length := by
    rw [List.length_append, word_bytes_length, flatMap_data_bytes_length]
  rw [← hl, List.drop_left]

theorem record_bytes_take (be : Bool) (r : vfs_ns_cap_data) (n : Nat)
    (hn : n ≤ r.data.length) :
    (record_bytes be r).take (4 + 8 * n)
      = word_bytes be r.magic_etc ++ (r.data.take n).flatMap (data_bytes be) := by
  unfold record_bytes
  have hl : 4 + 8 * n ≤ (word_bytes be r.magic_etc ++ r.data.flatMap (data_bytes be)).length := by
    rw [List.length_append, word_bytes_length, flatMap_data_bytes_length]
    omega
  rw [List.take_append_of_le_length hl]
  have h4 : 4 + 8 * n = (word_bytes be r.magic_etc).length + 8 * n := by
    rw [word_bytes_length]
  rw [h4, List.take_append, take_flatMap_data_bytes]

theorem save_copy_take (be : Bool) (c : cap_struct) (e n : Nat) (raw : vfs_ns_cap_data)
    (hok : (save_copy be c e n 0 raw).2 = true) (hn : n ≤ raw.data.length) :
    (save_copy be c e n 0 raw).1.data.take n = (List.range n).map (saved_data be c) := by
  have hlen := save_copy_length be c e n 0 raw
  apply List.ext_getElem
  · rw [List.length_take, List.length_map, List.length_range, hlen]
    omega
  · intro j h1 h2
    rw [List.length_map, List.length_range] at h2
    have hj : j < (save_copy be c e n 0 raw).1.data.length := by
      rw [hlen]
      omega
    rw [List.getElem_take, List.getElem_map, List.getElem_range,
      ← List.getD_eq_getElem _ default hj, save_copy_getD be c e n 0 raw hok j]
    have hc : 0 ≤ j ∧ j < 0 + n ∧ j < raw.data.length := by omega
    rw [if_pos hc]

theorem data_bytes_saved (k : Consts) (be : Bool) (c : cap_struct) (hc : c.typed k) (j : Nat) :
    data_bytes be (saved_data be c j)
      = le32 (c.u.getD j default).permitted ++ le32 (c.u.getD j default).inheritable := by
  have hlt := typed_getD k c hc j
  unfold data_bytes saved_data
  rw [word_bytes_FIXUP be _ hlt.2.1, word_bytes_FIXUP be _ hlt.2.2]

/-! ## The bytes that `_fcaps_save` produces -/

theorem stored_magic_lt (k : Consts) (hk : k.Valid) (c : cap_struct) (magic tocopy : Nat)
    (hm : magic &&& k.VFS_CAP_REVISION_MASK = magic) : stored_magic k c magic tocopy < 2 ^ 32 := by
  have hct := chosen_tag_mask k hk c magic hm
  unfold stored_magic
  split_ifs
  · exact tag_lt k hk _ hct
  · exact tag_flag_lt k hk _ hct

theorem stored_magic_tag (k : Consts) (hk : k.Valid) (c : cap_struct) (magic tocopy : Nat)
    (hm : magic &&& k.VFS_CAP_REVISION_MASK = magic) :
    stored_magic k c magic tocopy &&& k.VFS_CAP_REVISION_MASK = chosen_tag k c magic := by
  have hct := chosen_tag_mask k hk c magic hm
  unfold stored_magic
  split_ifs
  · exact hct
  · exact tag_flag_land_mask k hk _ hct

theorem saved_record_magic_etc_eq (k : Consts) (be : Bool) (raw : vfs_ns_cap_data)
    (c : cap_struct) (hc : c.typed k) (magic tocopy : Nat) :
    (saved_record k be raw c magic tocopy).magic_etc
      = FIXUP_32BITS be (stored_magic k c magic tocopy) := by
  have hroot : (FIXUP_32BITS be c.rootid = 0) = (c.rootid = 0) :=
    propext (FIXUP_eq_zero_iff be c.rootid hc.2.1)
  unfold saved_record stored_magic chosen_tag
  simp only [hroot]
  split_ifs <;> rfl

/-- The first `4 + 8 * tocopy` bytes of the record of a successful `_fcaps_save`:
the little-endian `magic_etc` and the little-endian words of the first `tocopy`
blocks. -/
theorem saved_record_take (k : Consts) (hk : k.Valid) (be : Bool) (raw : vfs_ns_cap_data)
    (c : cap_struct) (hc : c.typed k) (hraw : raw.data.length = k.__CAP_BLKS)
    (magic tocopy : Nat) (hm : magic &&& k.VFS_CAP_REVISION_MASK = magic)
    (ht : tocopy ≤ k.__CAP_BLKS)
    (hok : (save_copy be c (save_eff_not_zero c tocopy 0 0) tocopy 0 raw).2 = true) :
    (record_bytes be (saved_record k be raw c magic tocopy)).take (4 + 8 * tocopy)
      = le32 (stored_magic k c magic tocopy)
        ++ (List.range tocopy).flatMap
            (fun i => le32 (c.u.getD i default).permitted
                        ++ le32 (c.u.getD i default).inheritable) := by
  have hlen : tocopy ≤ (saved_record k be raw c magic tocopy).data.length := by
    unfold saved_record
    simp only [save_copy_length, hraw]
    exact ht
  rw [record_bytes_take be _ tocopy hlen, saved_record_magic_etc_eq k be raw c hc,
    word_bytes_FIXUP be _ (stored_magic_lt k hk c magic tocopy hm)]
  congr 1
  have hd : (saved_record k be raw c magic tocopy).data
      = (save_copy be c (save_eff_not_zero c tocopy 0 0) tocopy 0 raw).1.data := rfl
  rw [hd, save_copy_take be c _ tocopy raw hok (by rw [hraw]; exact ht), List.flatMap_map]
  exact List.flatMap_congr (fun j _ => data_bytes_saved k be c hc j)

/-- The whole record of a successful `_fcaps_save` that copies `__CAP_BLKS`
blocks: the bytes of `saved_record_take`, then the little-endian root id. -/
theorem saved_record_bytes (k : Consts) (hk : k.Valid) (be : Bool) (raw : vfs_ns_cap_data)
    (c : cap_struct) (hc : c.typed k) (hraw : raw.data.length = k.__CAP_BLKS)
    (magic : Nat) (hm : magic &&& k.VFS_CAP_REVISION_MASK = magic)
    (hok : (save_copy be c (save_eff_not_zero c k.__CAP_BLKS 0 0) k.__CAP_BLKS 0 raw).2
            = true) :
    record_bytes be (saved_record k be raw c magic k.__CAP_BLKS)
      = le32 (stored_magic k c magic k.__CAP_BLKS)
        ++ (List.range k.__CAP_BLKS).flatMap
            (fun i => le32 (c.u.getD i default).permitted
                        ++ le32 (c.u.getD i default).inheritable)
        ++ le32 c.rootid := by
  have hlen : (saved_record k be raw c magic k.__CAP_BLKS).data.length = k.__CAP_BLKS := by
    unfold saved_record
    simp only [save_copy_length, hraw]
  have h1 := saved_record_take k hk be raw c hc hraw magic k.__CAP_BLKS hm (le_refl _) hok
  have h2 := record_bytes_drop be (saved_record k be raw c magic k.__CAP_BLKS)
  rw [hlen] at h2
  have h3 : (saved_record k be raw c magic k.__CAP_BLKS).rootid = FIXUP_32BITS be c.rootid := rfl
  rw [h3, word_bytes_FIXUP be _ hc.2.1] at h2
  rw [← List.take_append_drop (4 + 8 * k.__CAP_BLKS)
    (record_bytes be (saved_record k be raw c magic k.__CAP_BLKS)), h1, h2]

theorem save_switch_version_3 (k : Consts) (hk : k.Valid) :
    save_switch k k._LINUX_CAPABILITY_VERSION_3
      = some (k.VFS_CAP_REVISION_3, k.VFS_CAP_U32_3, (k.XATTR_CAPS_SZ_3 : Int)) := by
  unfold save_switch
  rw [if_neg hk.ver_13.symm, if_neg hk.ver_23.symm, if_pos rfl]

/-- C4. Revision-3 downgrade: when `_fcaps_save` succeeds on a set whose header
version is `_LINUX_CAPABILITY_VERSION_3`, a zero root id gives the revision tag
`VFS_CAP_REVISION_2` and the byte count `XATTR_CAPS_SZ_2`, and the `rootid`
member of the record is what lies behind these bytes; a non-zero root id gives
the revision tag `VFS_CAP_REVISION_3` and the byte count `XATTR_CAPS_SZ_3`, and
the last four of these bytes are the little-endian root id. -/
theorem fcaps_save_revision_3_downgrade (k : Consts) (hk : k.Valid) (be : Bool)
    (rawvfscap : vfs_ns_cap_data) (c : cap_struct) (bytes_p errno : Int)
    (hc : c.typed k) (hraw : rawvfscap.data.length = k.__CAP_BLKS)
    (hv : c.head.version = k._LINUX_CAPABILITY_VERSION_3)
    (hret : (_fcaps_save k be rawvfscap (some c) bytes_p errno).ret = 0) :
    (c.rootid = 0 →
        FIXUP_32BITS be (_fcaps_save k be rawvfscap (some c) bytes_p errno).rawvfscap.magic_etc
            &&& k.VFS_CAP_REVISION_MASK = k.VFS_CAP_REVISION_2
          ∧ (_fcaps_save k be rawvfscap (some c) bytes_p errno).bytes = k.XATTR_CAPS_SZ_2
          ∧ (record_bytes be (_fcaps_save k be rawvfscap (some c) bytes_p errno).rawvfscap).drop
                k.XATTR_CAPS_SZ_2
              = word_bytes be
                  (_fcaps_save k be rawvfscap (some c) bytes_p errno).rawvfscap.rootid)
    ∧ (c.rootid ≠ 0 →
        FIXUP_32BITS be (_fcaps_save k be rawvfscap (some c) bytes_p errno).rawvfscap.magic_etc
            &&& k.VFS_CAP_REVISION_MASK = k.VFS_CAP_REVISION_3
          ∧ (_fcaps_save k be rawvfscap (some c) bytes_p errno).bytes = k.XATTR_CAPS_SZ_3
          ∧ ((record_bytes be
                (_fcaps_save k be rawvfscap (some c) bytes_p errno).rawvfscap).take
                  k.XATTR_CAPS_SZ_3).drop (k.XATTR_CAPS_SZ_3 - 4)
              = le32 c.rootid) := by
  have hsw : save_switch k c.head.version
      = some (k.VFS_CAP_REVISION_3, k.VFS_CAP_U32_3, (k.XATTR_CAPS_SZ_3 : Int)) := by
    rw [hv]
    exact save_switch_version_3 k hk
  rw [fcaps_save_ok_eq k be rawvfscap c bytes_p errno _ _ _ hsw hret]
  have hmag := saved_record_magic_etc k hk be rawvfscap c hc k.VFS_CAP_REVISION_3
    k.VFS_CAP_U32_3 hk.rev_3_mask
  have htag := stored_magic_tag k hk c k.VFS_CAP_REVISION_3 k.VFS_CAP_U32_3 hk.rev_3_mask
  unfold stored_magic at htag
  have hlen : (saved_record k be rawvfscap c k.VFS_CAP_REVISION_3 k.VFS_CAP_U32_3).data.length
      = k.__CAP_BLKS := by
    unfold saved_record
    simp only [save_copy_length, hraw]
  have hdrop := record_bytes_drop be
    (saved_record k be rawvfscap c k.VFS_CAP_REVISION_3 k.VFS_CAP_U32_3)
  rw [hlen] at hdrop
  have h2 := hk.sz_2
  have h3 := hk.sz_3
  have h23 := hk.u32_23
  have h3b := hk.u32_3
  constructor
  · intro hz
    have hfz : FIXUP_32BITS be c.rootid = 0 := (FIXUP_eq_zero_iff be c.rootid hc.2.1).2 hz
    refine ⟨?_, ?_, ?_⟩
    · simp only [hmag]
      rw [htag]
      unfold chosen_tag
      rw [if_pos hz]
    · simp only [if_pos hfz]
    · have hsz : k.XATTR_CAPS_SZ_2 = 4 + 8 * k.__CAP_BLKS := by omega
      simp only [hsz]
      exact hdrop
  · intro hnz
    have hfz : ¬ FIXUP_32BITS be c.rootid = 0 :=
      fun h => hnz ((FIXUP_eq_zero_iff be c.rootid hc.2.1).1 h)
    refine ⟨?_, ?_, ?_⟩
    · simp only [hmag]
      rw [htag]
      unfold chosen_tag
      rw [if_neg hnz]
    · simp only [if_neg hfz]
    · have hfull : (record_bytes be
          (saved_record k be rawvfscap c k.VFS_CAP_REVISION_3 k.VFS_CAP_U32_3)).length
            ≤ k.XATTR_CAPS_SZ_3 := by
        rw [record_bytes_length, hlen]
        omega
      have hsz : k.XATTR_CAPS_SZ_3 - 4 = 4 + 8 * k.__CAP_BLKS := by omega
      simp only [List.take_of_length_le hfull, hsz]
      rw [hdrop]
      exact word_bytes_FIXUP be c.rootid hc.2.1

/-- The claim C4 on Linux, big-endian host, root id 1000. -/
theorem fcaps_save_revision_3_downgrade_witness :
    FIXUP_32BITS true (_fcaps_save linux true ⟨0, [⟨0, 0⟩, ⟨0, 0⟩], 0⟩
        (some ⟨0xCA90D0, ⟨0x20080522, 0⟩, [⟨3, 1, 2⟩, ⟨0, 0, 0⟩], 1000⟩)
          0 0).rawvfscap.magic_etc &&& linux.VFS_CAP_REVISION_MASK = linux.VFS_CAP_REVISION_3
      ∧ (_fcaps_save linux true ⟨0, [⟨0, 0⟩, ⟨0, 0⟩], 0⟩
          (some ⟨0xCA90D0, ⟨0x20080522, 0⟩, [⟨3, 1, 2⟩, ⟨0, 0, 0⟩], 1000⟩) 0 0).bytes
            = linux.XATTR_CAPS_SZ_3
      ∧ ((record_bytes true (_fcaps_save linux true ⟨0, [⟨0, 0⟩, ⟨0, 0⟩], 0⟩
            (some ⟨0xCA90D0, ⟨0x20080522, 0⟩, [⟨3, 1, 2⟩, ⟨0, 0, 0⟩], 1000⟩)
              0 0).rawvfscap).take linux.XATTR_CAPS_SZ_3).drop (linux.XATTR_CAPS_SZ_3 - 4)
          = le32 1000 :=
  (fcaps_save_revision_3_downgrade linux linux_valid true ⟨0, [⟨0, 0⟩, ⟨0, 0⟩], 0⟩
    ⟨0xCA90D0, ⟨0x20080522, 0⟩, [⟨3, 1, 2⟩, ⟨0, 0, 0⟩], 1000⟩ 0 0
    (by decide) (by decide) (by decide) (by decide)).2 (by decide)

theorem revision_blocks_of_tag (k : Consts) (hk : k.Valid) (m : Nat) :
    (m &&& k.VFS_CAP_REVISION_MASK = k.VFS_CAP_REVISION_1 →
        revision_blocks k m = k.VFS_CAP_U32_1)
    ∧ (m &&& k.VFS_CAP_REVISION_MASK = k.VFS_CAP_REVISION_2 →
        revision_blocks k m = k.VFS_CAP_U32_2)
    ∧ (m &&& k.VFS_CAP_REVISION_MASK = k.VFS_CAP_REVISION_3 →
        revision_blocks k m = k.VFS_CAP_U32_3) := by
  unfold revision_blocks
  refine ⟨fun h => ?_, fun h => ?_, fun h => ?_⟩
  · rw [if_pos h]
  · rw [if_neg (by rw [h]; exact hk.rev_12.symm), if_pos h]
  · rw [if_neg (by rw [h]; exact hk.rev_13.symm), if_neg (by rw [h]; exact hk.rev_23.symm)]

/-- The layout of a record whose tag is not that of revision 3 and whose
revision has `tocopy` blocks. -/
theorem saved_record_layout_short (k : Consts) (hk : k.Valid) (be : Bool)
    (raw : vfs_ns_cap_data) (c : cap_struct) (hc : c.typed k)
    (hraw : raw.data.length = k.__CAP_BLKS) (magic tocopy : Nat)
    (hm : magic &&& k.VFS_CAP_REVISION_MASK = magic) (ht : tocopy ≤ k.__CAP_BLKS)
    (hok : (save_copy be c (save_eff_not_zero c tocopy 0 0) tocopy 0 raw).2 = true)
    (h3 : chosen_tag k c magic ≠ k.VFS_CAP_REVISION_3)
    (hblk : revision_blocks k (stored_magic k c magic tocopy) = tocopy) :
    on_disk_size k (stored_magic k c magic tocopy) = 4 + 8 * tocopy
      ∧ (record_bytes be (saved_record k be raw c magic tocopy)).take (4 + 8 * tocopy)
          = on_disk_layout k (stored_magic k c magic tocopy) c := by
  have htag := stored_magic_tag k hk c magic tocopy hm
  unfold on_disk_size on_disk_layout
  rw [htag, if_neg h3, if_neg h3, hblk, List.append_nil]
  exact ⟨rfl, saved_record_take k hk be raw c hc hraw magic tocopy hm ht hok⟩

/-- The layout of a record whose tag is that of revision 3. -/
theorem saved_record_layout_full (k : Consts) (hk : k.Valid) (be : Bool)
    (raw : vfs_ns_cap_data) (c : cap_struct) (hc : c.typed k)
    (hraw : raw.data.length = k.__CAP_BLKS) (magic : Nat)
    (hm : magic &&& k.VFS_CAP_REVISION_MASK = magic)
    (hok : (save_copy be c (save_eff_not_zero c k.__CAP_BLKS 0 0) k.__CAP_BLKS 0 raw).2
            = true)
    (h3 : chosen_tag k c magic = k.VFS_CAP_REVISION_3) :
    on_disk_size k (stored_magic k c magic k.__CAP_BLKS) = 4 + 8 * k.__CAP_BLKS + 4
      ∧ (record_bytes be (saved_record k be raw c magic k.__CAP_BLKS)).take
            (4 + 8 * k.__CAP_BLKS + 4)
          = on_disk_layout k (stored_magic k c magic k.__CAP_BLKS) c := by
  have htag := stored_magic_tag k hk c magic k.__CAP_BLKS hm
  have hblk : revision_blocks k (stored_magic k c magic k.__CAP_BLKS) = k.__CAP_BLKS := by
    rw [(revision_blocks_of_tag k hk _).2.2 (by rw [htag, h3]), hk.u32_3]
  have hlen : (saved_record k be raw c magic k.__CAP_BLKS).data.length = k.__CAP_BLKS := by
    unfold saved_record
    simp only [save_copy_length, hraw]
  have hfull : (record_bytes be (saved_record k be raw c magic k.__CAP_BLKS)).length
      ≤ 4 + 8 * k.__CAP_BLKS + 4 := by
    rw [record_bytes_length, hlen]
  unfold on_disk_size on_disk_layout
  rw [htag, if_pos h3, if_pos h3, hblk, List.take_of_length_le hfull]
  exact ⟨rfl, saved_record_bytes k hk be raw c hc hraw magic hm hok⟩

/-- The on-disk layout of the output of `_fcaps_save`, outside the case of
header version `_LINUX_CAPABILITY_VERSION_1` with root id zero: when
`_fcaps_save` succeeds for a recognised version, `*bytes_p` is the on-disk size
of the stored `magic_etc` and the first `*bytes_p` bytes of the record are the
on-disk layout of the set. -/
theorem fcaps_save_layout (k : Consts) (hk : k.Valid) (be : Bool)
    (rawvfscap : vfs_ns_cap_data) (c : cap_struct) (bytes_p errno : Int)
    (magic tocopy : Nat) (bytes : Int) (hc : c.typed k)
    (hraw : rawvfscap.data.length = k.__CAP_BLKS)
    (hsw : save_switch k c.head.version = some (magic, tocopy, bytes))
    (hret : (_fcaps_save k be rawvfscap (some c) bytes_p errno).ret = 0)
    (hns : c.rootid = 0 → c.head.version ≠ k._LINUX_CAPABILITY_VERSION_1) :
    (_fcaps_save k be rawvfscap (some c) bytes_p errno).bytes
        = on_disk_size k
            (FIXUP_32BITS be
              (_fcaps_save k be rawvfscap (some c) bytes_p errno).rawvfscap.magic_etc)
      ∧ (record_bytes be (_fcaps_save k be rawvfscap (some c) bytes_p errno).rawvfscap).take
            (_fcaps_save k be rawvfscap (some c) bytes_p errno).bytes.toNat
          = on_disk_layout k
              (FIXUP_32BITS be
                (_fcaps_save k be rawvfscap (some c) bytes_p errno).rawvfscap.magic_etc) c := by
  obtain ⟨hm, ht⟩ := save_switch_tag k hk _ magic tocopy bytes hsw
  obtain ⟨_, _, hok⟩ :=
    (fcaps_save_ret_zero_iff k be rawvfscap c bytes_p errno magic tocopy bytes hsw).1 hret
  rw [fcaps_save_ok_eq k be rawvfscap c bytes_p errno magic tocopy bytes hsw hret]
  have hmag : FIXUP_32BITS be (saved_record k be rawvfscap c magic tocopy).magic_etc
      = stored_magic k c magic tocopy :=
    saved_record_magic_etc k hk be rawvfscap c hc magic tocopy hm
  simp only [hmag]
  have htag := stored_magic_tag k hk c magic tocopy hm
  have hroot : (FIXUP_32BITS be c.rootid = 0) = (c.rootid = 0) :=
    propext (FIXUP_eq_zero_iff be c.rootid hc.2.1)
  simp only [hroot]
  have hs1 := hk.sz_1
  have hs2 := hk.sz_2
  have hs3 := hk.sz_3
  have h23 := hk.u32_23
  have h3b := hk.u32_3
  have hrb := revision_blocks_of_tag k hk (stored_magic k c magic tocopy)
  rw [htag] at hrb
  -- the three cases of the `switch`
  unfold save_switch at hsw
  split_ifs at hsw with hv1 hv2 hv3
  · -- version 1
    simp only [Option.some.injEq, Prod.mk.injEq] at hsw
    obtain ⟨rfl, rfl, rfl⟩ := hsw
    have hnz : ¬ c.rootid = 0 := fun h => hns h hv1
    have hch : chosen_tag k c k.VFS_CAP_REVISION_1 = k.VFS_CAP_REVISION_1 := by
      unfold chosen_tag
      rw [if_neg hnz]
    obtain ⟨h1, h2⟩ := saved_record_layout_short k hk be rawvfscap c hc hraw _ _ hm ht hok
      (by rw [hch]; exact hk.rev_13) (hrb.1 hch)
    rw [if_neg hnz, h1, Int.toNat_natCast, hs1]
    exact ⟨rfl, h2⟩
  · -- version 2
    simp only [Option.some.injEq, Prod.mk.injEq] at hsw
    obtain ⟨rfl, rfl, rfl⟩ := hsw
    have hch : chosen_tag k c k.VFS_CAP_REVISION_2 = k.VFS_CAP_REVISION_2 := by
      unfold chosen_tag
      split_ifs <;> rfl
    obtain ⟨h1, h2⟩ := saved_record_layout_short k hk be rawvfscap c hc hraw _ _ hm ht hok
      (by rw [hch]; exact hk.rev_23) (hrb.2.1 hch)
    rw [ite_self, h1, Int.toNat_natCast, hs2]
    exact ⟨rfl, h2⟩
  · -- version 3
    simp only [Option.some.injEq, Prod.mk.injEq] at hsw
    obtain ⟨rfl, rfl, rfl⟩ := hsw
    by_cases hz : c.rootid = 0
    · have hch : chosen_tag k c k.VFS_CAP_REVISION_3 = k.VFS_CAP_REVISION_2 := by
        unfold chosen_tag
        rw [if_pos hz]
      obtain ⟨h1, h2⟩ := saved_record_layout_short k hk be rawvfscap c hc hraw _ _ hm ht hok
        (by rw [hch]; exact hk.rev_23) (by rw [hrb.2.1 hch, h23])
      rw [if_pos hz, h1, Int.toNat_natCast, hs2, ← h23]
      exact ⟨rfl, h2⟩
    · have hch : chosen_tag k c k.VFS_CAP_REVISION_3 = k.VFS_CAP_REVISION_3 := by
        unfold chosen_tag
        rw [if_neg hz]
      rw [if_neg hz, Int.toNat_natCast, hs3]
      revert hok
      rw [h3b]
      intro hok
      obtain ⟨h1, h2⟩ := saved_record_layout_full k hk be rawvfscap c hc hraw _ hm hok hch
      rw [h1]
      exact ⟨rfl, h2⟩

/-- C9 fails on Linux for a set with header version
`_LINUX_CAPABILITY_VERSION_1` and root id 0, encoded into a record whose
`data[1]` holds earlier contents: `_fcaps_save` succeeds with the tag of
revision 2 and 20 bytes, and the bytes 12 to 19 are the earlier contents of
`data[1]`, where the on-disk layout has the words of block 1 of the set, which
are zero. -/
theorem fcaps_save_version_1_stale_block :
    (_fcaps_save linux false ⟨0, [⟨0, 0⟩, ⟨0xdeadbeef, 0xcafe⟩], 0⟩
        (some ⟨0xCA90D0, ⟨0x19980330, 0⟩, [⟨0, 1, 0⟩, ⟨0, 0, 0⟩], 0⟩) 0 0).ret = 0
      ∧ (_fcaps_save linux false ⟨0, [⟨0, 0⟩, ⟨0xdeadbeef, 0xcafe⟩], 0⟩
        (some ⟨0xCA90D0, ⟨0x19980330, 0⟩, [⟨0, 1, 0⟩, ⟨0, 0, 0⟩], 0⟩) 0 0).bytes = 20
      ∧ (_fcaps_save linux false ⟨0, [⟨0, 0⟩, ⟨0xdeadbeef, 0xcafe⟩], 0⟩
        (some ⟨0xCA90D0, ⟨0x19980330, 0⟩, [⟨0, 1, 0⟩, ⟨0, 0, 0⟩], 0⟩) 0 0).rawvfscap.magic_etc
          = 0x02000000
      ∧ (record_bytes false (_fcaps_save linux false ⟨0, [⟨0, 0⟩, ⟨0xdeadbeef, 0xcafe⟩], 0⟩
          (some ⟨0xCA90D0, ⟨0x19980330, 0⟩, [⟨0, 1, 0⟩, ⟨0, 0, 0⟩], 0⟩) 0 0).rawvfscap).take 20
          = [0, 0, 0, 2, 1, 0, 0, 0, 0, 0, 0, 0, 0xef, 0xbe, 0xad, 0xde, 0xfe, 0xca, 0, 0]
      ∧ on_disk_layout linux 0x02000000
          ⟨0xCA90D0, ⟨0x19980330, 0⟩, [⟨0, 1, 0⟩, ⟨0, 0, 0⟩], 0⟩
          = [0, 0, 0, 2, 1, 0, 0, 0, 0, 0, 0, 0, 0, 0, 0, 0, 0, 0, 0, 0] := by
  decide

/-! ## Encoding, then decoding -/

/-- The `switch` of `_fcaps_load` on the `magic_etc` and the byte count of a
successful `_fcaps_save` selects the blocks that `_fcaps_save` copied and
leaves no byte over. -/
theorem load_switch_saved (k : Consts) (hk : k.Valid) (c : cap_struct)
    (magic tocopy : Nat) (bytes : Int)
    (hsw : save_switch k c.head.version = some (magic, tocopy, bytes))
    (hns : c.rootid = 0 → c.head.version ≠ k._LINUX_CAPABILITY_VERSION_1) :
    load_switch k (stored_magic k c magic tocopy)
        (if c.rootid = 0 then (k.XATTR_CAPS_SZ_2 : Int) else bytes)
      = some (tocopy, 0) := by
  obtain ⟨hm, _⟩ := save_switch_tag k hk _ magic tocopy bytes hsw
  have htag := stored_magic_tag k hk c magic tocopy hm
  unfold load_switch
  rw [htag]
  unfold save_switch at hsw
  split_ifs at hsw with hv1 hv2 hv3
  · simp only [Option.some.injEq, Prod.mk.injEq] at hsw
    obtain ⟨rfl, rfl, rfl⟩ := hsw
    have hnz : ¬ c.rootid = 0 := fun h => hns h hv1
    have hch : chosen_tag k c k.VFS_CAP_REVISION_1 = k.VFS_CAP_REVISION_1 := by
      unfold chosen_tag
      rw [if_neg hnz]
    rw [hch, if_pos rfl, if_neg hnz, sub_self, to_int_zero]
  · simp only [Option.some.injEq, Prod.mk.injEq] at hsw
    obtain ⟨rfl, rfl, rfl⟩ := hsw
    have hch : chosen_tag k c k.VFS_CAP_REVISION_2 = k.VFS_CAP_REVISION_2 := by
      unfold chosen_tag
      split_ifs <;> rfl
    rw [hch, if_neg hk.rev_12.symm, if_pos rfl, ite_self, sub_self, to_int_zero]
  · simp only [Option.some.injEq, Prod.mk.injEq] at hsw
    obtain ⟨rfl, rfl, rfl⟩ := hsw
    by_cases hz : c.rootid = 0
    · have hch : chosen_tag k c k.VFS_CAP_REVISION_3 = k.VFS_CAP_REVISION_2 := by
        unfold chosen_tag
        rw [if_pos hz]
      rw [hch, if_neg hk.rev_12.symm, if_pos rfl, if_pos hz, sub_self, to_int_zero, hk.u32_23]
    · have hch : chosen_tag k c k.VFS_CAP_REVISION_3 = k.VFS_CAP_REVISION_3 := by
        unfold chosen_tag
        rw [if_neg hz]
      rw [hch, if_neg hk.rev_13.symm, if_neg hk.rev_23.symm, if_pos rfl, if_neg hz, sub_self,
        to_int_zero]

theorem stored_magic_flag (k : Consts) (hk : k.Valid) (c : cap_struct) (magic tocopy : Nat)
    (hm : magic &&& k.VFS_CAP_REVISION_MASK = magic) :
    stored_magic k c magic tocopy &&& k.VFS_CAP_FLAGS_EFFECTIVE ≠ 0
      ↔ save_eff_not_zero c tocopy 0 0 ≠ 0 := by
  have hct := chosen_tag_mask k hk c magic hm
  unfold stored_magic
  by_cases hz : save_eff_not_zero c tocopy 0 0 = 0
  · rw [if_pos hz, tag_land_flag k hk _ hct]
    exact ⟨fun h => absurd rfl h, fun h => absurd hz h⟩
  · rw [if_neg hz, tag_flag_land_flag k hk _ hct]
    exact ⟨fun _ => hz, fun _ => hk.flag_ne⟩

/-- What `_fcaps_load` makes of the output of a successful `_fcaps_save`: it
succeeds, every block that was copied has the permitted and inheritable words
of the set and, as effective mask, their union when `eff_not_zero` was
non-zero and the mask of `result` otherwise; the other blocks are zero. -/
theorem fcaps_load_saved (k : Consts) (hk : k.Valid) (be : Bool)
    (rawvfscap : vfs_ns_cap_data) (c result : cap_struct) (bytes_p errno : Int)
    (magic tocopy : Nat) (bytes : Int) (hc : c.typed k)
    (hraw : rawvfscap.data.length = k.__CAP_BLKS) (hres : result.u.length = k.__CAP_BLKS)
    (hsw : save_switch k c.head.version = some (magic, tocopy, bytes))
    (hns : c.rootid = 0 → c.head.version ≠ k._LINUX_CAPABILITY_VERSION_1)
    (hret : (_fcaps_save k be rawvfscap (some c) bytes_p errno).ret = 0) :
    ∃ r, _fcaps_load k be (_fcaps_save k be rawvfscap (some c) bytes_p errno).rawvfscap result
            (_fcaps_save k be rawvfscap (some c) bytes_p errno).bytes = some r
      ∧ r.rootid = c.rootid
      ∧ (∀ i, i < tocopy →
          (r.u.getD i default).permitted = (c.u.getD i default).permitted
            ∧ (r.u.getD i default).inheritable = (c.u.getD i default).inheritable
            ∧ (r.u.getD i default).effective
                = if save_eff_not_zero c tocopy 0 0 ≠ 0 then
                    (c.u.getD i default).inheritable ||| (c.u.getD i default).permitted
                  else (result.u.getD i default).effective)
      ∧ (∀ i, tocopy ≤ i → i < k.__CAP_BLKS → r.u.getD i default = ⟨0, 0, 0⟩) := by
  obtain ⟨hm, ht⟩ := save_switch_tag k hk _ magic tocopy bytes hsw
  obtain ⟨_, _, hok⟩ :=
    (fcaps_save_ret_zero_iff k be rawvfscap c bytes_p errno magic tocopy bytes hsw).1 hret
  rw [fcaps_save_ok_eq k be rawvfscap c bytes_p errno magic tocopy bytes hsw hret]
  have hmag : FIXUP_32BITS be (saved_record k be rawvfscap c magic tocopy).magic_etc
      = stored_magic k c magic tocopy :=
    saved_record_magic_etc k hk be rawvfscap c hc magic tocopy hm
  have hb : (if FIXUP_32BITS be c.rootid = 0 then (k.XATTR_CAPS_SZ_2 : Int) else bytes)
      = if c.rootid = 0 then (k.XATTR_CAPS_SZ_2 : Int) else bytes := by
    by_cases hz : c.rootid = 0
    · rw [if_pos hz, if_pos ((FIXUP_eq_zero_iff be c.rootid hc.2.1).2 hz)]
    · rw [if_neg hz, if_neg (fun h => hz ((FIXUP_eq_zero_iff be c.rootid hc.2.1).1 h))]
  have hls := load_switch_saved k hk c magic tocopy bytes hsw hns
  rw [← hmag, ← hb] at hls
  refine ⟨_, fcaps_load_ok_eq k be _ result _ tocopy hls, ?_, ?_, ?_⟩
  · exact FIXUP_FIXUP be c.rootid hc.2.1
  · intro i hi
    have hi2 : i < k.__CAP_BLKS := lt_of_lt_of_le hi ht
    simp only [fcaps_load_blocks k be _ _ result tocopy hres ht i hi2, if_pos hi]
    have hd : (saved_record k be rawvfscap c magic tocopy).data.getD i default
        = saved_data be c i := by
      have h := save_copy_getD be c _ tocopy 0 rawvfscap hok i
      have hcnd : 0 ≤ i ∧ i < 0 + tocopy ∧ i < rawvfscap.data.length := by omega
      rw [if_pos hcnd] at h
      exact h
    have hlt := typed_getD k c hc i
    have hp : FIXUP_32BITS be (saved_data be c i).permitted = (c.u.getD i default).permitted :=
      FIXUP_FIXUP be _ hlt.2.1
    have hin : FIXUP_32BITS be (saved_data be c i).inheritable
        = (c.u.getD i default).inheritable := FIXUP_FIXUP be _ hlt.2.2
    unfold decoded_block
    simp only [hd, hp, hin, hmag]
    refine ⟨trivial, trivial, ?_⟩
    by_cases hz : save_eff_not_zero c tocopy 0 0 ≠ 0
    · rw [if_pos ((stored_magic_flag k hk c magic tocopy hm).2 hz), if_pos hz]
    · rw [if_neg (fun h => hz ((stored_magic_flag k hk c magic tocopy hm).1 h)), if_neg hz]
  · intro i hi1 hi2
    simp only [fcaps_load_blocks k be _ _ result tocopy hres ht i hi2]
    rw [if_neg (by omega)]

/-- The claim C1 fails on Linux. First, a set whose blocks beyond `tocopy` are
zero is not encoded at all when a permitted bit is not effective while another
bit is (effective 1, permitted 3). Second, a set with effective 3 and
permitted 1 is encoded, and decoded with effective 1. Third, a set with header
version `_LINUX_CAPABILITY_VERSION_1` and root id 0 is encoded with the tag of
revision 2, and the decoded block 1 holds the earlier contents of `data[1]`. -/
theorem fcaps_round_trip_fails :
    (_fcaps_save linux false ⟨0, [⟨0, 0⟩, ⟨0, 0⟩], 0⟩
        (some ⟨0xCA90D0, ⟨0x20080522, 0⟩, [⟨1, 3, 0⟩, ⟨0, 0, 0⟩], 0⟩) 0 0).ret = -1
      ∧ (_fcaps_save linux false ⟨0, [⟨0, 0⟩, ⟨0, 0⟩], 0⟩
          (some ⟨0xCA90D0, ⟨0x20080522, 0⟩, [⟨3, 1, 0⟩, ⟨0, 0, 0⟩], 0⟩) 0 0).ret = 0
      ∧ _fcaps_load linux false
          (_fcaps_save linux false ⟨0, [⟨0, 0⟩, ⟨0, 0⟩], 0⟩
            (some ⟨0xCA90D0, ⟨0x20080522, 0⟩, [⟨3, 1, 0⟩, ⟨0, 0, 0⟩], 0⟩) 0 0).rawvfscap
          ⟨0xCA90D0, ⟨0x20080522, 0⟩, [⟨0, 0, 0⟩, ⟨0, 0, 0⟩], 0⟩
          (_fcaps_save linux false ⟨0, [⟨0, 0⟩, ⟨0, 0⟩], 0⟩
            (some ⟨0xCA90D0, ⟨0x20080522, 0⟩, [⟨3, 1, 0⟩, ⟨0, 0, 0⟩], 0⟩) 0 0).bytes
        = some ⟨0xCA90D0, ⟨0x20080522, 0⟩, [⟨1, 1, 0⟩, ⟨0, 0, 0⟩], 0⟩
      ∧ (_fcaps_save linux false ⟨0, [⟨0, 0⟩, ⟨0xdeadbeef, 0xcafe⟩], 0⟩
          (some ⟨0xCA90D0, ⟨0x19980330, 0⟩, [⟨0, 1, 0⟩, ⟨0, 0, 0⟩], 0⟩) 0 0).ret = 0
      ∧ _fcaps_load linux false
          (_fcaps_save linux false ⟨0, [⟨0, 0⟩, ⟨0xdeadbeef, 0xcafe⟩], 0⟩
            (some ⟨0xCA90D0, ⟨0x19980330, 0⟩, [⟨0, 1, 0⟩, ⟨0, 0, 0⟩], 0⟩) 0 0).rawvfscap
          ⟨0xCA90D0, ⟨0x20080522, 0⟩, [⟨0, 0, 0⟩, ⟨0, 0, 0⟩], 0⟩
          (_fcaps_save linux false ⟨0, [⟨0, 0⟩, ⟨0xdeadbeef, 0xcafe⟩], 0⟩
            (some ⟨0xCA90D0, ⟨0x19980330, 0⟩, [⟨0, 1, 0⟩, ⟨0, 0, 0⟩], 0⟩) 0 0).bytes
        = some ⟨0xCA90D0, ⟨0x20080522, 0⟩, [⟨0, 1, 0⟩, ⟨0, 0xdeadbeef, 0xcafe⟩], 0⟩ := by
  decide

/-- C1, amended. Round trip: for a well-formed capability set of a recognised
version (with a non-zero root id when the version is
`_LINUX_CAPABILITY_VERSION_1`) whose blocks from `tocopy` on are zero and whose
in-range effective masks are either all zero or each the union of the
permitted and inheritable masks of its block, `_fcaps_save` succeeds, and
`_fcaps_load` of the record and byte count it produced into a zeroed set
succeeds and yields a set whose effective, permitted and inheritable masks are
those of the original in every in-range block and zero in every other block. -/
theorem fcaps_round_trip (k : Consts) (hk : k.Valid) (be : Bool)
    (rawvfscap : vfs_ns_cap_data) (c result : cap_struct) (bytes_p errno : Int)
    (magic tocopy : Nat) (bytes : Int) (hc : c.typed k)
    (hg : good_cap_t k (some c) = true)
    (hraw : rawvfscap.data.length = k.__CAP_BLKS) (hres : result.zeroed k)
    (hsw : save_switch k c.head.version = some (magic, tocopy, bytes))
    (hns : c.rootid = 0 → c.head.version ≠ k._LINUX_CAPABILITY_VERSION_1)
    (hout : ∀ i, tocopy ≤ i → i < k.__CAP_BLKS → c.u.getD i default = ⟨0, 0, 0⟩)
    (heff : (∀ i, i < tocopy → (c.u.getD i default).effective = 0)
      ∨ (∀ i, i < tocopy → (c.u.getD i default).effective
            = (c.u.getD i default).permitted ||| (c.u.getD i default).inheritable)) :
    (_fcaps_save k be rawvfscap (some c) bytes_p errno).ret = 0
      ∧ ∃ r, _fcaps_load k be (_fcaps_save k be rawvfscap (some c) bytes_p errno).rawvfscap
              result (_fcaps_save k be rawvfscap (some c) bytes_p errno).bytes = some r
        ∧ (∀ i, i < tocopy →
            (r.u.getD i default).effective = (c.u.getD i default).effective
              ∧ (r.u.getD i default).permitted = (c.u.getD i default).permitted
              ∧ (r.u.getD i default).inheritable = (c.u.getD i default).inheritable)
        ∧ (∀ i, tocopy ≤ i → i < k.__CAP_BLKS → r.u.getD i default = ⟨0, 0, 0⟩) := by
  have hzero_iff : save_eff_not_zero c tocopy 0 0 = 0
      ↔ ∀ i, i < tocopy → (c.u.getD i default).effective = 0 := by
    rw [save_eff_not_zero_eq_zero_iff]
    constructor
    · intro h i hi
      exact h.2 i (Nat.zero_le i) (by omega)
    · intro h
      exact ⟨rfl, fun j _ hj => h j (by omega)⟩
  have hrange : save_check_range c (k.__CAP_BLKS - tocopy) tocopy = true := by
    rw [save_check_range_iff]
    intro j h1 h2
    rw [hout j h1 (by omega)]
    exact ⟨rfl, rfl, rfl⟩
  have hcopy : (save_copy be c (save_eff_not_zero c tocopy 0 0) tocopy 0 rawvfscap).2
      = true := by
    rw [save_copy_snd_iff]
    rintro j _ hj ⟨hnz, hv⟩
    rcases heff with hall | hall
    · exact hnz (hzero_iff.2 hall)
    · apply hv
      have hlt := typed_getD k c hc j
      rw [not_u32_land_eq_zero_iff _ _ (Nat.or_lt_two_pow hlt.2.1 hlt.2.2), hall j (by omega)]
      exact fun b hb => hb
  have hret : (_fcaps_save k be rawvfscap (some c) bytes_p errno).ret = 0 :=
    (fcaps_save_ret_zero_iff k be rawvfscap c bytes_p errno magic tocopy bytes hsw).2
      ⟨hg, hrange, hcopy⟩
  refine ⟨hret, ?_⟩
  obtain ⟨r, hr, _, hin, hrest⟩ := fcaps_load_saved k hk be rawvfscap c result bytes_p errno
    magic tocopy bytes hc hraw (zeroed_length k result hres) hsw hns hret
  refine ⟨r, hr, fun i hi => ?_, hrest⟩
  obtain ⟨hp, hi', he⟩ := hin i hi
  refine ⟨?_, hp, hi'⟩
  rw [he, zeroed_getD k result hres]
  by_cases hz : save_eff_not_zero c tocopy 0 0 = 0
  · rw [if_neg (fun h => h hz)]
    exact (hzero_iff.1 hz i hi).symm
  · rw [if_pos hz]
    rcases heff with hall | hall
    · exact absurd (hzero_iff.2 hall) hz
    · rw [hall i hi]
      exact Nat.or_comm _ _

/-- The amended claim C1 on Linux, big-endian host: a revision-3 set with root
id 1000 and effective masks equal to permitted OR inheritable. -/
theorem fcaps_round_trip_witness :
    (_fcaps_save linux true ⟨0, [⟨9, 9⟩, ⟨9, 9⟩], 9⟩
        (some ⟨0xCA90D0, ⟨0x20080522, 0⟩, [⟨3, 1, 2⟩, ⟨0x80000000, 0, 0x80000000⟩], 1000⟩)
          0 0).ret = 0
      ∧ ∃ r, _fcaps_load linux true
            (_fcaps_save linux true ⟨0, [⟨9, 9⟩, ⟨9, 9⟩], 9⟩
              (some ⟨0xCA90D0, ⟨0x20080522, 0⟩, [⟨3, 1, 2⟩, ⟨0x80000000, 0, 0x80000000⟩], 1000⟩)
                0 0).rawvfscap
            ⟨0xCA90D0, ⟨0x20080522, 0⟩, [⟨0, 0, 0⟩, ⟨0, 0, 0⟩], 0⟩
            (_fcaps_save linux true ⟨0, [⟨9, 9⟩, ⟨9, 9⟩], 9⟩
              (some ⟨0xCA90D0, ⟨0x20080522, 0⟩, [⟨3, 1, 2⟩, ⟨0x80000000, 0, 0x80000000⟩], 1000⟩)
                0 0).bytes = some r
        ∧ (∀ i, i < 2 →
            (r.u.getD i default).effective
                = (([⟨3, 1, 2⟩, ⟨0x80000000, 0, 0x80000000⟩] : List cap_flat).getD i
                    default).effective
              ∧ (r.u.getD i default).permitted
                = (([⟨3, 1, 2⟩, ⟨0x80000000, 0, 0x80000000⟩] : List cap_flat).getD i
                    default).permitted
              ∧ (r.u.getD i default).inheritable
                = (([⟨3, 1, 2⟩, ⟨0x80000000, 0, 0x80000000⟩] : List cap_flat).getD i
                    default).inheritable)
        ∧ (∀ i, 2 ≤ i → i < linux.__CAP_BLKS → r.u.getD i default = ⟨0, 0, 0⟩) :=
  fcaps_round_trip linux linux_valid true ⟨0, [⟨9, 9⟩, ⟨9, 9⟩], 9⟩
    ⟨0xCA90D0, ⟨0x20080522, 0⟩, [⟨3, 1, 2⟩, ⟨0x80000000, 0, 0x80000000⟩], 1000⟩
    ⟨0xCA90D0, ⟨0x20080522, 0⟩, [⟨0, 0, 0⟩, ⟨0, 0, 0⟩], 0⟩ 0 0 0x03000000 2 24
    (by decide) (by decide) (by decide) (by decide) (by decide) (by decide)
    (by intro i h1 h2; exact absurd h2 (by simp only [linux]; omega))
    (Or.inr (by decide))

/-! ## The version, the tag and the byte count -/

/-- The tag and the byte count of a successful `_fcaps_save`: the tag is
`VFS_CAP_REVISION_2` and the byte count `XATTR_CAPS_SZ_2` when the root id is
zero, whatever the `switch` selected; otherwise they are those of the
`switch`. -/
theorem fcaps_save_tag_bytes (k : Consts) (hk : k.Valid) (be : Bool)
    (rawvfscap : vfs_ns_cap_data) (c : cap_struct) (bytes_p errno : Int)
    (magic tocopy : Nat) (bytes : Int) (hc : c.typed k)
    (hsw : save_switch k c.head.version = some (magic, tocopy, bytes))
    (hret : (_fcaps_save k be rawvfscap (some c) bytes_p errno).ret = 0) :
    FIXUP_32BITS be (_fcaps_save k be rawvfscap (some c) bytes_p errno).rawvfscap.magic_etc
        &&& k.VFS_CAP_REVISION_MASK = (if c.rootid = 0 then k.VFS_CAP_REVISION_2 else magic)
      ∧ (_fcaps_save k be rawvfscap (some c) bytes_p errno).bytes
          = if c.rootid = 0 then (k.XATTR_CAPS_SZ_2 : Int) else bytes := by
  obtain ⟨hm, _⟩ := save_switch_tag k hk _ magic tocopy bytes hsw
  rw [fcaps_save_ok_eq k be rawvfscap c bytes_p errno magic tocopy bytes hsw hret]
  have hmag : FIXUP_32BITS be (saved_record k be rawvfscap c magic tocopy).magic_etc
      = stored_magic k c magic tocopy :=
    saved_record_magic_etc k hk be rawvfscap c hc magic tocopy hm
  have htag := stored_magic_tag k hk c magic tocopy hm
  unfold chosen_tag at htag
  refine ⟨?_, ?_⟩
  · simp only [hmag]
    exact htag
  · by_cases hz : c.rootid = 0
    · simp only [if_pos hz, if_pos ((FIXUP_eq_zero_iff be c.rootid hc.2.1).2 hz)]
    · simp only [if_neg hz,
        if_neg (fun h => hz ((FIXUP_eq_zero_iff be c.rootid hc.2.1).1 h))]

/-- The mapping from the requested version to the revision, as `_fcaps_save`
computes it: version 1 gives revision 1 when the root id is not zero and
revision 2 when it is zero; version 2 gives revision 2. -/
theorem fcaps_save_version_mapping (k : Consts) (hk : k.Valid) (be : Bool)
    (rawvfscap : vfs_ns_cap_data) (c : cap_struct) (bytes_p errno : Int) (hc : c.typed k)
    (hret : (_fcaps_save k be rawvfscap (some c) bytes_p errno).ret = 0) :
    (c.head.version = k._LINUX_CAPABILITY_VERSION_1 → c.rootid ≠ 0 →
        FIXUP_32BITS be (_fcaps_save k be rawvfscap (some c) bytes_p errno).rawvfscap.magic_etc
            &&& k.VFS_CAP_REVISION_MASK = k.VFS_CAP_REVISION_1
          ∧ (_fcaps_save k be rawvfscap (some c) bytes_p errno).bytes = k.XATTR_CAPS_SZ_1)
    ∧ (c.head.version = k._LINUX_CAPABILITY_VERSION_1 → c.rootid = 0 →
        FIXUP_32BITS be (_fcaps_save k be rawvfscap (some c) bytes_p errno).rawvfscap.magic_etc
            &&& k.VFS_CAP_REVISION_MASK = k.VFS_CAP_REVISION_2
          ∧ (_fcaps_save k be rawvfscap (some c) bytes_p errno).bytes = k.XATTR_CAPS_SZ_2)
    ∧ (c.head.version = k._LINUX_CAPABILITY_VERSION_2 →
        FIXUP_32BITS be (_fcaps_save k be rawvfscap (some c) bytes_p errno).rawvfscap.magic_etc
            &&& k.VFS_CAP_REVISION_MASK = k.VFS_CAP_REVISION_2
          ∧ (_fcaps_save k be rawvfscap (some c) bytes_p errno).bytes = k.XATTR_CAPS_SZ_2) := by
  refine ⟨fun hv hnz => ?_, fun hv hz => ?_, fun hv => ?_⟩
  · have hsw : save_switch k c.head.version
        = some (k.VFS_CAP_REVISION_1, k.VFS_CAP_U32_1, (k.XATTR_CAPS_SZ_1 : Int)) := by
      unfold save_switch
      rw [if_pos hv]
    obtain ⟨h1, h2⟩ := fcaps_save_tag_bytes k hk be rawvfscap c bytes_p errno _ _ _ hc hsw hret
    rw [if_neg hnz] at h1 h2
    exact ⟨h1, h2⟩
  · have hsw : save_switch k c.head.version
        = some (k.VFS_CAP_REVISION_1, k.VFS_CAP_U32_1, (k.XATTR_CAPS_SZ_1 : Int)) := by
      unfold save_switch
      rw [if_pos hv]
    obtain ⟨h1, h2⟩ := fcaps_save_tag_bytes k hk be rawvfscap c bytes_p errno _ _ _ hc hsw hret
    rw [if_pos hz] at h1 h2
    exact ⟨h1, h2⟩
  · have hsw : save_switch k c.head.version
        = some (k.VFS_CAP_REVISION_2, k.VFS_CAP_U32_2, (k.XATTR_CAPS_SZ_2 : Int)) := by
      unfold save_switch
      rw [if_neg (by rw [hv]; exact hk.ver_12.symm), if_pos hv]
    obtain ⟨h1, h2⟩ := fcaps_save_tag_bytes k hk be rawvfscap c bytes_p errno _ _ _ hc hsw hret
    rw [ite_self] at h1 h2
    exact ⟨h1, h2⟩

/-- C11 fails on Linux for a set with header version
`_LINUX_CAPABILITY_VERSION_1` and root id 0: `_fcaps_save` succeeds, and the
record carries the tag `VFS_CAP_REVISION_2`, not `VFS_CAP_REVISION_1`, with
the byte count `XATTR_CAPS_SZ_2`, not `XATTR_CAPS_SZ_1`. -/
theorem fcaps_save_version_1_root_0_revision_2 :
    (_fcaps_save linux false ⟨0, [⟨0, 0⟩, ⟨0, 0⟩], 0⟩
        (some ⟨0xCA90D0, ⟨linux._LINUX_CAPABILITY_VERSION_1, 0⟩, [⟨0, 1, 0⟩, ⟨0, 0, 0⟩], 0⟩)
          0 0).ret = 0
      ∧ FIXUP_32BITS false (_fcaps_save linux false ⟨0, [⟨0, 0⟩, ⟨0, 0⟩], 0⟩
          (some ⟨0xCA90D0, ⟨linux._LINUX_CAPABILITY_VERSION_1, 0⟩, [⟨0, 1, 0⟩, ⟨0, 0, 0⟩], 0⟩)
            0 0).rawvfscap.magic_etc &&& linux.VFS_CAP_REVISION_MASK
          = linux.VFS_CAP_REVISION_2
      ∧ linux.VFS_CAP_REVISION_2 ≠ linux.VFS_CAP_REVISION_1
      ∧ (_fcaps_save linux false ⟨0, [⟨0, 0⟩, ⟨0, 0⟩], 0⟩
          (some ⟨0xCA90D0, ⟨linux._LINUX_CAPABILITY_VERSION_1, 0⟩, [⟨0, 1, 0⟩, ⟨0, 0, 0⟩], 0⟩)
            0 0).bytes = linux.XATTR_CAPS_SZ_2
      ∧ linux.XATTR_CAPS_SZ_2 ≠ linux.XATTR_CAPS_SZ_1 := by
  decide

/-! ## Failures of `_fcaps_save` -/

/-- The claim C15 fails on Linux: a set with a bit in a block beyond `tocopy`,
a set with an unrecognised version and a set that violates the consistency
check all make `_fcaps_save` report the same value, -1 with `errno` set to
`EINVAL`. -/
theorem fcaps_save_errors_coincide_example :
    ((_fcaps_save linux false ⟨0, [⟨0, 0⟩, ⟨0, 0⟩], 0⟩
        (some ⟨0xCA90D0, ⟨0x19980330, 0⟩, [⟨0, 0, 0⟩, ⟨0, 0, 4⟩], 1⟩) 0 0).ret = -1
      ∧ (_fcaps_save linux false ⟨0, [⟨0, 0⟩, ⟨0, 0⟩], 0⟩
        (some ⟨0xCA90D0, ⟨0x19980330, 0⟩, [⟨0, 0, 0⟩, ⟨0, 0, 4⟩], 1⟩) 0 0).errno = 22)
    ∧ ((_fcaps_save linux false ⟨0, [⟨0, 0⟩, ⟨0, 0⟩], 0⟩
        (some ⟨0xCA90D0, ⟨0x12345678, 0⟩, [⟨0, 0, 0⟩, ⟨0, 0, 0⟩], 1⟩) 0 0).ret = -1
      ∧ (_fcaps_save linux false ⟨0, [⟨0, 0⟩, ⟨0, 0⟩], 0⟩
        (some ⟨0xCA90D0, ⟨0x12345678, 0⟩, [⟨0, 0, 0⟩, ⟨0, 0, 0⟩], 1⟩) 0 0).errno = 22)
    ∧ ((_fcaps_save linux false ⟨0, [⟨0, 0⟩, ⟨0, 0⟩], 0⟩
        (some ⟨0xCA90D0, ⟨0x20080522, 0⟩, [⟨1, 3, 0⟩, ⟨0, 0, 0⟩], 1⟩) 0 0).ret = -1
      ∧ (_fcaps_save linux false ⟨0, [⟨0, 0⟩, ⟨0, 0⟩], 0⟩
        (some ⟨0xCA90D0, ⟨0x20080522, 0⟩, [⟨1, 3, 0⟩, ⟨0, 0, 0⟩], 1⟩) 0 0).errno = 22) := by
  decide

/-- C15, amended. Any two failing calls of `_fcaps_save` report the same error
value, whatever made them fail: both return -1 and both leave `EINVAL` in
`errno`. -/
theorem fcaps_save_errors_coincide (k : Consts) (be1 be2 : Bool)
    (raw1 raw2 : vfs_ns_cap_data) (cap_d1 cap_d2 : Option cap_struct)
    (bytes_p1 bytes_p2 errno1 errno2 : Int)
    (h1 : (_fcaps_save k be1 raw1 cap_d1 bytes_p1 errno1).ret ≠ 0)
    (h2 : (_fcaps_save k be2 raw2 cap_d2 bytes_p2 errno2).ret ≠ 0) :
    (_fcaps_save k be1 raw1 cap_d1 bytes_p1 errno1).ret
        = (_fcaps_save k be2 raw2 cap_d2 bytes_p2 errno2).ret
      ∧ (_fcaps_save k be1 raw1 cap_d1 bytes_p1 errno1).errno
        = (_fcaps_save k be2 raw2 cap_d2 bytes_p2 errno2).errno
      ∧ (_fcaps_save k be1 raw1 cap_d1 bytes_p1 errno1).ret = -1
      ∧ (_fcaps_save k be1 raw1 cap_d1 bytes_p1 errno1).errno = k.EINVAL := by
  obtain ⟨a1, a2⟩ := fcaps_save_fail k be1 raw1 cap_d1 bytes_p1 errno1 h1
  obtain ⟨b1, b2⟩ := fcaps_save_fail k be2 raw2 cap_d2 bytes_p2 errno2 h2
  exact ⟨by rw [a1, b1], by rw [a2, b2], a1, a2⟩

/-- The amended claim C15 on Linux: a set with a bit beyond `tocopy` and a set
that violates the consistency check. -/
theorem fcaps_save_errors_coincide_witness :
    (_fcaps_save linux false ⟨0, [⟨0, 0⟩, ⟨0, 0⟩], 0⟩
        (some ⟨0xCA90D0, ⟨0x19980330, 0⟩, [⟨0, 0, 0⟩, ⟨0, 0, 4⟩], 1⟩) 0 0).ret
        = (_fcaps_save linux true ⟨0, [⟨0, 0⟩, ⟨0, 0⟩], 0⟩
            (some ⟨0xCA90D0, ⟨0x20080522, 0⟩, [⟨1, 3, 0⟩, ⟨0, 0, 0⟩], 1⟩) 5 7).ret
      ∧ (_fcaps_save linux false ⟨0, [⟨0, 0⟩, ⟨0, 0⟩], 0⟩
        (some ⟨0xCA90D0, ⟨0x19980330, 0⟩, [⟨0, 0, 0⟩, ⟨0, 0, 4⟩], 1⟩) 0 0).errno
        = (_fcaps_save linux true ⟨0, [⟨0, 0⟩, ⟨0, 0⟩], 0⟩
            (some ⟨0xCA90D0, ⟨0x20080522, 0⟩, [⟨1, 3, 0⟩, ⟨0, 0, 0⟩], 1⟩) 5 7).errno
      ∧ (_fcaps_save linux false ⟨0, [⟨0, 0⟩, ⟨0, 0⟩], 0⟩
        (some ⟨0xCA90D0, ⟨0x19980330, 0⟩, [⟨0, 0, 0⟩, ⟨0, 0, 4⟩], 1⟩) 0 0).ret = -1
      ∧ (_fcaps_save linux false ⟨0, [⟨0, 0⟩, ⟨0, 0⟩], 0⟩
        (some ⟨0xCA90D0, ⟨0x19980330, 0⟩, [⟨0, 0, 0⟩, ⟨0, 0, 4⟩], 1⟩) 0 0).errno
          = linux.EINVAL :=
  fcaps_save_errors_coincide linux false true ⟨0, [⟨0, 0⟩, ⟨0, 0⟩], 0⟩
    ⟨0, [⟨0, 0⟩, ⟨0, 0⟩], 0⟩
    (some ⟨0xCA90D0, ⟨0x19980330, 0⟩, [⟨0, 0, 0⟩, ⟨0, 0, 4⟩], 1⟩)
    (some ⟨0xCA90D0, ⟨0x20080522, 0⟩, [⟨1, 3, 0⟩, ⟨0, 0, 0⟩], 1⟩) 0 5 0 7
    (by decide) (by decide)

theorem save_copy_getD_outside (be : Bool) (c : cap_struct) (e n i : Nat)
    (raw : vfs_ns_cap_data) (j : Nat) (h : j < i ∨ i + n ≤ j) :
    (save_copy be c e n i raw).1.data.getD j default = raw.data.getD j default := by
  induction n generalizing i raw with
  | zero => rfl
  | succ n ih =>
    have hij : ¬ (i = j ∧ j < raw.data.length) := by omega
    simp only [save_copy]
    split_ifs
    · simp only [getD_set, if_neg hij]
    · rw [ih (i + 1) _ (by omega)]
      simp only [getD_set, if_neg hij]

theorem fcaps_save_not_good (k : Consts) (be : Bool) (raw : vfs_ns_cap_data)
    (c : cap_struct) (b e : Int) (hg : good_cap_t k (some c) = false) :
    _fcaps_save k be raw (some c) b e = ⟨-1, raw, b, k.EINVAL⟩ := by
  unfold _fcaps_save
  simp [hg]

theorem fcaps_save_unknown_version (k : Consts) (be : Bool) (raw : vfs_ns_cap_data)
    (c : cap_struct) (b e : Int) (hsw : save_switch k c.head.version = none) :
    _fcaps_save k be raw (some c) b e = ⟨-1, raw, b, k.EINVAL⟩ := by
  unfold _fcaps_save
  simp [hsw]

theorem fcaps_save_range_fail (k : Consts) (be : Bool) (raw : vfs_ns_cap_data)
    (c : cap_struct) (b e : Int) (magic tocopy : Nat) (bytes : Int)
    (hg : good_cap_t k (some c) = true)
    (hsw : save_switch k c.head.version = some (magic, tocopy, bytes))
    (hr : save_check_range c (k.__CAP_BLKS - tocopy) tocopy = false) :
    _fcaps_save k be raw (some c) b e = ⟨-1, raw, bytes, k.EINVAL⟩ := by
  unfold _fcaps_save
  simp [hg, hsw, hr]

theorem fcaps_save_copy_fail (k : Consts) (be : Bool) (raw : vfs_ns_cap_data)
    (c : cap_struct) (b e : Int) (magic tocopy : Nat) (bytes : Int)
    (hg : good_cap_t k (some c) = true)
    (hsw : save_switch k c.head.version = some (magic, tocopy, bytes))
    (hr : save_check_range c (k.__CAP_BLKS - tocopy) tocopy = true)
    (hc : (save_copy be c (save_eff_not_zero c tocopy 0 0) tocopy 0 raw).2 = false) :
    _fcaps_save k be raw (some c) b e
      = ⟨-1, (save_copy be c (save_eff_not_zero c tocopy 0 0) tocopy 0 raw).1, bytes,
          k.EINVAL⟩ := by
  unfold _fcaps_save
  simp only [hg, hsw, hr]
  rcases hcp : save_copy be c (save_eff_not_zero c tocopy 0 0) tocopy 0 raw with ⟨r1, ok⟩
  rw [hcp] at hc
  simp only at hc
  subst hc
  simp

/-- The claim C12 fails on Linux: a set that violates the consistency check
makes `_fcaps_save` fail after it has set `*bytes_p` to `XATTR_CAPS_SZ_3` and
has written the words of block 0 to the record. -/
theorem fcaps_save_fail_writes :
    (_fcaps_save linux false ⟨0xdeadbeef, [⟨7, 7⟩, ⟨9, 9⟩], 5⟩
        (some ⟨0xCA90D0, ⟨0x20080522, 0⟩, [⟨1, 3, 0⟩, ⟨0, 0, 0⟩], 0⟩) 77 0).ret = -1
      ∧ (_fcaps_save linux false ⟨0xdeadbeef, [⟨7, 7⟩, ⟨9, 9⟩], 5⟩
        (some ⟨0xCA90D0, ⟨0x20080522, 0⟩, [⟨1, 3, 0⟩, ⟨0, 0, 0⟩], 0⟩) 77 0).bytes = 24
      ∧ (_fcaps_save linux false ⟨0xdeadbeef, [⟨7, 7⟩, ⟨9, 9⟩], 5⟩
        (some ⟨0xCA90D0, ⟨0x20080522, 0⟩, [⟨1, 3, 0⟩, ⟨0, 0, 0⟩], 0⟩) 77 0).rawvfscap
          = ⟨0xdeadbeef, [⟨3, 0⟩, ⟨9, 9⟩], 5⟩ := by
  decide

/-- C12, amended. If `_fcaps_save` fails, `magic_etc` and `rootid` of the output
record are as they were before the call, and so are the words of every block
at an index from `tocopy` on. The whole record is as it was when the set is
not well-formed, when the version is not recognised or when a block at an
index from `tocopy` on is non-zero, and `*bytes_p` is as it was in the first
two of these cases; for a well-formed set of a recognised version `*bytes_p`
holds the size that the `switch` selected. -/
theorem fcaps_save_fail_frame (k : Consts) (be : Bool) (rawvfscap : vfs_ns_cap_data)
    (c : cap_struct) (bytes_p errno : Int)
    (hret : (_fcaps_save k be rawvfscap (some c) bytes_p errno).ret ≠ 0) :
    (_fcaps_save k be rawvfscap (some c) bytes_p errno).rawvfscap.magic_etc
        = rawvfscap.magic_etc
      ∧ (_fcaps_save k be rawvfscap (some c) bytes_p errno).rawvfscap.rootid = rawvfscap.rootid
      ∧ (good_cap_t k (some c) = false ∨ save_switch k c.head.version = none →
          (_fcaps_save k be rawvfscap (some c) bytes_p errno).rawvfscap = rawvfscap
            ∧ (_fcaps_save k be rawvfscap (some c) bytes_p errno).bytes = bytes_p)
      ∧ (∀ magic tocopy bytes,
          save_switch k c.head.version = some (magic, tocopy, bytes) →
            (∀ j, tocopy ≤ j →
              (_fcaps_save k be rawvfscap (some c) bytes_p errno).rawvfscap.data.getD j default
                = rawvfscap.data.getD j default)
            ∧ (good_cap_t k (some c) = true →
                (_fcaps_save k be rawvfscap (some c) bytes_p errno).bytes = bytes)
            ∧ ((∃ j, tocopy ≤ j ∧ j < k.__CAP_BLKS
                  ∧ ((c.u.getD j default).effective ≠ 0 ∨ (c.u.getD j default).permitted ≠ 0
                      ∨ (c.u.getD j default).inheritable ≠ 0)) →
                (_fcaps_save k be rawvfscap (some c) bytes_p errno).rawvfscap = rawvfscap)) := by
  cases hg : good_cap_t k (some c)
  · rw [fcaps_save_not_good k be rawvfscap c bytes_p errno hg]
    exact ⟨rfl, rfl, fun _ => ⟨rfl, rfl⟩,
      fun _ _ _ _ => ⟨fun _ _ => rfl, fun h => Bool.noConfusion h, fun _ => rfl⟩⟩
  · rcases hsw : save_switch k c.head.version with _ | ⟨m, t, bs⟩
    · rw [fcaps_save_unknown_version k be rawvfscap c bytes_p errno hsw]
      exact ⟨rfl, rfl, fun _ => ⟨rfl, rfl⟩,
        fun _ _ _ h => Option.noConfusion h⟩
    · cases hr : save_check_range c (k.__CAP_BLKS - t) t
      · rw [fcaps_save_range_fail k be rawvfscap c bytes_p errno m t bs hg hsw hr]
        refine ⟨rfl, rfl, ?_, ?_⟩
        · rintro (h | h)
          · exact Bool.noConfusion h
          · exact Option.noConfusion h
        · intro magic tocopy bytes h
          simp only [Option.some.injEq, Prod.mk.injEq] at h
          obtain ⟨_, _, rfl⟩ := h
          exact ⟨fun _ _ => rfl, fun _ => rfl, fun _ => rfl⟩
      · cases hcp : (save_copy be c (save_eff_not_zero c t 0 0) t 0 rawvfscap).2
        · rw [fcaps_save_copy_fail k be rawvfscap c bytes_p errno m t bs hg hsw hr hcp]
          refine ⟨save_copy_magic_etc be c _ t 0 rawvfscap, save_copy_rootid be c _ t 0 rawvfscap,
            ?_, ?_⟩
          · rintro (h | h)
            · exact Bool.noConfusion h
            · exact Option.noConfusion h
          · intro magic tocopy bytes h
            simp only [Option.some.injEq, Prod.mk.injEq] at h
            obtain ⟨_, rfl, rfl⟩ := h
            refine ⟨fun j hj => save_copy_getD_outside be c _ _ 0 rawvfscap j (by omega),
              fun _ => rfl, ?_⟩
            rintro ⟨j, h1, h2, hnz⟩
            exfalso
            have h := (save_check_range_iff c _ _).1 hr j h1 (by omega)
            rcases hnz with hnz | hnz | hnz
            · exact hnz h.1
            · exact hnz h.2.2
            · exact hnz h.2.1
        · exact absurd ((fcaps_save_ret_zero_iff k be rawvfscap c bytes_p errno m t bs hsw).2
            ⟨hg, hr, hcp⟩) hret

/-- The amended claim C12 on Linux, at the failing call of
`fcaps_save_fail_writes`. -/
theorem fcaps_save_fail_frame_witness :
    (_fcaps_save linux false ⟨0xdeadbeef, [⟨7, 7⟩, ⟨9, 9⟩], 5⟩
        (some ⟨0xCA90D0, ⟨0x20080522, 0⟩, [⟨1, 3, 0⟩, ⟨0, 0, 0⟩], 0⟩) 77 0).rawvfscap.magic_etc
        = 0xdeadbeef
      ∧ (_fcaps_save linux false ⟨0xdeadbeef, [⟨7, 7⟩, ⟨9, 9⟩], 5⟩
        (some ⟨0xCA90D0, ⟨0x20080522, 0⟩, [⟨1, 3, 0⟩, ⟨0, 0, 0⟩], 0⟩) 77 0).rawvfscap.rootid = 5 :=
  ⟨(fcaps_save_fail_frame linux false ⟨0xdeadbeef, [⟨7, 7⟩, ⟨9, 9⟩], 5⟩
      ⟨0xCA90D0, ⟨0x20080522, 0⟩, [⟨1, 3, 0⟩, ⟨0, 0, 0⟩], 0⟩ 77 0 (by decide)).1,
    (fcaps_save_fail_frame linux false ⟨0xdeadbeef, [⟨7, 7⟩, ⟨9, 9⟩], 5⟩
      ⟨0xCA90D0, ⟨0x20080522, 0⟩, [⟨1, 3, 0⟩, ⟨0, 0, 0⟩], 0⟩ 77 0 (by decide)).2.1⟩

/-! ## More on the outcome of `_fcaps_load` -/

theorem cap_flat_eq (a b : cap_flat) (he : a.effective = b.effective)
    (hp : a.permitted = b.permitted) (hi : a.inheritable = b.inheritable) : a = b := by
  cases a
  cases b
  simp only at he hp hi
  subst he hp hi
  rfl

theorem cap_struct_eq (a b : cap_struct) (hm : a.magic = b.magic) (hh : a.head = b.head)
    (hu : a.u = b.u) (hr : a.rootid = b.rootid) : a = b := by
  cases a
  cases b
  simp only at hm hh hu hr
  subst hm hh hu hr
  rfl

theorem list_eq_of_getD {α : Type} (l1 l2 : List α) (d : α) (hlen : l1.length = l2.length)
    (h : ∀ i, i < l1.length → l1.getD i d = l2.getD i d) : l1 = l2 := by
  apply List.ext_getElem hlen
  intro n h1 h2
  have := h n h1
  rw [List.getD_eq_getElem _ _ h1, List.getD_eq_getElem _ _ h2] at this
  exact this

theorem raw_typed_getD (k : Consts) (r : vfs_ns_cap_data) (hr : r.typed k) (i : Nat) :
    (r.data.getD i default).permitted < 2 ^ 32 ∧ (r.data.getD i default).inheritable < 2 ^ 32 := by
  by_cases hi : i < r.data.length
  · rw [List.getD_eq_getElem _ _ hi]
    exact hr.2.2.2 _ (List.getElem_mem hi)
  · have hle : r.data.length ≤ i := by omega
    rw [List.getD_eq_default _ _ hle]
    exact ⟨by decide, by decide⟩

theorem load_switch_blocks (k : Consts) (hk : k.Valid) (m : Nat) (bytes : Int)
    (tocopy : Nat) (rest : Int) (hsw : load_switch k m bytes = some (tocopy, rest)) :
    tocopy ≤ k.__CAP_BLKS := by
  unfold load_switch at hsw
  split_ifs at hsw
  · simp only [Option.some.injEq, Prod.mk.injEq] at hsw
    obtain ⟨rfl, _⟩ := hsw
    exact hk.u32_1
  · simp only [Option.some.injEq, Prod.mk.injEq] at hsw
    obtain ⟨rfl, _⟩ := hsw
    exact hk.u32_2
  · simp only [Option.some.injEq, Prod.mk.injEq] at hsw
    obtain ⟨rfl, _⟩ := hsw
    exact le_of_eq hk.u32_3

/-- A successful `_fcaps_load`: the `switch` selected a number of blocks and
left no byte over, and the result is the set that the two loops and the
assignment of `rootid` produce. -/
theorem fcaps_load_some_inv (k : Consts) (be : Bool) (raw : vfs_ns_cap_data)
    (result : cap_struct) (bytes : Int) (d : cap_struct)
    (hd : _fcaps_load k be raw result bytes = some d) :
    ∃ tocopy, load_switch k (FIXUP_32BITS be raw.magic_etc) bytes = some (tocopy, 0)
      ∧ d = { load_clear (k.__CAP_BLKS - tocopy) tocopy
                (load_copy k be (FIXUP_32BITS be raw.magic_etc) raw tocopy 0 result) with
              rootid := FIXUP_32BITS be raw.rootid } := by
  rcases hsw : load_switch k (FIXUP_32BITS be raw.magic_etc) bytes with _ | ⟨t, rest⟩
  · unfold _fcaps_load at hd
    simp [hsw] at hd
  · by_cases hz : rest = 0
    · subst hz
      rw [fcaps_load_ok_eq k be raw result bytes t hsw] at hd
      exact ⟨t, rfl, (Option.some.inj hd).symm⟩
    · have := (fcaps_load_none_iff k be raw result bytes t rest hsw).2 hz
      rw [this] at hd
      exact Option.noConfusion hd

theorem fcaps_load_some_frame (k : Consts) (be : Bool) (raw : vfs_ns_cap_data)
    (result : cap_struct) (bytes : Int) (d : cap_struct)
    (hd : _fcaps_load k be raw result bytes = some d) :
    d.magic = result.magic ∧ d.head = result.head ∧ d.u.length = result.u.length
      ∧ d.rootid = FIXUP_32BITS be raw.rootid := by
  obtain ⟨t, _, rfl⟩ := fcaps_load_some_inv k be raw result bytes d hd
  refine ⟨?_, ?_, ?_, rfl⟩
  · simp only [load_clear_magic, load_copy_magic]
  · simp only [load_clear_head, load_copy_head]
  · simp only [load_clear_length, load_copy_length]

/-! ## The earlier contents of the result set -/

/-- The claim C19 fails on Linux: a revision-2 record without the effective
flag is decoded into a zeroed set and into a set with effective masks 5 and 6;
both runs succeed, and the second result still has the effective masks 5 and
6. -/
theorem fcaps_load_keeps_effective :
    _fcaps_load linux false ⟨0x02000000, [⟨1, 2⟩, ⟨4, 8⟩], 0⟩
        ⟨0xCA90D0, ⟨0x20080522, 0⟩, [⟨0, 0, 0⟩, ⟨0, 0, 0⟩], 0⟩ 20
        = some ⟨0xCA90D0, ⟨0x20080522, 0⟩, [⟨0, 1, 2⟩, ⟨0, 4, 8⟩], 0⟩
      ∧ _fcaps_load linux false ⟨0x02000000, [⟨1, 2⟩, ⟨4, 8⟩], 0⟩
        ⟨0xCA90D0, ⟨0x20080522, 0⟩, [⟨5, 0, 0⟩, ⟨6, 0, 0⟩], 0⟩ 20
        = some ⟨0xCA90D0, ⟨0x20080522, 0⟩, [⟨5, 1, 2⟩, ⟨6, 4, 8⟩], 0⟩ := by
  decide

/-- C19, amended. For two initial contents of the result set, the two runs of
`_fcaps_load` on the same record and byte count both fail, or both succeed
with the same root id, the same permitted and inheritable masks in every
block, the same effective mask in every block from `tocopy` on and, when
`VFS_CAP_FLAGS_EFFECTIVE` is set in `magic_etc`, the same effective mask in
every block; when the flag is clear, the effective mask of every block below
`tocopy` is the one that the supplied set had. -/
theorem fcaps_load_stale_contents (k : Consts) (hk : k.Valid) (be : Bool)
    (rawvfscap : vfs_ns_cap_data) (r1 r2 : cap_struct) (bytes : Int)
    (hl1 : r1.u.length = k.__CAP_BLKS) (hl2 : r2.u.length = k.__CAP_BLKS) :
    (_fcaps_load k be rawvfscap r1 bytes = none ∧ _fcaps_load k be rawvfscap r2 bytes = none)
    ∨ ∃ tocopy d1 d2,
        load_switch k (FIXUP_32BITS be rawvfscap.magic_etc) bytes = some (tocopy, 0)
        ∧ _fcaps_load k be rawvfscap r1 bytes = some d1
        ∧ _fcaps_load k be rawvfscap r2 bytes = some d2
        ∧ d1.rootid = d2.rootid
        ∧ (∀ i, i < k.__CAP_BLKS →
            (d1.u.getD i default).permitted = (d2.u.getD i default).permitted
              ∧ (d1.u.getD i default).inheritable = (d2.u.getD i default).inheritable)
        ∧ (∀ i, tocopy ≤ i → i < k.__CAP_BLKS →
            (d1.u.getD i default).effective = (d2.u.getD i default).effective)
        ∧ (FIXUP_32BITS be rawvfscap.magic_etc &&& k.VFS_CAP_FLAGS_EFFECTIVE ≠ 0 →
            ∀ i, i < k.__CAP_BLKS →
              (d1.u.getD i default).effective = (d2.u.getD i default).effective)
        ∧ (FIXUP_32BITS be rawvfscap.magic_etc &&& k.VFS_CAP_FLAGS_EFFECTIVE = 0 →
            ∀ i, i < tocopy →
              (d1.u.getD i default).effective = (r1.u.getD i default).effective
                ∧ (d2.u.getD i default).effective = (r2.u.getD i default).effective) := by
  rcases hsw : load_switch k (FIXUP_32BITS be rawvfscap.magic_etc) bytes with _ | ⟨t, rest⟩
  · left
    unfold _fcaps_load
    simp [hsw]
  · by_cases hz : rest = 0
    · subst hz
      right
      have ht := load_switch_blocks k hk _ bytes t 0 hsw
      refine ⟨t, _, _, rfl, fcaps_load_ok_eq k be rawvfscap r1 bytes t hsw,
        fcaps_load_ok_eq k be rawvfscap r2 bytes t hsw, rfl, ?_, ?_, ?_, ?_⟩
      · intro i hi
        simp only [fcaps_load_blocks k be _ rawvfscap r1 t hl1 ht i hi,
          fcaps_load_blocks k be _ rawvfscap r2 t hl2 ht i hi]
        by_cases hit : i < t
        · rw [if_pos hit, if_pos hit]
          exact ⟨rfl, rfl⟩
        · rw [if_neg hit, if_neg hit]
          exact ⟨rfl, rfl⟩
      · intro i h1 hi
        simp only [fcaps_load_blocks k be _ rawvfscap r1 t hl1 ht i hi,
          fcaps_load_blocks k be _ rawvfscap r2 t hl2 ht i hi]
        rw [if_neg (by omega), if_neg (by omega)]
      · intro hflag i hi
        simp only [fcaps_load_blocks k be _ rawvfscap r1 t hl1 ht i hi,
          fcaps_load_blocks k be _ rawvfscap r2 t hl2 ht i hi]
        by_cases hit : i < t
        · simp only [if_pos hit, decoded_block, if_pos hflag]
        · simp only [if_neg hit]
      · intro hflag i hit
        have hi : i < k.__CAP_BLKS := lt_of_lt_of_le hit ht
        have hnf : ¬ (FIXUP_32BITS be rawvfscap.magic_etc &&& k.VFS_CAP_FLAGS_EFFECTIVE ≠ 0) :=
          fun h => h hflag
        simp only [fcaps_load_blocks k be _ rawvfscap r1 t hl1 ht i hi,
          fcaps_load_blocks k be _ rawvfscap r2 t hl2 ht i hi, if_pos hit, decoded_block,
          if_neg hnf]
        exact ⟨trivial, trivial⟩
    · left
      exact ⟨(fcaps_load_none_iff k be rawvfscap r1 bytes t rest hsw).2 hz,
        (fcaps_load_none_iff k be rawvfscap r2 bytes t rest hsw).2 hz⟩

/-- The amended claim C19 on Linux, at the two runs of
`fcaps_load_keeps_effective`. -/
theorem fcaps_load_stale_contents_witness :
    (_fcaps_load linux false ⟨0x02000000, [⟨1, 2⟩, ⟨4, 8⟩], 0⟩
          ⟨0xCA90D0, ⟨0x20080522, 0⟩, [⟨0, 0, 0⟩, ⟨0, 0, 0⟩], 0⟩ 20 = none
        ∧ _fcaps_load linux false ⟨0x02000000, [⟨1, 2⟩, ⟨4, 8⟩], 0⟩
          ⟨0xCA90D0, ⟨0x20080522, 0⟩, [⟨5, 0, 0⟩, ⟨6, 0, 0⟩], 0⟩ 20 = none)
    ∨ ∃ tocopy d1 d2,
        load_switch linux (FIXUP_32BITS false 0x02000000) 20 = some (tocopy, 0)
        ∧ _fcaps_load linux false ⟨0x02000000, [⟨1, 2⟩, ⟨4, 8⟩], 0⟩
            ⟨0xCA90D0, ⟨0x20080522, 0⟩, [⟨0, 0, 0⟩, ⟨0, 0, 0⟩], 0⟩ 20 = some d1
        ∧ _fcaps_load linux false ⟨0x02000000, [⟨1, 2⟩, ⟨4, 8⟩], 0⟩
            ⟨0xCA90D0, ⟨0x20080522, 0⟩, [⟨5, 0, 0⟩, ⟨6, 0, 0⟩], 0⟩ 20 = some d2
        ∧ d1.rootid = d2.rootid
        ∧ (∀ i, i < linux.__CAP_BLKS →
            (d1.u.getD i default).permitted = (d2.u.getD i default).permitted
              ∧ (d1.u.getD i default).inheritable = (d2.u.getD i default).inheritable)
        ∧ (∀ i, tocopy ≤ i → i < linux.__CAP_BLKS →
            (d1.u.getD i default).effective = (d2.u.getD i default).effective)
        ∧ (FIXUP_32BITS false 0x02000000 &&& linux.VFS_CAP_FLAGS_EFFECTIVE ≠ 0 →
            ∀ i, i < linux.__CAP_BLKS →
              (d1.u.getD i default).effective = (d2.u.getD i default).effective)
        ∧ (FIXUP_32BITS false 0x02000000 &&& linux.VFS_CAP_FLAGS_EFFECTIVE = 0 →
            ∀ i, i < tocopy →
              (d1.u.getD i default).effective
                  = (([⟨0, 0, 0⟩, ⟨0, 0, 0⟩] : List cap_flat).getD i default).effective
                ∧ (d2.u.getD i default).effective
                  = (([⟨5, 0, 0⟩, ⟨6, 0, 0⟩] : List cap_flat).getD i default).effective) :=
  fcaps_load_stale_contents linux linux_valid false ⟨0x02000000, [⟨1, 2⟩, ⟨4, 8⟩], 0⟩
    ⟨0xCA90D0, ⟨0x20080522, 0⟩, [⟨0, 0, 0⟩, ⟨0, 0, 0⟩], 0⟩
    ⟨0xCA90D0, ⟨0x20080522, 0⟩, [⟨5, 0, 0⟩, ⟨6, 0, 0⟩], 0⟩ 20 (by decide) (by decide)

/-! ## The round trip of the default version -/

theorem eff_not_zero_iff_exists (c : cap_struct) (tocopy : Nat) :
    save_eff_not_zero c tocopy 0 0 ≠ 0
      ↔ ∃ j, j < tocopy ∧ (c.u.getD j default).effective ≠ 0 := by
  rw [Ne, save_eff_not_zero_eq_zero_iff]
  constructor
  · intro h
    by_contra hno
    apply h
    refine ⟨rfl, fun j _ hj => ?_⟩
    by_contra hne
    exact hno ⟨j, by omega, hne⟩
  · rintro ⟨j, hj, hne⟩ h
    exact hne (h.2 j (Nat.zero_le j) (by omega))

/-- C17. Normalising round trip for `_LINUX_CAPABILITY_VERSION_3`: when
`_fcaps_save` succeeds on a set with that header version, `_fcaps_load` of the
record and byte count it produced into a zeroed set succeeds; the decoded
permitted and inheritable masks are those of the original in every block; the
decoded effective mask of every block is permitted OR inheritable when some
effective mask of the original is non-zero, and zero otherwise;
`cap_get_nsowner` of the decoded set is the original root id; and the decoded
blocks and root id are those of the original exactly when the original
effective masks are all zero or each the union of the permitted and
inheritable masks of its block. -/
theorem fcaps_round_trip_normalising (k : Consts) (hk : k.Valid) (be : Bool)
    (rawvfscap : vfs_ns_cap_data) (c result : cap_struct) (bytes_p errno : Int)
    (hc : c.typed k) (hraw : rawvfscap.data.length = k.__CAP_BLKS) (hres : result.zeroed k)
    (hv : c.head.version = k._LINUX_CAPABILITY_VERSION_3)
    (hret : (_fcaps_save k be rawvfscap (some c) bytes_p errno).ret = 0) :
    ∃ r, _fcaps_load k be (_fcaps_save k be rawvfscap (some c) bytes_p errno).rawvfscap result
            (_fcaps_save k be rawvfscap (some c) bytes_p errno).bytes = some r
      ∧ (∀ i, i < k.__CAP_BLKS →
          (r.u.getD i default).permitted = (c.u.getD i default).permitted
            ∧ (r.u.getD i default).inheritable = (c.u.getD i default).inheritable)
      ∧ ((∃ j, j < k.__CAP_BLKS ∧ (c.u.getD j default).effective ≠ 0) →
          ∀ i, i < k.__CAP_BLKS →
            (r.u.getD i default).effective
              = (c.u.getD i default).permitted ||| (c.u.getD i default).inheritable)
      ∧ ((∀ j, j < k.__CAP_BLKS → (c.u.getD j default).effective = 0) →
          ∀ i, i < k.__CAP_BLKS → (r.u.getD i default).effective = 0)
      ∧ cap_get_nsowner r = c.rootid
      ∧ ((r.u = c.u ∧ r.rootid = c.rootid)
          ↔ ((∀ i, i < k.__CAP_BLKS → (c.u.getD i default).effective = 0)
              ∨ (∀ i, i < k.__CAP_BLKS → (c.u.getD i default).effective
                    = (c.u.getD i default).permitted ||| (c.u.getD i default).inheritable))) := by
  have hsw : save_switch k c.head.version
      = some (k.VFS_CAP_REVISION_3, k.__CAP_BLKS, (k.XATTR_CAPS_SZ_3 : Int)) := by
    rw [hv, save_switch_version_3 k hk, hk.u32_3]
  have hns : c.rootid = 0 → c.head.version ≠ k._LINUX_CAPABILITY_VERSION_1 := by
    intro _
    rw [hv]
    exact hk.ver_13.symm
  obtain ⟨r, hr, hroot, hin, _⟩ := fcaps_load_saved k hk be rawvfscap c result bytes_p errno
    _ _ _ hc hraw (zeroed_length k result hres) hsw hns hret
  have hlen : r.u.length = c.u.length := by
    rw [(fcaps_load_some_frame k be _ result _ r hr).2.2.1, zeroed_length k result hres, hc.1]
  have hex := eff_not_zero_iff_exists c k.__CAP_BLKS
  have heff : ∀ i, i < k.__CAP_BLKS → (r.u.getD i default).effective
      = if save_eff_not_zero c k.__CAP_BLKS 0 0 ≠ 0 then
          (c.u.getD i default).permitted ||| (c.u.getD i default).inheritable
        else 0 := by
    intro i hi
    rw [(hin i hi).2.2, zeroed_getD k result hres, Nat.or_comm]
  have hsome : (∃ j, j < k.__CAP_BLKS ∧ (c.u.getD j default).effective ≠ 0) →
      ∀ i, i < k.__CAP_BLKS → (r.u.getD i default).effective
        = (c.u.getD i default).permitted ||| (c.u.getD i default).inheritable := by
    intro h i hi
    rw [heff i hi, if_pos (hex.2 h)]
  have hnone : (∀ j, j < k.__CAP_BLKS → (c.u.getD j default).effective = 0) →
      ∀ i, i < k.__CAP_BLKS → (r.u.getD i default).effective = 0 := by
    intro h i hi
    rw [heff i hi, if_neg]
    intro hne
    obtain ⟨j, hj, hjne⟩ := hex.1 hne
    exact hjne (h j hj)
  refine ⟨r, hr, fun i hi => ⟨(hin i hi).1, (hin i hi).2.1⟩, hsome, hnone, hroot, ?_⟩
  constructor
  · rintro ⟨hu, _⟩
    by_cases hz : save_eff_not_zero c k.__CAP_BLKS 0 0 ≠ 0
    · right
      intro i hi
      have h := hsome (hex.1 hz) i hi
      rw [hu] at h
      exact h
    · left
      intro i hi
      by_contra hne
      exact hz (hex.2 ⟨i, hi, hne⟩)
  · intro h
    refine ⟨?_, hroot⟩
    apply list_eq_of_getD r.u c.u default hlen
    intro i hi
    have hi2 : i < k.__CAP_BLKS := by
      rw [hlen, hc.1] at hi
      exact hi
    apply cap_flat_eq _ _ _ (hin i hi2).1 (hin i hi2).2.1
    rcases h with hall | hall
    · rw [hnone hall i hi2, hall i hi2]
    · by_cases hz : save_eff_not_zero c k.__CAP_BLKS 0 0 ≠ 0
      · rw [hsome (hex.1 hz) i hi2, hall i hi2]
      · have hzero : ∀ j, j < k.__CAP_BLKS → (c.u.getD j default).effective = 0 := by
          intro j hj
          by_contra hne
          exact hz (hex.2 ⟨j, hj, hne⟩)
        rw [hnone hzero i hi2, hzero i hi2]

/-- The claim C17 on Linux, big-endian host, at a set with effective 7,
permitted 1 and inheritable 2 in block 0 and root id 1000. -/
theorem fcaps_round_trip_normalising_witness :
    ∃ r, _fcaps_load linux true
            (_fcaps_save linux true ⟨0, [⟨9, 9⟩, ⟨9, 9⟩], 9⟩
              (some ⟨0xCA90D0, ⟨0x20080522, 0⟩, [⟨7, 1, 2⟩, ⟨0, 0, 0⟩], 1000⟩) 0 0).rawvfscap
            ⟨0xCA90D0, ⟨0x20080522, 0⟩, [⟨0, 0, 0⟩, ⟨0, 0, 0⟩], 0⟩
            (_fcaps_save linux true ⟨0, [⟨9, 9⟩, ⟨9, 9⟩], 9⟩
              (some ⟨0xCA90D0, ⟨0x20080522, 0⟩, [⟨7, 1, 2⟩, ⟨0, 0, 0⟩], 1000⟩) 0 0).bytes = some r
      ∧ (∀ i, i < linux.__CAP_BLKS →
          (r.u.getD i default).effective
            = (([⟨7, 1, 2⟩, ⟨0, 0, 0⟩] : List cap_flat).getD i default).permitted
                ||| (([⟨7, 1, 2⟩, ⟨0, 0, 0⟩] : List cap_flat).getD i default).inheritable)
      ∧ cap_get_nsowner r = 1000 := by
  obtain ⟨r, h1, _, h3, _, h5, _⟩ := fcaps_round_trip_normalising linux linux_valid true
    ⟨0, [⟨9, 9⟩, ⟨9, 9⟩], 9⟩
    ⟨0xCA90D0, ⟨0x20080522, 0⟩, [⟨7, 1, 2⟩, ⟨0, 0, 0⟩], 1000⟩
    ⟨0xCA90D0, ⟨0x20080522, 0⟩, [⟨0, 0, 0⟩, ⟨0, 0, 0⟩], 0⟩ 0 0
    (by decide) (by decide) (by decide) (by decide) (by decide)
  exact ⟨r, h1, h3 ⟨0, by decide, by decide⟩, h5⟩

/-! ## Decoding, then encoding, then decoding -/

/-- The blocks of a set that `_fcaps_load` decoded into a zeroed set. -/
theorem fcaps_load_zeroed_blocks (k : Consts) (hk : k.Valid) (be : Bool)
    (raw : vfs_ns_cap_data) (result : cap_struct) (bytes : Int) (d : cap_struct)
    (hres : result.zeroed k) (hd : _fcaps_load k be raw result bytes = some d) :
    ∃ tocopy, tocopy ≤ k.__CAP_BLKS ∧ ∀ j, j < k.__CAP_BLKS →
      d.u.getD j default
        = if j < tocopy then
            decoded_block k be (FIXUP_32BITS be raw.magic_etc) raw j ⟨0, 0, 0⟩
          else ⟨0, 0, 0⟩ := by
  obtain ⟨t, hsw, hdeq⟩ := fcaps_load_some_inv k be raw result bytes d hd
  have ht := load_switch_blocks k hk _ bytes t 0 hsw
  refine ⟨t, ht, fun j hj => ?_⟩
  rw [hdeq]
  have h := fcaps_load_blocks k be (FIXUP_32BITS be raw.magic_etc) raw result t
    (zeroed_length k result hres) ht j hj
  rw [zeroed_getD k result hres] at h
  exact h

/-- A set that `_fcaps_load` decoded from a record of 32-bit words into a
zeroed set consists of 32-bit words, and each of its effective masks is the
union of the inheritable and permitted masks of its block, or all of them are
zero. -/
theorem fcaps_load_zeroed_typed (k : Consts) (hk : k.Valid) (be : Bool)
    (raw : vfs_ns_cap_data) (result : cap_struct) (bytes : Int) (d : cap_struct)
    (hraw : raw.typed k) (hres : result.zeroed k)
    (hd : _fcaps_load k be raw result bytes = some d) :
    d.typed k
      ∧ ((∀ j, j < k.__CAP_BLKS → (d.u.getD j default).effective
              = (d.u.getD j default).inheritable ||| (d.u.getD j default).permitted)
          ∨ (∀ j, j < k.__CAP_BLKS → (d.u.getD j default).effective = 0)) := by
  obtain ⟨t, ht, hblk⟩ := fcaps_load_zeroed_blocks k hk be raw result bytes d hres hd
  obtain ⟨_, _, hlen, hroot⟩ := fcaps_load_some_frame k be raw result bytes d hd
  rw [zeroed_length k result hres] at hlen
  have hbound : ∀ j, j < k.__CAP_BLKS →
      (d.u.getD j default).effective < 2 ^ 32 ∧ (d.u.getD j default).permitted < 2 ^ 32
        ∧ (d.u.getD j default).inheritable < 2 ^ 32 := by
    intro j hj
    have hw := raw_typed_getD k raw hraw j
    have hp := FIXUP_lt be _ hw.1
    have hi := FIXUP_lt be _ hw.2
    rw [hblk j hj]
    by_cases hjt : j < t
    · rw [if_pos hjt]
      refine ⟨?_, hp, hi⟩
      unfold decoded_block
      simp only
      split_ifs
      · exact Nat.or_lt_two_pow hi hp
      · decide
    · rw [if_neg hjt]
      exact ⟨by decide, by decide, by decide⟩
  refine ⟨⟨hlen, ?_, ?_⟩, ?_⟩
  · rw [hroot]
    exact FIXUP_lt be _ hraw.2.2.1
  · intro b hb
    obtain ⟨n, hn, rfl⟩ := List.mem_iff_getElem.1 hb
    have h := hbound n (by rw [← hlen]; exact hn)
    rw [List.getD_eq_getElem _ _ hn] at h
    exact h
  · by_cases hflag : FIXUP_32BITS be raw.magic_etc &&& k.VFS_CAP_FLAGS_EFFECTIVE ≠ 0
    · left
      intro j hj
      rw [hblk j hj]
      by_cases hjt : j < t
      · rw [if_pos hjt]
        unfold decoded_block
        simp only [if_pos hflag]
      · rw [if_neg hjt]
        rfl
    · right
      intro j hj
      rw [hblk j hj]
      by_cases hjt : j < t
      · rw [if_pos hjt]
        unfold decoded_block
        simp only [if_neg hflag]
      · rw [if_neg hjt]

/-- C18. The output of the decoder can be encoded again, and decoding is
idempotent through the encoder: when `_fcaps_load` decodes a record of 32-bit
words into a well-formed zeroed set of header version
`_LINUX_CAPABILITY_VERSION_3`, `_fcaps_save` succeeds on the decoded set, and
`_fcaps_load` of the record and byte count that `_fcaps_save` produced, into
the same zeroed set, gives the decoded set again. -/
theorem fcaps_decode_encode_decode (k : Consts) (hk : k.Valid) (be : Bool)
    (rawvfscap raw2 : vfs_ns_cap_data) (result d : cap_struct) (bytes bytes_p errno : Int)
    (hraw : rawvfscap.typed k) (hres : result.zeroed k)
    (hg : good_cap_t k (some result) = true)
    (hv : result.head.version = k._LINUX_CAPABILITY_VERSION_3)
    (hraw2 : raw2.data.length = k.__CAP_BLKS)
    (hd : _fcaps_load k be rawvfscap result bytes = some d) :
    (_fcaps_save k be raw2 (some d) bytes_p errno).ret = 0
      ∧ _fcaps_load k be (_fcaps_save k be raw2 (some d) bytes_p errno).rawvfscap result
          (_fcaps_save k be raw2 (some d) bytes_p errno).bytes = some d := by
  obtain ⟨hdt, hdeff⟩ := fcaps_load_zeroed_typed k hk be rawvfscap result bytes d hraw hres hd
  obtain ⟨hmagic, hhead, hlen, _⟩ := fcaps_load_some_frame k be rawvfscap result bytes d hd
  have hgd : good_cap_t k (some d) = true := by
    simp only [good_cap_t] at hg ⊢
    rw [hmagic]
    exact hg
  have hsw : save_switch k d.head.version
      = some (k.VFS_CAP_REVISION_3, k.__CAP_BLKS, (k.XATTR_CAPS_SZ_3 : Int)) := by
    rw [hhead, hv, save_switch_version_3 k hk, hk.u32_3]
  have hns : d.rootid = 0 → d.head.version ≠ k._LINUX_CAPABILITY_VERSION_1 := by
    intro _
    rw [hhead, hv]
    exact hk.ver_13.symm
  have hex := eff_not_zero_iff_exists d k.__CAP_BLKS
  -- the effective masks of `d` in terms of `eff_not_zero`
  have heff : ∀ j, j < k.__CAP_BLKS → (d.u.getD j default).effective
      = if save_eff_not_zero d k.__CAP_BLKS 0 0 ≠ 0 then
          (d.u.getD j default).inheritable ||| (d.u.getD j default).permitted
        else 0 := by
    intro j hj
    by_cases hz : save_eff_not_zero d k.__CAP_BLKS 0 0 ≠ 0
    · rw [if_pos hz]
      rcases hdeff with hall | hall
      · exact hall j hj
      · obtain ⟨i, hi, hne⟩ := hex.1 hz
        exact absurd (hall i hi) hne
    · rw [if_neg hz]
      by_contra hne
      exact hz (hex.2 ⟨j, hj, hne⟩)
  have hrange : save_check_range d (k.__CAP_BLKS - k.__CAP_BLKS) k.__CAP_BLKS = true := by
    rw [Nat.sub_self]
    rfl
  have hcopy : (save_copy be d (save_eff_not_zero d k.__CAP_BLKS 0 0) k.__CAP_BLKS 0 raw2).2
      = true := by
    rw [save_copy_snd_iff]
    rintro j _ hj ⟨hnz, hviol⟩
    apply hviol
    have hlt := typed_getD k d hdt j
    rw [not_u32_land_eq_zero_iff _ _ (Nat.or_lt_two_pow hlt.2.1 hlt.2.2),
      heff j (by omega), if_pos hnz, Nat.or_comm]
    exact fun b hb => hb
  have hret : (_fcaps_save k be raw2 (some d) bytes_p errno).ret = 0 :=
    (fcaps_save_ret_zero_iff k be raw2 d bytes_p errno _ _ _ hsw).2 ⟨hgd, hrange, hcopy⟩
  refine ⟨hret, ?_⟩
  obtain ⟨r, hr, hroot, hin, _⟩ := fcaps_load_saved k hk be raw2 d result bytes_p errno
    _ _ _ hdt hraw2 (zeroed_length k result hres) hsw hns hret
  obtain ⟨rmagic, rhead, rlen, _⟩ := fcaps_load_some_frame k be _ result _ r hr
  have hrd : r = d := by
    apply cap_struct_eq r d (by rw [rmagic, hmagic]) (by rw [rhead, hhead]) _ hroot
    apply list_eq_of_getD r.u d.u default (by rw [rlen, hlen])
    intro i hi
    have hi2 : i < k.__CAP_BLKS := by
      rw [rlen, zeroed_length k result hres] at hi
      exact hi
    apply cap_flat_eq _ _ _ (hin i hi2).1 (hin i hi2).2.1
    rw [(hin i hi2).2.2, zeroed_getD k result hres, heff i hi2]
  rw [hr, hrd]

/-- The claim C18 on Linux: a revision-1 record with the effective flag is
decoded, encoded and decoded again. -/
theorem fcaps_decode_encode_decode_witness :
    (_fcaps_save linux false ⟨7, [⟨7, 7⟩, ⟨7, 7⟩], 7⟩
        (some ⟨0xCA90D0, ⟨0x20080522, 0⟩, [⟨3, 1, 2⟩, ⟨0, 0, 0⟩], 0⟩) 0 0).ret = 0
      ∧ _fcaps_load linux false
          (_fcaps_save linux false ⟨7, [⟨7, 7⟩, ⟨7, 7⟩], 7⟩
            (some ⟨0xCA90D0, ⟨0x20080522, 0⟩, [⟨3, 1, 2⟩, ⟨0, 0, 0⟩], 0⟩) 0 0).rawvfscap
          ⟨0xCA90D0, ⟨0x20080522, 0⟩, [⟨0, 0, 0⟩, ⟨0, 0, 0⟩], 0⟩
          (_fcaps_save linux false ⟨7, [⟨7, 7⟩, ⟨7, 7⟩], 7⟩
            (some ⟨0xCA90D0, ⟨0x20080522, 0⟩, [⟨3, 1, 2⟩, ⟨0, 0, 0⟩], 0⟩) 0 0).bytes
        = some ⟨0xCA90D0, ⟨0x20080522, 0⟩, [⟨3, 1, 2⟩, ⟨0, 0, 0⟩], 0⟩ :=
  fcaps_decode_encode_decode linux linux_valid false ⟨0x01000001, [⟨1, 2⟩, ⟨5, 5⟩], 0⟩
    ⟨7, [⟨7, 7⟩, ⟨7, 7⟩], 7⟩ ⟨0xCA90D0, ⟨0x20080522, 0⟩, [⟨0, 0, 0⟩, ⟨0, 0, 0⟩], 0⟩
    ⟨0xCA90D0, ⟨0x20080522, 0⟩, [⟨3, 1, 2⟩, ⟨0, 0, 0⟩], 0⟩ 12 0 0
    (by decide) (by decide) (by decide) (by decide) (by decide) (by decide)

/-! ## Properties of the write accessors -/

/-- C16. The write accessors reject ineligible files first: when the file mode
says that the target is a symbolic link or is not a regular file,
`cap_set_file` and `cap_set_fd` return -1 with `errno` set to `EINVAL` and
leave the state of the attribute store as it was, for every store, every
`cap_d` (`NULL` included) and every content of the locals. -/
theorem cap_set_rejects_ineligible {σ : Type} (k : Consts) (be : Bool) (ops : xattr_ops σ)
    (S_ISLNK S_ISREG : Bool) (rawvfscap : vfs_ns_cap_data) (sizeofcaps : Int)
    (cap_d : Option cap_struct) (s : σ) (errno : Int)
    (h : S_ISLNK = true ∨ S_ISREG = false) :
    cap_set_file k be ops (.mode S_ISLNK S_ISREG) rawvfscap sizeofcaps cap_d s errno
        = (-1, s, k.EINVAL)
      ∧ cap_set_fd k be ops (.mode S_ISLNK S_ISREG) rawvfscap sizeofcaps cap_d s errno
        = (-1, s, k.EINVAL) := by
  have hc : (S_ISLNK || !S_ISREG) = true := by
    rcases h with h | h
    · rw [h]
      rfl
    · rw [h]
      cases S_ISLNK <;> rfl
  constructor
  · unfold cap_set_file
    simp only [hc, if_true]
  · unfold cap_set_fd
    simp only [hc, if_true]

/-- The claim C16 on Linux, over the counting store: a symbolic link with the
request to remove the capabilities, and a directory with a set to store; the
store keeps its attribute and its count of calls. -/
theorem cap_set_rejects_ineligible_witness :
    (cap_set_file linux false counting_ops (.mode true false) ⟨0, [⟨0, 0⟩, ⟨0, 0⟩], 0⟩ 0 none
        ⟨some [1, 2, 3], 4⟩ 0 = (-1, ⟨some [1, 2, 3], 4⟩, linux.EINVAL)
      ∧ cap_set_fd linux false counting_ops (.mode true false) ⟨0, [⟨0, 0⟩, ⟨0, 0⟩], 0⟩ 0 none
        ⟨some [1, 2, 3], 4⟩ 0 = (-1, ⟨some [1, 2, 3], 4⟩, linux.EINVAL))
    ∧ (cap_set_file linux false counting_ops (.mode false false) ⟨0, [⟨0, 0⟩, ⟨0, 0⟩], 0⟩ 0
        (some ⟨0xCA90D0, ⟨0x20080522, 0⟩, [⟨3, 1, 2⟩, ⟨0, 0, 0⟩], 0⟩)
        ⟨some [1, 2, 3], 4⟩ 0 = (-1, ⟨some [1, 2, 3], 4⟩, linux.EINVAL)
      ∧ cap_set_fd linux false counting_ops (.mode false false) ⟨0, [⟨0, 0⟩, ⟨0, 0⟩], 0⟩ 0
        (some ⟨0xCA90D0, ⟨0x20080522, 0⟩, [⟨3, 1, 2⟩, ⟨0, 0, 0⟩], 0⟩)
        ⟨some [1, 2, 3], 4⟩ 0 = (-1, ⟨some [1, 2, 3], 4⟩, linux.EINVAL)) :=
  ⟨cap_set_rejects_ineligible linux false counting_ops true false ⟨0, [⟨0, 0⟩, ⟨0, 0⟩], 0⟩ 0
      none ⟨some [1, 2, 3], 4⟩ 0 (Or.inl rfl),
    cap_set_rejects_ineligible linux false counting_ops false false ⟨0, [⟨0, 0⟩, ⟨0, 0⟩], 0⟩ 0
      (some ⟨0xCA90D0, ⟨0x20080522, 0⟩, [⟨3, 1, 2⟩, ⟨0, 0, 0⟩], 0⟩) ⟨some [1, 2, 3], 4⟩ 0
      (Or.inr rfl)⟩

/-! ## Reading a record from memory -/

theorem getD_drop {α : Type} (l : List α) (m j : Nat) (d : α) :
    (l.drop m).getD j d = l.getD (m + j) d := by
  simp only [List.getD_eq_getElem?_getD, List.getElem?_drop]

theorem word_at_append_left (be : Bool) (bs rest : List Nat) (off : Nat)
    (h : off + 4 ≤ bs.length) : word_at be (bs ++ rest) off = word_at be bs off := by
  unfold word_at
  rw [List.getD_append bs rest 0 off (by omega), List.getD_append bs rest 0 (off + 1) (by omega),
    List.getD_append bs rest 0 (off + 2) (by omega),
    List.getD_append bs rest 0 (off + 3) (by omega)]

theorem getD_append_drop (bs mem : List Nat) (j : Nat) (h : bs.length ≤ j) :
    (bs ++ mem.drop bs.length).getD j 0 = mem.getD j 0 := by
  rw [List.getD_append_right bs _ 0 j h, getD_drop]
  congr 1
  omega

theorem word_at_append_right (be : Bool) (bs mem : List Nat) (off : Nat)
    (h : bs.length ≤ off) :
    word_at be (bs ++ mem.drop bs.length) off = word_at be mem off := by
  unfold word_at
  rw [getD_append_drop bs mem off h, getD_append_drop bs mem (off + 1) (by omega),
    getD_append_drop bs mem (off + 2) (by omega), getD_append_drop bs mem (off + 3) (by omega)]

theorem word_of_bytes_zero (be : Bool) : word_of_bytes be 0 0 0 0 = 0 := by
  cases be <;> rfl

theorem word_at_beyond (be : Bool) (bs : List Nat) (off : Nat) (h : bs.length ≤ off) :
    word_at be bs off = 0 := by
  unfold word_at
  rw [List.getD_eq_default bs 0 h, List.getD_eq_default bs 0 (by omega : bs.length ≤ off + 1),
    List.getD_eq_default bs 0 (by omega : bs.length ≤ off + 2),
    List.getD_eq_default bs 0 (by omega : bs.length ≤ off + 3)]
  exact word_of_bytes_zero be

theorem zero_word_getD (be : Bool) (t : Nat) : (word_bytes be 0).getD t 0 = 0 := by
  have h : word_bytes be 0 = [0, 0, 0, 0] := by
    cases be <;> rfl
  rw [h]
  rcases t with _ | _ | _ | _ | t <;> rfl

/-- In the memory of a record whose `rootid` is zero, every byte from the
offset of `rootid` on is zero. -/
theorem record_bytes_rootid_zero (k : Consts) (be : Bool) (r : vfs_ns_cap_data)
    (hlen : r.data.length = k.__CAP_BLKS) (hz : r.rootid = 0) (j : Nat)
    (hj : 4 + 8 * k.__CAP_BLKS ≤ j) : (record_bytes be r).getD j 0 = 0 := by
  unfold record_bytes
  have hl : (word_bytes be r.magic_etc ++ r.data.flatMap (data_bytes be)).length
      = 4 + 8 * k.__CAP_BLKS := by
    rw [List.length_append, word_bytes_length, flatMap_data_bytes_length, hlen]
  rw [List.getD_append_right _ _ 0 j (by rw [hl]; exact hj), hz]
  exact zero_word_getD be _

theorem word_at_rootid_zero (k : Consts) (be : Bool) (r : vfs_ns_cap_data)
    (hlen : r.data.length = k.__CAP_BLKS) (hz : r.rootid = 0) :
    word_at be (record_bytes be r) (4 + 8 * k.__CAP_BLKS) = 0 := by
  unfold word_at
  rw [record_bytes_rootid_zero k be r hlen hz _ (le_refl _),
    record_bytes_rootid_zero k be r hlen hz _ (by omega),
    record_bytes_rootid_zero k be r hlen hz _ (by omega),
    record_bytes_rootid_zero k be r hlen hz _ (by omega)]
  exact word_of_bytes_zero be

theorem record_of_bytes_getD (k : Consts) (be : Bool) (mem : List Nat) (i : Nat)
    (hi : i < k.__CAP_BLKS) :
    (record_of_bytes k be mem).data.getD i default
      = ⟨word_at be mem (4 + 8 * i), word_at be mem (4 + 8 * i + 4)⟩ := by
  unfold record_of_bytes
  simp only
  rw [List.getD_eq_getElem _ _ (by rw [List.length_map, List.length_range]; exact hi),
    List.getElem_map, List.getElem_range]

/-! ## The decoder reads the record up to the byte count only -/

theorem load_copy_congr (k : Consts) (be : Bool) (m : Nat) (raw1 raw2 : vfs_ns_cap_data)
    (n i : Nat) (r : cap_struct)
    (h : ∀ j, i ≤ j → j < i + n → raw1.data.getD j default = raw2.data.getD j default) :
    load_copy k be m raw1 n i r = load_copy k be m raw2 n i r := by
  induction n generalizing i r with
  | zero => rfl
  | succ n ih =>
    simp only [load_copy]
    rw [h i (le_refl i) (by omega)]
    exact ih (i + 1) _ (fun j h1 h2 => h j (by omega) (by omega))

/-- Two records give the same result of `_fcaps_load` when they have the same
`magic_etc` and, in case the `switch` accepts the byte count, the same `rootid`
and the same elements of `data` below `tocopy`. -/
theorem fcaps_load_congr (k : Consts) (be : Bool) (raw1 raw2 : vfs_ns_cap_data)
    (result : cap_struct) (bytes : Int) (hm : raw1.magic_etc = raw2.magic_etc)
    (h : ∀ tocopy, load_switch k (FIXUP_32BITS be raw1.magic_etc) bytes = some (tocopy, 0) →
      raw1.rootid = raw2.rootid
        ∧ ∀ i, i < tocopy → raw1.data.getD i default = raw2.data.getD i default) :
    _fcaps_load k be raw1 result bytes = _fcaps_load k be raw2 result bytes := by
  rcases hsw : load_switch k (FIXUP_32BITS be raw1.magic_etc) bytes with _ | ⟨t, rest⟩
  · have hsw2 := hsw
    rw [hm] at hsw2
    unfold _fcaps_load
    simp [hsw, hsw2]
  · have hsw2 := hsw
    rw [hm] at hsw2
    by_cases hz : rest = 0
    · subst hz
      obtain ⟨hr, hd⟩ := h t hsw
      rw [fcaps_load_ok_eq k be raw1 result bytes t hsw,
        fcaps_load_ok_eq k be raw2 result bytes t hsw2, hm, hr,
        load_copy_congr k be _ raw1 raw2 t 0 result (fun j _ hj => hd j (by omega))]
    · rw [(fcaps_load_none_iff k be raw1 result bytes t rest hsw).2 hz,
        (fcaps_load_none_iff k be raw2 result bytes t rest hsw2).2 hz]

/-- When the `switch` of `_fcaps_load` accepts a byte count in the range of
`int`, the byte count is the size of the revision and `tocopy` its number of
blocks. -/
theorem load_switch_exact (k : Consts) (hk : k.Valid) (m : Nat) (bytes : Int) (tocopy : Nat)
    (hb : -2 ^ 31 ≤ bytes ∧ bytes < 2 ^ 31)
    (hsw : load_switch k m bytes = some (tocopy, 0)) :
    (m &&& k.VFS_CAP_REVISION_MASK = k.VFS_CAP_REVISION_1 ∧ bytes = k.XATTR_CAPS_SZ_1
        ∧ tocopy = k.VFS_CAP_U32_1)
      ∨ (m &&& k.VFS_CAP_REVISION_MASK = k.VFS_CAP_REVISION_2 ∧ bytes = k.XATTR_CAPS_SZ_2
        ∧ tocopy = k.VFS_CAP_U32_2)
      ∨ (m &&& k.VFS_CAP_REVISION_MASK = k.VFS_CAP_REVISION_3 ∧ bytes = k.XATTR_CAPS_SZ_3
        ∧ tocopy = k.VFS_CAP_U32_3) := by
  obtain ⟨a1, a2, b1, b2, c1, c2⟩ := size_bounds k hk
  unfold load_switch at hsw
  split_ifs at hsw with h1 h2 h3
  · simp only [Option.some.injEq, Prod.mk.injEq] at hsw
    exact Or.inl ⟨h1, (to_int_eq_zero_iff bytes _ hb ⟨a1, a2⟩).1 hsw.2, hsw.1.symm⟩
  · simp only [Option.some.injEq, Prod.mk.injEq] at hsw
    exact Or.inr (Or.inl ⟨h2, (to_int_eq_zero_iff bytes _ hb ⟨b1, b2⟩).1 hsw.2, hsw.1.symm⟩)
  · simp only [Option.some.injEq, Prod.mk.injEq] at hsw
    exact Or.inr (Or.inr ⟨h3, (to_int_eq_zero_iff bytes _ hb ⟨c1, c2⟩).1 hsw.2, hsw.1.symm⟩)

/-! ## The read accessors and the fetched bytes -/

theorem cap_get_fd_eq (k : Consts) (be : Bool) (cap_init : Option cap_struct)
    (raw : vfs_ns_cap_data) (fetch : xattr_fetch) (errno : Int) :
    cap_get_fd k be cap_init raw fetch errno = cap_get_file k be cap_init raw fetch errno :=
  rfl

theorem buffer_size_int (k : Consts) (hk : k.Valid) (n : Nat)
    (hfit : n ≤ 4 + 8 * k.__CAP_BLKS + 4) : -2 ^ 31 ≤ (n : Int) ∧ (n : Int) < 2 ^ 31 := by
  have h3 := hk.sz_3
  have h4 := hk.sz_int
  have h5 := hk.u32_3
  omega

/-- What the `switch` of `_fcaps_load` implies for a byte count that the buffer
can hold: the blocks that are copied lie inside the byte count, and the byte
count either ends before `rootid` or includes it. -/
theorem load_switch_inside (k : Consts) (hk : k.Valid) (m n tocopy : Nat)
    (hfit : n ≤ 4 + 8 * k.__CAP_BLKS + 4)
    (hsw : load_switch k m (n : Int) = some (tocopy, 0)) :
    tocopy ≤ k.__CAP_BLKS ∧ 4 + 8 * tocopy ≤ n
      ∧ (n ≤ 4 + 8 * k.__CAP_BLKS ∨ 4 + 8 * k.__CAP_BLKS + 4 ≤ n)
      ∧ (m &&& k.VFS_CAP_REVISION_MASK ≠ k.VFS_CAP_REVISION_3 → n ≤ 4 + 8 * k.__CAP_BLKS) := by
  have hb := buffer_size_int k hk n hfit
  have h1 := hk.sz_1
  have h2 := hk.sz_2
  have h3 := hk.sz_3
  have h5 := hk.u32_1
  have h6 := hk.u32_2
  have h7 := hk.u32_3
  rcases load_switch_exact k hk m n tocopy hb hsw with ⟨_, hn, ht⟩ | ⟨_, hn, ht⟩ | ⟨ht3, hn, ht⟩
  · refine ⟨by omega, by omega, by omega, fun _ => by omega⟩
  · refine ⟨by omega, by omega, by omega, fun _ => by omega⟩
  · refine ⟨by omega, by omega, by omega, fun h => absurd ht3 h⟩

/-- The decoder makes the same of the buffer after the fetch as of the fetched
bytes alone, when the `rootid` of the buffer was zero before the fetch. -/
theorem fcaps_load_fetched (k : Consts) (hk : k.Valid) (be : Bool) (buf : vfs_ns_cap_data)
    (z : cap_struct) (bs : List Nat) (hlen : buf.data.length = k.__CAP_BLKS)
    (hz : buf.rootid = 0) (h4 : 4 ≤ bs.length) (hfit : bs.length ≤ 4 + 8 * k.__CAP_BLKS + 4) :
    _fcaps_load k be (record_of_bytes k be (bs ++ (record_bytes be buf).drop bs.length)) z
        bs.length
      = _fcaps_load k be (record_of_bytes k be bs) z bs.length := by
  apply fcaps_load_congr
  · exact word_at_append_left be bs _ 0 (by omega)
  · intro t hsw
    obtain ⟨ht, hin, hroot, _⟩ := load_switch_inside k hk _ bs.length t hfit hsw
    constructor
    · show word_at be (bs ++ (record_bytes be buf).drop bs.length) (4 + 8 * k.__CAP_BLKS)
        = word_at be bs (4 + 8 * k.__CAP_BLKS)
      rcases hroot with hr | hr
      · rw [word_at_append_right be bs _ _ hr, word_at_rootid_zero k be buf hlen hz,
          word_at_beyond be bs _ hr]
      · exact word_at_append_left be bs _ _ hr
    · intro i hi
      rw [record_of_bytes_getD k be _ i (by omega), record_of_bytes_getD k be _ i (by omega),
        word_at_append_left be bs _ _ (by omega), word_at_append_left be bs _ _ (by omega)]

/-- The result of `cap_get_file` for a fetch that returned the bytes `bs`, as a
function of `bs`. -/
theorem cap_get_file_bytes (k : Consts) (hk : k.Valid) (be : Bool) (z : cap_struct)
    (raw : vfs_ns_cap_data) (bs : List Nat) (errno : Int)
    (hlen : raw.data.length = k.__CAP_BLKS) (hfit : bs.length ≤ 4 + 8 * k.__CAP_BLKS + 4) :
    cap_get_file k be (some z) raw (.bytes bs) errno
      = (if bs.length < 4 then none
          else _fcaps_load k be (record_of_bytes k be bs) z bs.length, errno) := by
  unfold cap_get_file getxattr
  simp only
  by_cases h : bs.length < 4
  · have hi : (bs.length : Int) < 4 := by omega
    rw [if_pos hi, if_pos h]
  · have hi : ¬ (bs.length : Int) < 4 := by omega
    rw [if_neg hi, if_neg h,
      fcaps_load_fetched k hk be { raw with rootid := 0 } z bs hlen rfl (by omega) hfit]

/-- Bytes with an unknown revision tag or with a byte count that is not the size
of the tagged revision are not decoded. -/
theorem fcaps_load_malformed (k : Consts) (hk : k.Valid) (be : Bool) (z : cap_struct)
    (bs : List Nat) (hfit : bs.length ≤ 4 + 8 * k.__CAP_BLKS + 4)
    (hmal : (FIXUP_32BITS be (word_at be bs 0) &&& k.VFS_CAP_REVISION_MASK
                ≠ k.VFS_CAP_REVISION_1
              ∧ FIXUP_32BITS be (word_at be bs 0) &&& k.VFS_CAP_REVISION_MASK
                ≠ k.VFS_CAP_REVISION_2
              ∧ FIXUP_32BITS be (word_at be bs 0) &&& k.VFS_CAP_REVISION_MASK
                ≠ k.VFS_CAP_REVISION_3)
      ∨ (FIXUP_32BITS be (word_at be bs 0) &&& k.VFS_CAP_REVISION_MASK = k.VFS_CAP_REVISION_1
          ∧ bs.length ≠ k.XATTR_CAPS_SZ_1)
      ∨ (FIXUP_32BITS be (word_at be bs 0) &&& k.VFS_CAP_REVISION_MASK = k.VFS_CAP_REVISION_2
          ∧ bs.length ≠ k.XATTR_CAPS_SZ_2)
      ∨ (FIXUP_32BITS be (word_at be bs 0) &&& k.VFS_CAP_REVISION_MASK = k.VFS_CAP_REVISION_3
          ∧ bs.length ≠ k.XATTR_CAPS_SZ_3)) :
    _fcaps_load k be (record_of_bytes k be bs) z bs.length = none := by
  have hmag : (record_of_bytes k be bs).magic_etc = word_at be bs 0 := rfl
  have hb := buffer_size_int k hk bs.length hfit
  obtain ⟨a1, a2, b1, b2, c1, c2⟩ := size_bounds k hk
  rcases hmal with ⟨h1, h2, h3⟩ | ⟨h, hn⟩ | ⟨h, hn⟩ | ⟨h, hn⟩
  · unfold _fcaps_load load_switch
    rw [hmag]
    simp [h1, h2, h3]
  · have hsw : load_switch k (FIXUP_32BITS be (record_of_bytes k be bs).magic_etc) bs.length
        = some (k.VFS_CAP_U32_1, to_int ((bs.length : Int) - k.XATTR_CAPS_SZ_1)) := by
      unfold load_switch
      rw [hmag, if_pos h]
    rw [fcaps_load_none_iff k be _ z _ _ _ hsw]
    intro h0
    have := (to_int_eq_zero_iff _ _ hb ⟨a1, a2⟩).1 h0
    exact hn (by omega)
  · have hsw : load_switch k (FIXUP_32BITS be (record_of_bytes k be bs).magic_etc) bs.length
        = some (k.VFS_CAP_U32_2, to_int ((bs.length : Int) - k.XATTR_CAPS_SZ_2)) := by
      unfold load_switch
      rw [hmag, if_neg (by rw [h]; exact hk.rev_12.symm), if_pos h]
    rw [fcaps_load_none_iff k be _ z _ _ _ hsw]
    intro h0
    have := (to_int_eq_zero_iff _ _ hb ⟨b1, b2⟩).1 h0
    exact hn (by omega)
  · have hsw : load_switch k (FIXUP_32BITS be (record_of_bytes k be bs).magic_etc) bs.length
        = some (k.VFS_CAP_U32_3, to_int ((bs.length : Int) - k.XATTR_CAPS_SZ_3)) := by
      unfold load_switch
      rw [hmag, if_neg (by rw [h]; exact hk.rev_13.symm),
        if_neg (by rw [h]; exact hk.rev_23.symm), if_pos h]
    rw [fcaps_load_none_iff k be _ z _ _ _ hsw]
    intro h0
    have := (to_int_eq_zero_iff _ _ hb ⟨c1, c2⟩).1 h0
    exact hn (by omega)

/-- The claim C14 fails on Linux: for a file without the attribute (the store
call leaves 61 in `errno`) and for a file whose attribute carries the unknown
revision tag 4, read with 61 in `errno`, `cap_get_file` and `cap_get_fd` report
the same result, `NULL` with `errno` 61. -/
theorem cap_get_absent_like_malformed :
    cap_get_file linux false (some ⟨0xCA90D0, ⟨0x20080522, 0⟩, [⟨0, 0, 0⟩, ⟨0, 0, 0⟩], 0⟩)
        ⟨0xdeadbeef, [⟨7, 7⟩, ⟨9, 9⟩], 5⟩ (.not_present 61) 61 = (none, 61)
      ∧ cap_get_file linux false (some ⟨0xCA90D0, ⟨0x20080522, 0⟩, [⟨0, 0, 0⟩, ⟨0, 0, 0⟩], 0⟩)
        ⟨0xdeadbeef, [⟨7, 7⟩, ⟨9, 9⟩], 5⟩
        (.bytes [1, 0, 0, 4, 1, 0, 0, 0, 2, 0, 0, 0, 0, 0, 0, 0, 0, 0, 0, 0]) 61 = (none, 61)
      ∧ cap_get_fd linux false (some ⟨0xCA90D0, ⟨0x20080522, 0⟩, [⟨0, 0, 0⟩, ⟨0, 0, 0⟩], 0⟩)
        ⟨0xdeadbeef, [⟨7, 7⟩, ⟨9, 9⟩], 5⟩ (.not_present 61) 61 = (none, 61)
      ∧ cap_get_fd linux false (some ⟨0xCA90D0, ⟨0x20080522, 0⟩, [⟨0, 0, 0⟩, ⟨0, 0, 0⟩], 0⟩)
        ⟨0xdeadbeef, [⟨7, 7⟩, ⟨9, 9⟩], 5⟩
        (.bytes [1, 0, 0, 4, 1, 0, 0, 0, 2, 0, 0, 0, 0, 0, 0, 0, 0, 0, 0, 0]) 61
          = (none, 61) := by
  decide

/-- C14, amended. `cap_get_file` and `cap_get_fd` return `NULL` when the store
has no capability attribute for the file and also when the store returns bytes
that fail decoding (fewer than four bytes, an unknown revision tag, or a byte
count that is not the size of the tagged revision); the returned value is the
same in the two cases. In the first case `errno` holds what the store call
left in it, in the second `errno` is as it was before the call. -/
theorem cap_get_absent_or_malformed (k : Consts) (hk : k.Valid) (be : Bool) (z : cap_struct)
    (rawvfscap : vfs_ns_cap_data) (bs : List Nat) (e_absent errno : Int)
    (hlen : rawvfscap.data.length = k.__CAP_BLKS)
    (hfit : bs.length ≤ 4 + 8 * k.__CAP_BLKS + 4)
    (hmal : bs.length < 4
      ∨ (FIXUP_32BITS be (word_at be bs 0) &&& k.VFS_CAP_REVISION_MASK
                ≠ k.VFS_CAP_REVISION_1
              ∧ FIXUP_32BITS be (word_at be bs 0) &&& k.VFS_CAP_REVISION_MASK
                ≠ k.VFS_CAP_REVISION_2
              ∧ FIXUP_32BITS be (word_at be bs 0) &&& k.VFS_CAP_REVISION_MASK
                ≠ k.VFS_CAP_REVISION_3)
      ∨ (FIXUP_32BITS be (word_at be bs 0) &&& k.VFS_CAP_REVISION_MASK = k.VFS_CAP_REVISION_1
          ∧ bs.length ≠ k.XATTR_CAPS_SZ_1)
      ∨ (FIXUP_32BITS be (word_at be bs 0) &&& k.VFS_CAP_REVISION_MASK = k.VFS_CAP_REVISION_2
          ∧ bs.length ≠ k.XATTR_CAPS_SZ_2)
      ∨ (FIXUP_32BITS be (word_at be bs 0) &&& k.VFS_CAP_REVISION_MASK = k.VFS_CAP_REVISION_3
          ∧ bs.length ≠ k.XATTR_CAPS_SZ_3)) :
    cap_get_file k be (some z) rawvfscap (.not_present e_absent) errno = (none, e_absent)
      ∧ cap_get_file k be (some z) rawvfscap (.bytes bs) errno = (none, errno)
      ∧ cap_get_fd k be (some z) rawvfscap (.not_present e_absent) errno = (none, e_absent)
      ∧ cap_get_fd k be (some z) rawvfscap (.bytes bs) errno = (none, errno)
      ∧ (cap_get_file k be (some z) rawvfscap (.not_present e_absent) errno).1
          = (cap_get_file k be (some z) rawvfscap (.bytes bs) errno).1
      ∧ (cap_get_fd k be (some z) rawvfscap (.not_present e_absent) errno).1
          = (cap_get_fd k be (some z) rawvfscap (.bytes bs) errno).1 := by
  have habs : cap_get_file k be (some z) rawvfscap (.not_present e_absent) errno
      = (none, e_absent) := by
    unfold cap_get_file getxattr
    simp
  have hbad : cap_get_file k be (some z) rawvfscap (.bytes bs) errno = (none, errno) := by
    rw [cap_get_file_bytes k hk be z rawvfscap bs errno hlen hfit]
    by_cases h4 : bs.length < 4
    · rw [if_pos h4]
    · rw [if_neg h4]
      rcases hmal with h | h
      · exact absurd h h4
      · rw [fcaps_load_malformed k hk be z bs hfit h]
  refine ⟨habs, hbad, ?_, ?_, ?_, ?_⟩
  · rw [cap_get_fd_eq]
    exact habs
  · rw [cap_get_fd_eq]
    exact hbad
  · rw [habs, hbad]
  · rw [cap_get_fd_eq, cap_get_fd_eq, habs, hbad]

/-- The amended claim C14 on Linux, big-endian host: an absent attribute and a
revision-2 attribute of 19 bytes. -/
theorem cap_get_absent_or_malformed_witness :
    cap_get_file linux true (some ⟨0xCA90D0, ⟨0x20080522, 0⟩, [⟨0, 0, 0⟩, ⟨0, 0, 0⟩], 0⟩)
        ⟨0xdeadbeef, [⟨7, 7⟩, ⟨9, 9⟩], 5⟩ (.not_present 61) 0 = (none, 61)
      ∧ cap_get_file linux true (some ⟨0xCA90D0, ⟨0x20080522, 0⟩, [⟨0, 0, 0⟩, ⟨0, 0, 0⟩], 0⟩)
        ⟨0xdeadbeef, [⟨7, 7⟩, ⟨9, 9⟩], 5⟩
        (.bytes [1, 0, 0, 2, 1, 0, 0, 0, 2, 0, 0, 0, 0, 0, 0, 0, 0, 0, 0]) 0 = (none, 0) :=
  ⟨(cap_get_absent_or_malformed linux linux_valid true
      ⟨0xCA90D0, ⟨0x20080522, 0⟩, [⟨0, 0, 0⟩, ⟨0, 0, 0⟩], 0⟩
      ⟨0xdeadbeef, [⟨7, 7⟩, ⟨9, 9⟩], 5⟩
      [1, 0, 0, 2, 1, 0, 0, 0, 2, 0, 0, 0, 0, 0, 0, 0, 0, 0, 0] 61 0
      (by decide) (by decide) (by decide)).1,
    (cap_get_absent_or_malformed linux linux_valid true
      ⟨0xCA90D0, ⟨0x20080522, 0⟩, [⟨0, 0, 0⟩, ⟨0, 0, 0⟩], 0⟩
      ⟨0xdeadbeef, [⟨7, 7⟩, ⟨9, 9⟩], 5⟩
      [1, 0, 0, 2, 1, 0, 0, 0, 2, 0, 0, 0, 0, 0, 0, 0, 0, 0, 0] 61 0
      (by decide) (by decide) (by decide)).2.1⟩

theorem FIXUP_zero (be : Bool) : FIXUP_32BITS be 0 = 0 := by
  cases be <;> rfl

/-- C20. The read accessors depend only on the fetched bytes: for two contents
of the local record before the call, `cap_get_file` returns the same for the
same outcome of the store, and so does `cap_get_fd`; fewer than four fetched
bytes, or a store error, give `NULL`; and an attribute with the tag of revision
1 or 2 and the exact size of that revision is decoded into a set whose
namespace root id, as `cap_get_nsowner` returns it, is 0. -/
theorem cap_get_depends_on_bytes (k : Consts) (hk : k.Valid) (be : Bool) (z : cap_struct)
    (raw1 raw2 : vfs_ns_cap_data) (fetch : xattr_fetch) (errno : Int)
    (h1 : raw1.data.length = k.__CAP_BLKS) (h2 : raw2.data.length = k.__CAP_BLKS)
    (hfit : ∀ bs, fetch = .bytes bs → bs.length ≤ 4 + 8 * k.__CAP_BLKS + 4) :
    cap_get_file k be (some z) raw1 fetch errno = cap_get_file k be (some z) raw2 fetch errno
      ∧ cap_get_fd k be (some z) raw1 fetch errno = cap_get_fd k be (some z) raw2 fetch errno
      ∧ (∀ bs, fetch = .bytes bs → bs.length < 4 →
          cap_get_file k be (some z) raw1 fetch errno = (none, errno)
            ∧ cap_get_fd k be (some z) raw1 fetch errno = (none, errno))
      ∧ (∀ e, fetch = .error e →
          cap_get_file k be (some z) raw1 fetch errno = (none, e)
            ∧ cap_get_fd k be (some z) raw1 fetch errno = (none, e))
      ∧ (∀ bs, fetch = .bytes bs →
          (FIXUP_32BITS be (word_at be bs 0) &&& k.VFS_CAP_REVISION_MASK = k.VFS_CAP_REVISION_1
              ∧ bs.length = k.XATTR_CAPS_SZ_1)
            ∨ (FIXUP_32BITS be (word_at be bs 0) &&& k.VFS_CAP_REVISION_MASK
                  = k.VFS_CAP_REVISION_2
              ∧ bs.length = k.XATTR_CAPS_SZ_2) →
          ∃ r, cap_get_file k be (some z) raw1 fetch errno = (some r, errno)
            ∧ cap_get_fd k be (some z) raw1 fetch errno = (some r, errno)
            ∧ cap_get_nsowner r = 0) := by
  have hs1 := hk.sz_1
  have hs2 := hk.sz_2
  have hu1 := hk.u32_1
  have hu2 := hk.u32_2
  have hsame : cap_get_file k be (some z) raw1 fetch errno
      = cap_get_file k be (some z) raw2 fetch errno := by
    cases fetch with
    | bytes bs =>
      rw [cap_get_file_bytes k hk be z raw1 bs errno h1 (hfit bs rfl),
        cap_get_file_bytes k hk be z raw2 bs errno h2 (hfit bs rfl)]
    | not_present e => rfl
    | error e => rfl
  refine ⟨hsame, ?_, ?_, ?_, ?_⟩
  · rw [cap_get_fd_eq, cap_get_fd_eq]
    exact hsame
  · intro bs hf hlt
    subst hf
    rw [cap_get_fd_eq, cap_get_file_bytes k hk be z raw1 bs errno h1 (hfit bs rfl), if_pos hlt]
    exact ⟨rfl, rfl⟩
  · intro e hf
    subst hf
    exact ⟨rfl, rfl⟩
  · intro bs hf hwf
    subst hf
    have hmag : (record_of_bytes k be bs).magic_etc = word_at be bs 0 := rfl
    have hroot : (record_of_bytes k be bs).rootid = word_at be bs (4 + 8 * k.__CAP_BLKS) := rfl
    rw [cap_get_fd_eq, cap_get_file_bytes k hk be z raw1 bs errno h1 (hfit bs rfl)]
    rcases hwf with ⟨ht, hn⟩ | ⟨ht, hn⟩
    · have hsw : load_switch k (FIXUP_32BITS be (record_of_bytes k be bs).magic_etc) bs.length
          = some (k.VFS_CAP_U32_1, 0) := by
        unfold load_switch
        rw [hmag, if_pos ht, hn, sub_self, to_int_zero]
      rw [if_neg (by omega), fcaps_load_ok_eq k be _ z _ _ hsw]
      refine ⟨_, rfl, rfl, ?_⟩
      show FIXUP_32BITS be (record_of_bytes k be bs).rootid = 0
      rw [hroot, word_at_beyond be bs _ (by omega)]
      exact FIXUP_zero be
    · have hsw : load_switch k (FIXUP_32BITS be (record_of_bytes k be bs).magic_etc) bs.length
          = some (k.VFS_CAP_U32_2, 0) := by
        unfold load_switch
        rw [hmag, if_neg (by rw [ht]; exact hk.rev_12.symm), if_pos ht, hn, sub_self,
          to_int_zero]
      rw [if_neg (by omega), fcaps_load_ok_eq k be _ z _ _ hsw]
      refine ⟨_, rfl, rfl, ?_⟩
      show FIXUP_32BITS be (record_of_bytes k be bs).rootid = 0
      rw [hroot, word_at_beyond be bs _ (by omega)]
      exact FIXUP_zero be

/-- The claim C20 on Linux: a revision-2 attribute read into two different
local records. -/
theorem cap_get_depends_on_bytes_witness :
    cap_get_file linux false (some ⟨0xCA90D0, ⟨0x20080522, 0⟩, [⟨0, 0, 0⟩, ⟨0, 0, 0⟩], 0⟩)
        ⟨0xdeadbeef, [⟨7, 7⟩, ⟨9, 9⟩], 5⟩
        (.bytes [1, 0, 0, 2, 1, 0, 0, 0, 2, 0, 0, 0, 4, 0, 0, 0, 8, 0, 0, 0]) 0
      = cap_get_file linux false (some ⟨0xCA90D0, ⟨0x20080522, 0⟩, [⟨0, 0, 0⟩, ⟨0, 0, 0⟩], 0⟩)
        ⟨0, [⟨0, 0⟩, ⟨0xffffffff, 0xffffffff⟩], 0xffffffff⟩
        (.bytes [1, 0, 0, 2, 1, 0, 0, 0, 2, 0, 0, 0, 4, 0, 0, 0, 8, 0, 0, 0]) 0
      ∧ ∃ r, cap_get_file linux false
            (some ⟨0xCA90D0, ⟨0x20080522, 0⟩, [⟨0, 0, 0⟩, ⟨0, 0, 0⟩], 0⟩)
            ⟨0xdeadbeef, [⟨7, 7⟩, ⟨9, 9⟩], 5⟩
            (.bytes [1, 0, 0, 2, 1, 0, 0, 0, 2, 0, 0, 0, 4, 0, 0, 0, 8, 0, 0, 0]) 0 = (some r, 0)
          ∧ cap_get_fd linux false
            (some ⟨0xCA90D0, ⟨0x20080522, 0⟩, [⟨0, 0, 0⟩, ⟨0, 0, 0⟩], 0⟩)
            ⟨0xdeadbeef, [⟨7, 7⟩, ⟨9, 9⟩], 5⟩
            (.bytes [1, 0, 0, 2, 1, 0, 0, 0, 2, 0, 0, 0, 4, 0, 0, 0, 8, 0, 0, 0]) 0 = (some r, 0)
          ∧ cap_get_nsowner r = 0 :=
  ⟨(cap_get_depends_on_bytes linux linux_valid false
      ⟨0xCA90D0, ⟨0x20080522, 0⟩, [⟨0, 0, 0⟩, ⟨0, 0, 0⟩], 0⟩
      ⟨0xdeadbeef, [⟨7, 7⟩, ⟨9, 9⟩], 5⟩ ⟨0, [⟨0, 0⟩, ⟨0xffffffff, 0xffffffff⟩], 0xffffffff⟩
      (.bytes [1, 0, 0, 2, 1, 0, 0, 0, 2, 0, 0, 0, 4, 0, 0, 0, 8, 0, 0, 0]) 0
      (by decide) (by decide)
      (by intro bs h; cases h; decide)).1,
    (cap_get_depends_on_bytes linux linux_valid false
      ⟨0xCA90D0, ⟨0x20080522, 0⟩, [⟨0, 0, 0⟩, ⟨0, 0, 0⟩], 0⟩
      ⟨0xdeadbeef, [⟨7, 7⟩, ⟨9, 9⟩], 5⟩ ⟨0, [⟨0, 0⟩, ⟨0xffffffff, 0xffffffff⟩], 0xffffffff⟩
      (.bytes [1, 0, 0, 2, 1, 0, 0, 0, 2, 0, 0, 0, 4, 0, 0, 0, 8, 0, 0, 0]) 0
      (by decide) (by decide)
      (by intro bs h; cases h; decide)).2.2.2.2 _ rfl (Or.inr (by decide))⟩

/-! ## The two byte orders -/

theorem FIXUP_true (x : Nat) : FIXUP_32BITS true x = bswap_32 x := rfl

theorem FIXUP_false (x : Nat) : FIXUP_32BITS false x = x := rfl

theorem swap_record_getD (r : vfs_ns_cap_data) (i : Nat) :
    (swap_record r).data.getD i default
      = ⟨bswap_32 (r.data.getD i default).permitted,
          bswap_32 (r.data.getD i default).inheritable⟩ := by
  show (List.map (fun d : vfs_data =>
      (⟨bswap_32 d.permitted, bswap_32 d.inheritable⟩ : vfs_data)) r.data).getD i
        ((fun d : vfs_data =>
          (⟨bswap_32 d.permitted, bswap_32 d.inheritable⟩ : vfs_data)) default)
      = (fun d : vfs_data =>
          (⟨bswap_32 d.permitted, bswap_32 d.inheritable⟩ : vfs_data)) (r.data.getD i default)
  exact List.getD_map _ _ _

theorem swap_record_set (r : vfs_ns_cap_data) (i p q : Nat) :
    swap_record { r with data := r.data.set i ⟨p, q⟩ }
      = { swap_record r with data := (swap_record r).data.set i ⟨bswap_32 p, bswap_32 q⟩ } := by
  unfold swap_record
  simp only [List.map_set]

/-- The second copy loop of `_fcaps_save` on the big-endian host, started on
the memory that the little-endian host sees as `raw`, leaves the memory that
the little-endian run leaves, and leaves the loop the same way. -/
theorem save_copy_swap (c : cap_struct) (e n i : Nat) (raw : vfs_ns_cap_data) :
    save_copy true c e n i (swap_record raw)
      = (swap_record (save_copy false c e n i raw).1, (save_copy false c e n i raw).2) := by
  induction n generalizing i raw with
  | zero => rfl
  | succ n ih =>
    simp only [save_copy, FIXUP_true, FIXUP_false]
    have hs := swap_record_set raw i (c.u.getD i default).permitted
      (c.u.getD i default).inheritable
    split_ifs
    · rw [hs]
    · rw [← hs, ih]

theorem saved_record_swap (k : Consts) (raw : vfs_ns_cap_data) (c : cap_struct)
    (hroot : c.rootid < 2 ^ 32) (magic tocopy : Nat) :
    saved_record k true (swap_record raw) c magic tocopy
      = swap_record (saved_record k false raw c magic tocopy) := by
  have hz : (bswap_32 c.rootid = 0) = (c.rootid = 0) :=
    propext (bswap_32_eq_zero_iff c.rootid hroot)
  unfold saved_record
  simp only [FIXUP_true, FIXUP_false, save_copy_swap, hz]
  unfold swap_record
  simp only
  congr 1
  split_ifs <;> rfl

/-- The run of `_fcaps_save` on the big-endian host, started on the memory that
the little-endian host sees as `raw`: it returns what the little-endian run
returns, with the same `*bytes_p` and `errno`, and leaves the same memory. -/
theorem fcaps_save_swap (k : Consts) (raw : vfs_ns_cap_data) (c : cap_struct)
    (bytes_p errno : Int) (hroot : c.rootid < 2 ^ 32) :
    _fcaps_save k true (swap_record raw) (some c) bytes_p errno
      = ⟨(_fcaps_save k false raw (some c) bytes_p errno).ret,
          swap_record (_fcaps_save k false raw (some c) bytes_p errno).rawvfscap,
          (_fcaps_save k false raw (some c) bytes_p errno).bytes,
          (_fcaps_save k false raw (some c) bytes_p errno).errno⟩ := by
  cases hg : good_cap_t k (some c)
  · rw [fcaps_save_not_good k true _ c bytes_p errno hg,
      fcaps_save_not_good k false _ c bytes_p errno hg]
  · rcases hsw : save_switch k c.head.version with _ | ⟨m, t, bs⟩
    · rw [fcaps_save_unknown_version k true _ c bytes_p errno hsw,
        fcaps_save_unknown_version k false _ c bytes_p errno hsw]
    · cases hr : save_check_range c (k.__CAP_BLKS - t) t
      · rw [fcaps_save_range_fail k true _ c bytes_p errno m t bs hg hsw hr,
          fcaps_save_range_fail k false _ c bytes_p errno m t bs hg hsw hr]
      · have hcs := save_copy_swap c (save_eff_not_zero c t 0 0) t 0 raw
        cases hcp : (save_copy false c (save_eff_not_zero c t 0 0) t 0 raw).2
        · have hcp2 : (save_copy true c (save_eff_not_zero c t 0 0) t 0 (swap_record raw)).2
              = false := by
            rw [hcs]
            exact hcp
          rw [fcaps_save_copy_fail k true _ c bytes_p errno m t bs hg hsw hr hcp2,
            fcaps_save_copy_fail k false _ c bytes_p errno m t bs hg hsw hr hcp, hcs]
        · have hcp2 : (save_copy true c (save_eff_not_zero c t 0 0) t 0 (swap_record raw)).2
              = true := by
            rw [hcs]
            exact hcp
          have hret1 := (fcaps_save_ret_zero_iff k true (swap_record raw) c bytes_p errno
            m t bs hsw).2 ⟨hg, hr, hcp2⟩
          have hret2 := (fcaps_save_ret_zero_iff k false raw c bytes_p errno
            m t bs hsw).2 ⟨hg, hr, hcp⟩
          rw [fcaps_save_ok_eq k true _ c bytes_p errno m t bs hsw hret1,
            fcaps_save_ok_eq k false _ c bytes_p errno m t bs hsw hret2,
            saved_record_swap k raw c hroot]
          have hz : (bswap_32 c.rootid = 0) = (c.rootid = 0) :=
            propext (bswap_32_eq_zero_iff c.rootid hroot)
          simp only [FIXUP_true, FIXUP_false, hz]

theorem load_copy_swap (k : Consts) (m : Nat) (r : vfs_ns_cap_data) (hr : r.typed k)
    (n i : Nat) (res : cap_struct) :
    load_copy k true m (swap_record r) n i res = load_copy k false m r n i res := by
  induction n generalizing i res with
  | zero => rfl
  | succ n ih =>
    simp only [load_copy, FIXUP_true, FIXUP_false, swap_record_getD]
    rw [bswap_32_bswap_32 _ (raw_typed_getD k r hr i).1,
      bswap_32_bswap_32 _ (raw_typed_getD k r hr i).2]
    exact ih _ _

/-- The run of `_fcaps_load` on the big-endian host, on the memory that the
little-endian host sees as the record `r`, gives what the little-endian run
gives. -/
theorem fcaps_load_swap (k : Consts) (r : vfs_ns_cap_data) (hr : r.typed k)
    (result : cap_struct) (bytes : Int) :
    _fcaps_load k true (swap_record r) result bytes = _fcaps_load k false r result bytes := by
  have hm : bswap_32 (swap_record r).magic_etc = r.magic_etc :=
    bswap_32_bswap_32 _ hr.2.1
  have hroot : bswap_32 (swap_record r).rootid = r.rootid :=
    bswap_32_bswap_32 _ hr.2.2.1
  simp only [_fcaps_load, FIXUP_true, FIXUP_false, hm, hroot, load_copy_swap k _ r hr]

theorem save_copy_typed (k : Consts) (be : Bool) (c : cap_struct) (hc : c.typed k)
    (e n i : Nat) (raw : vfs_ns_cap_data) (hraw : raw.typed k) :
    (save_copy be c e n i raw).1.typed k := by
  induction n generalizing i raw with
  | zero => exact hraw
  | succ n ih =>
    simp only [save_copy]
    have hset : ({ raw with data := raw.data.set i (saved_data be c i) } :
        vfs_ns_cap_data).typed k := by
      refine ⟨by simpa using hraw.1, hraw.2.1, hraw.2.2.1, ?_⟩
      intro d hd
      rcases List.mem_or_eq_of_mem_set hd with h | h
      · exact hraw.2.2.2 d h
      · subst h
        exact ⟨FIXUP_lt _ _ (typed_getD k c hc i).2.1, FIXUP_lt _ _ (typed_getD k c hc i).2.2⟩
    split_ifs
    · exact hset
    · exact ih _ _ hset

/-- Every word of the record that `_fcaps_save` leaves behind is a 32-bit word,
whether the call succeeds or fails. -/
theorem fcaps_save_typed (k : Consts) (hk : k.Valid) (be : Bool) (raw : vfs_ns_cap_data)
    (c : cap_struct) (bytes_p errno : Int) (hc : c.typed k) (hraw : raw.typed k) :
    (_fcaps_save k be raw (some c) bytes_p errno).rawvfscap.typed k := by
  cases hg : good_cap_t k (some c)
  · rw [fcaps_save_not_good k be _ c bytes_p errno hg]
    exact hraw
  · rcases hsw : save_switch k c.head.version with _ | ⟨m, t, bs⟩
    · rw [fcaps_save_unknown_version k be _ c bytes_p errno hsw]
      exact hraw
    · cases hr : save_check_range c (k.__CAP_BLKS - t) t
      · rw [fcaps_save_range_fail k be _ c bytes_p errno m t bs hg hsw hr]
        exact hraw
      · have hty := save_copy_typed k be c hc (save_eff_not_zero c t 0 0) t 0 raw hraw
        cases hcp : (save_copy be c (save_eff_not_zero c t 0 0) t 0 raw).2
        · rw [fcaps_save_copy_fail k be _ c bytes_p errno m t bs hg hsw hr hcp]
          exact hty
        · have hret := (fcaps_save_ret_zero_iff k be raw c bytes_p errno
            m t bs hsw).2 ⟨hg, hr, hcp⟩
          rw [fcaps_save_ok_eq k be _ c bytes_p errno m t bs hsw hret]
          have hm := (save_switch_tag k hk _ m t bs hsw).1
          have htag : (if FIXUP_32BITS be c.rootid = 0 then k.VFS_CAP_REVISION_2 else m)
              &&& k.VFS_CAP_REVISION_MASK
                = (if FIXUP_32BITS be c.rootid = 0 then k.VFS_CAP_REVISION_2 else m) := by
            split_ifs
            · exact hk.rev_2_mask
            · exact hm
          refine ⟨hty.1, ?_, FIXUP_lt _ _ hc.2.1, hty.2.2.2⟩
          show (if save_eff_not_zero c t 0 0 = 0 then _ else _) < 2 ^ 32
          split_ifs
          · exact FIXUP_lt _ _ (tag_lt k hk _ hk.rev_2_mask)
          · exact FIXUP_lt _ _ (tag_lt k hk _ hm)
          · exact FIXUP_lt _ _ (tag_flag_lt k hk _ hk.rev_2_mask)
          · exact FIXUP_lt _ _ (tag_flag_lt k hk _ hm)

/-- The bytes in memory of a record on the big-endian host are the bytes of the
byte-swapped record on the little-endian host. -/
theorem record_bytes_swap (k : Consts) (r : vfs_ns_cap_data) (hr : r.typed k) :
    record_bytes true (swap_record r) = record_bytes false r := by
  have hw : ∀ x, x < 2 ^ 32 → word_bytes true (bswap_32 x) = word_bytes false x := by
    intro x hx
    have h := word_bytes_FIXUP true x hx
    rw [FIXUP_true] at h
    rw [h]
    simp [word_bytes, le32]
  have hf : (swap_record r).data.flatMap (data_bytes true)
      = r.data.flatMap (data_bytes false) := by
    unfold swap_record
    simp only [List.flatMap_map]
    apply List.flatMap_congr
    intro d hd
    simp only [data_bytes]
    rw [hw _ (hr.2.2.2 d hd).1, hw _ (hr.2.2.2 d hd).2]
  unfold record_bytes
  rw [hf]
  unfold swap_record
  simp only
  rw [hw _ hr.2.1, hw _ hr.2.2.1]

/-- C13. Endianness symmetry: take a capability set `c` of 32-bit masks, any
requested version, and a record buffer holding the same memory on both hosts
(the big-endian host reads the byte-swapped words `swap_record raw` where the
little-endian host reads `raw`). Then `_fcaps_save` with `FIXUP_32BITS` as
`bswap_32` and with `FIXUP_32BITS` as the identity return the same value, the
same `*bytes_p` and the same `errno`, so both fail or both succeed; they leave
the same bytes in memory, so the same on-disk byte sequence of `*bytes_p`
bytes; and `_fcaps_load` on the two hosts decodes what they left to the same
outcome, `NULL` on both or the same capability set. -/
theorem fcaps_endianness_symmetry (k : Consts) (hk : k.Valid) (raw : vfs_ns_cap_data)
    (c result : cap_struct) (bytes_p errno : Int) (hc : c.typed k) (hraw : raw.typed k) :
    (_fcaps_save k true (swap_record raw) (some c) bytes_p errno).ret
        = (_fcaps_save k false raw (some c) bytes_p errno).ret
      ∧ (_fcaps_save k true (swap_record raw) (some c) bytes_p errno).bytes
        = (_fcaps_save k false raw (some c) bytes_p errno).bytes
      ∧ (_fcaps_save k true (swap_record raw) (some c) bytes_p errno).errno
        = (_fcaps_save k false raw (some c) bytes_p errno).errno
      ∧ record_bytes true (_fcaps_save k true (swap_record raw) (some c) bytes_p errno).rawvfscap
        = record_bytes false (_fcaps_save k false raw (some c) bytes_p errno).rawvfscap
      ∧ (record_bytes true
            (_fcaps_save k true (swap_record raw) (some c) bytes_p errno).rawvfscap).take
          (_fcaps_save k true (swap_record raw) (some c) bytes_p errno).bytes.toNat
        = (record_bytes false (_fcaps_save k false raw (some c) bytes_p errno).rawvfscap).take
          (_fcaps_save k false raw (some c) bytes_p errno).bytes.toNat
      ∧ _fcaps_load k true
          (_fcaps_save k true (swap_record raw) (some c) bytes_p errno).rawvfscap result
          (_fcaps_save k true (swap_record raw) (some c) bytes_p errno).bytes
        = _fcaps_load k false (_fcaps_save k false raw (some c) bytes_p errno).rawvfscap result
          (_fcaps_save k false raw (some c) bytes_p errno).bytes := by
  have hty := fcaps_save_typed k hk false raw c bytes_p errno hc hraw
  rw [fcaps_save_swap k raw c bytes_p errno hc.2.1]
  simp only
  rw [record_bytes_swap k _ hty, fcaps_load_swap k _ hty]
  exact ⟨trivial, trivial, trivial, rfl, rfl, rfl⟩

/-- The claim C13 on Linux: a version-3 set with root id 1000 and effective
masks equal to permitted | inheritable is encoded into a buffer of stale words
on both hosts. Both runs succeed with 24 bytes, both leave the revision-3
record `01 00 00 03 | 01 00 00 00 | 02 00 00 00 | 00 01 00 00 | 00 00 00 00 |
e8 03 00 00` as the on-disk byte sequence, and both decode it to the original
set. -/
theorem fcaps_endianness_symmetry_witness :
    ((_fcaps_save linux true (swap_record ⟨7, [⟨7, 7⟩, ⟨7, 7⟩], 7⟩)
          (some ⟨0xCA90D0, ⟨0x20080522, 0⟩, [⟨3, 1, 2⟩, ⟨0x100, 0x100, 0⟩], 1000⟩) 0 0).ret = 0
      ∧ (_fcaps_save linux false ⟨7, [⟨7, 7⟩, ⟨7, 7⟩], 7⟩
          (some ⟨0xCA90D0, ⟨0x20080522, 0⟩, [⟨3, 1, 2⟩, ⟨0x100, 0x100, 0⟩], 1000⟩) 0 0).ret = 0
      ∧ (_fcaps_save linux true (swap_record ⟨7, [⟨7, 7⟩, ⟨7, 7⟩], 7⟩)
          (some ⟨0xCA90D0, ⟨0x20080522, 0⟩, [⟨3, 1, 2⟩, ⟨0x100, 0x100, 0⟩], 1000⟩) 0 0).bytes = 24
      ∧ (record_bytes true (_fcaps_save linux true (swap_record ⟨7, [⟨7, 7⟩, ⟨7, 7⟩], 7⟩)
          (some ⟨0xCA90D0, ⟨0x20080522, 0⟩, [⟨3, 1, 2⟩, ⟨0x100, 0x100, 0⟩], 1000⟩) 0 0).rawvfscap).take 24
        = [1, 0, 0, 3, 1, 0, 0, 0, 2, 0, 0, 0, 0, 1, 0, 0, 0, 0, 0, 0, 0xe8, 3, 0, 0]
      ∧ (record_bytes false (_fcaps_save linux false ⟨7, [⟨7, 7⟩, ⟨7, 7⟩], 7⟩
          (some ⟨0xCA90D0, ⟨0x20080522, 0⟩, [⟨3, 1, 2⟩, ⟨0x100, 0x100, 0⟩], 1000⟩) 0 0).rawvfscap).take 24
        = [1, 0, 0, 3, 1, 0, 0, 0, 2, 0, 0, 0, 0, 1, 0, 0, 0, 0, 0, 0, 0xe8, 3, 0, 0]
      ∧ _fcaps_load linux true (_fcaps_save linux true (swap_record ⟨7, [⟨7, 7⟩, ⟨7, 7⟩], 7⟩)
          (some ⟨0xCA90D0, ⟨0x20080522, 0⟩, [⟨3, 1, 2⟩, ⟨0x100, 0x100, 0⟩], 1000⟩) 0 0).rawvfscap
          ⟨0xCA90D0, ⟨0x20080522, 0⟩, [⟨0, 0, 0⟩, ⟨0, 0, 0⟩], 0⟩ 24
        = some ⟨0xCA90D0, ⟨0x20080522, 0⟩, [⟨3, 1, 2⟩, ⟨0x100, 0x100, 0⟩], 1000⟩
      ∧ _fcaps_load linux false (_fcaps_save linux false ⟨7, [⟨7, 7⟩, ⟨7, 7⟩], 7⟩
          (some ⟨0xCA90D0, ⟨0x20080522, 0⟩, [⟨3, 1, 2⟩, ⟨0x100, 0x100, 0⟩], 1000⟩) 0 0).rawvfscap
          ⟨0xCA90D0, ⟨0x20080522, 0⟩, [⟨0, 0, 0⟩, ⟨0, 0, 0⟩], 0⟩ 24
        = some ⟨0xCA90D0, ⟨0x20080522, 0⟩, [⟨3, 1, 2⟩, ⟨0x100, 0x100, 0⟩], 1000⟩)
    ∧ ((_fcaps_save linux true (swap_record ⟨7, [⟨7, 7⟩, ⟨7, 7⟩], 7⟩)
          (some ⟨0xCA90D0, ⟨0x20080522, 0⟩, [⟨3, 1, 2⟩, ⟨0x100, 0x100, 0⟩], 1000⟩) 0 0).ret
        = (_fcaps_save linux false ⟨7, [⟨7, 7⟩, ⟨7, 7⟩], 7⟩
          (some ⟨0xCA90D0, ⟨0x20080522, 0⟩, [⟨3, 1, 2⟩, ⟨0x100, 0x100, 0⟩], 1000⟩) 0 0).ret
      ∧ (_fcaps_save linux true (swap_record ⟨7, [⟨7, 7⟩, ⟨7, 7⟩], 7⟩)
          (some ⟨0xCA90D0, ⟨0x20080522, 0⟩, [⟨3, 1, 2⟩, ⟨0x100, 0x100, 0⟩], 1000⟩) 0 0).bytes
        = (_fcaps_save linux false ⟨7, [⟨7, 7⟩, ⟨7, 7⟩], 7⟩
          (some ⟨0xCA90D0, ⟨0x20080522, 0⟩, [⟨3, 1, 2⟩, ⟨0x100, 0x100, 0⟩], 1000⟩) 0 0).bytes
      ∧ (_fcaps_save linux true (swap_record ⟨7, [⟨7, 7⟩, ⟨7, 7⟩], 7⟩)
          (some ⟨0xCA90D0, ⟨0x20080522, 0⟩, [⟨3, 1, 2⟩, ⟨0x100, 0x100, 0⟩], 1000⟩) 0 0).errno
        = (_fcaps_save linux false ⟨7, [⟨7, 7⟩, ⟨7, 7⟩], 7⟩
          (some ⟨0xCA90D0, ⟨0x20080522, 0⟩, [⟨3, 1, 2⟩, ⟨0x100, 0x100, 0⟩], 1000⟩) 0 0).errno
      ∧ record_bytes true (_fcaps_save linux true (swap_record ⟨7, [⟨7, 7⟩, ⟨7, 7⟩], 7⟩)
          (some ⟨0xCA90D0, ⟨0x20080522, 0⟩, [⟨3, 1, 2⟩, ⟨0x100, 0x100, 0⟩], 1000⟩) 0 0).rawvfscap
        = record_bytes false (_fcaps_save linux false ⟨7, [⟨7, 7⟩, ⟨7, 7⟩], 7⟩
          (some ⟨0xCA90D0, ⟨0x20080522, 0⟩, [⟨3, 1, 2⟩, ⟨0x100, 0x100, 0⟩], 1000⟩) 0 0).rawvfscap
      ∧ (record_bytes true (_fcaps_save linux true (swap_record ⟨7, [⟨7, 7⟩, ⟨7, 7⟩], 7⟩)
          (some ⟨0xCA90D0, ⟨0x20080522, 0⟩, [⟨3, 1, 2⟩, ⟨0x100, 0x100, 0⟩], 1000⟩) 0 0).rawvfscap).take
          (_fcaps_save linux true (swap_record ⟨7, [⟨7, 7⟩, ⟨7, 7⟩], 7⟩)
          (some ⟨0xCA90D0, ⟨0x20080522, 0⟩, [⟨3, 1, 2⟩, ⟨0x100, 0x100, 0⟩], 1000⟩) 0 0).bytes.toNat
        = (record_bytes false (_fcaps_save linux false ⟨7, [⟨7, 7⟩, ⟨7, 7⟩], 7⟩
          (some ⟨0xCA90D0, ⟨0x20080522, 0⟩, [⟨3, 1, 2⟩, ⟨0x100, 0x100, 0⟩], 1000⟩) 0 0).rawvfscap).take
          (_fcaps_save linux false ⟨7, [⟨7, 7⟩, ⟨7, 7⟩], 7⟩
          (some ⟨0xCA90D0, ⟨0x20080522, 0⟩, [⟨3, 1, 2⟩, ⟨0x100, 0x100, 0⟩], 1000⟩) 0 0).bytes.toNat
      ∧ _fcaps_load linux true (_fcaps_save linux true (swap_record ⟨7, [⟨7, 7⟩, ⟨7, 7⟩], 7⟩)
          (some ⟨0xCA90D0, ⟨0x20080522, 0⟩, [⟨3, 1, 2⟩, ⟨0x100, 0x100, 0⟩], 1000⟩) 0 0).rawvfscap
          ⟨0xCA90D0, ⟨0x20080522, 0⟩, [⟨0, 0, 0⟩, ⟨0, 0, 0⟩], 0⟩
          (_fcaps_save linux true (swap_record ⟨7, [⟨7, 7⟩, ⟨7, 7⟩], 7⟩)
          (some ⟨0xCA90D0, ⟨0x20080522, 0⟩, [⟨3, 1, 2⟩, ⟨0x100, 0x100, 0⟩], 1000⟩) 0 0).bytes
        = _fcaps_load linux false (_fcaps_save linux false ⟨7, [⟨7, 7⟩, ⟨7, 7⟩], 7⟩
          (some ⟨0xCA90D0, ⟨0x20080522, 0⟩, [⟨3, 1, 2⟩, ⟨0x100, 0x100, 0⟩], 1000⟩) 0 0).rawvfscap
          ⟨0xCA90D0, ⟨0x20080522, 0⟩, [⟨0, 0, 0⟩, ⟨0, 0, 0⟩], 0⟩
          (_fcaps_save linux false ⟨7, [⟨7, 7⟩, ⟨7, 7⟩], 7⟩
          (some ⟨0xCA90D0, ⟨0x20080522, 0⟩, [⟨3, 1, 2⟩, ⟨0x100, 0x100, 0⟩], 1000⟩) 0 0).bytes) :=
  ⟨by decide,
    fcaps_endianness_symmetry linux linux_valid ⟨7, [⟨7, 7⟩, ⟨7, 7⟩], 7⟩
      ⟨0xCA90D0, ⟨0x20080522, 0⟩, [⟨3, 1, 2⟩, ⟨0x100, 0x100, 0⟩], 1000⟩
      ⟨0xCA90D0, ⟨0x20080522, 0⟩, [⟨0, 0, 0⟩, ⟨0, 0, 0⟩], 0⟩ 0 0 (by decide) (by decide)⟩

end CapFile
